import Mathlib

/-!
GnuTLS algorithm registry and cipher-suite selector.

A shallow embedding of `lib/gnutls_algorithms.c` (with the types of
`lib/gnutls_int.h`): the static algorithm tables, the per-session priority
lookups, the score comparator, the hand-written partition/quicksort and the
cipher-suite selector built on them, the count, attribute, name, capability,
compression-number and version lookups of the registry, and the padding and
parameter checks of `lib/x509/privkey_pkcs8.c`.

Conventions of the embedding.

* Algorithm identifiers (C enums) and the bytes of a cipher suite are `Nat`; the
  entries of a priority list are algorithm identifiers and are compared as such.
* `int` values that may be `-1` (priorities, comparator results, scores) are `Int`.
  The score arithmetic of the comparator is done in 32-bit `int`: every result is
  reduced by `int32`, so a score that leaves the range of a C `int` (which takes a
  priority list of more than twenty million entries) wraps as it does in the
  compiled code.
* A zero-terminated C table is the `List` of its entries before the `{0}` sentinel;
  the `..._LOOP` scanning macros become `List.find?`.
* A priority list `{int *algorithm_priority; int algorithms;}` is the `List` of its
  first `algorithms` entries.
* The sort works on an array of `nmemb` elements of `size` bytes; every byte offset
  the C code computes is a multiple of `size`, so the embedding indexes elements.
* Loops whose termination depends on the comparator take a `fuel` argument and
  return `none` when it runs out; the theorems show that a stated amount suffices.
-/

namespace Gnutls

/-! ## Identifiers (`gnutls_int.h`) -/

/-- BulkCipherAlgorithm enum: `GNUTLS_NULL_CIPHER=1`. -/
def GNUTLS_NULL_CIPHER : Nat := 1
/-- BulkCipherAlgorithm enum. -/
def GNUTLS_ARCFOUR : Nat := 2
/-- BulkCipherAlgorithm enum. -/
def GNUTLS_3DES : Nat := 3
/-- BulkCipherAlgorithm enum. -/
def GNUTLS_RIJNDAEL : Nat := 4
/-- BulkCipherAlgorithm enum. -/
def GNUTLS_TWOFISH : Nat := 5
/-- BulkCipherAlgorithm enum. -/
def GNUTLS_RIJNDAEL256 : Nat := 6

/-- KXAlgorithm enum: `GNUTLS_KX_RSA=1`. -/
def GNUTLS_KX_RSA : Nat := 1
/-- KXAlgorithm enum. -/
def GNUTLS_KX_DHE_DSS : Nat := 2
/-- KXAlgorithm enum. -/
def GNUTLS_KX_DHE_RSA : Nat := 3
/-- KXAlgorithm enum. -/
def GNUTLS_KX_DH_DSS : Nat := 4
/-- KXAlgorithm enum. -/
def GNUTLS_KX_DH_RSA : Nat := 5
/-- KXAlgorithm enum. -/
def GNUTLS_KX_DH_ANON : Nat := 6
/-- KXAlgorithm enum. -/
def GNUTLS_KX_SRP : Nat := 7

/-- MACAlgorithm enum: `GNUTLS_NULL_MAC=1`. -/
def GNUTLS_NULL_MAC : Nat := 1
/-- MACAlgorithm enum. -/
def GNUTLS_MAC_MD5 : Nat := 2
/-- MACAlgorithm enum. -/
def GNUTLS_MAC_SHA : Nat := 3

/-- CompressionMethod enum: `GNUTLS_NULL_COMPRESSION=1`. -/
def GNUTLS_NULL_COMPRESSION : Nat := 1
/-- CompressionMethod enum. -/
def GNUTLS_ZLIB : Nat := 2

/-- The two bytes `uint8 CipherSuite[2]` of a cipher-suite identifier. -/
structure GNUTLS_CipherSuite where
  CipherSuite0 : Nat
  CipherSuite1 : Nat
deriving DecidableEq, Repr

/-- The four per-session priority lists of `GNUTLS_INTERNALS`; each list holds the
first `algorithms` entries of `algorithm_priority`. -/
structure GNUTLS_STATE where
  BulkCipherAlgorithmPriority : List Nat
  MACAlgorithmPriority : List Nat
  KXAlgorithmPriority : List Nat
  CompressionMethodPriority : List Nat
deriving Repr

/-! ## Static tables -/

/-- Entry of the cipher table. -/
structure gnutls_cipher_entry where
  name : String
  id : Nat
  blocksize : Nat
  keysize : Nat
  block : Nat
  iv : Nat
deriving Repr

/-- The cipher table `algorithms[]`. -/
def algorithms : List gnutls_cipher_entry :=
  [ ⟨"GNUTLS_3DES", GNUTLS_3DES, 8, 24, 1, 8⟩,
    ⟨"GNUTLS_RIJNDAEL", GNUTLS_RIJNDAEL, 16, 16, 1, 16⟩,
    ⟨"GNUTLS_RIJNDAEL256", GNUTLS_RIJNDAEL256, 16, 32, 1, 16⟩,
    ⟨"GNUTLS_TWOFISH", GNUTLS_TWOFISH, 16, 16, 1, 16⟩,
    ⟨"GNUTLS_ARCFOUR", GNUTLS_ARCFOUR, 1, 16, 0, 0⟩,
    ⟨"GNUTLS_NULL_CIPHER", GNUTLS_NULL_CIPHER, 1, 0, 0, 0⟩ ]

/-- Entry of the MAC table. -/
structure gnutls_hash_entry where
  name : String
  id : Nat
  digestsize : Nat
deriving Repr

/-- The MAC table `hash_algorithms[]`. -/
def hash_algorithms : List gnutls_hash_entry :=
  [ ⟨"GNUTLS_MAC_SHA", GNUTLS_MAC_SHA, 20⟩,
    ⟨"GNUTLS_MAC_MD5", GNUTLS_MAC_MD5, 16⟩,
    ⟨"GNUTLS_NULL_MAC", GNUTLS_NULL_MAC, 0⟩ ]

/-- Entry of the compression table. -/
structure gnutls_compression_entry where
  name : String
  id : Nat
  num : Nat
deriving Repr

/-- The compression table `compression_algorithms[]`, with `HAVE_LIBZ` given by
the argument. -/
def compression_algorithms (HAVE_LIBZ : Bool) : List gnutls_compression_entry :=
  [ ⟨"GNUTLS_NULL_COMPRESSION", GNUTLS_NULL_COMPRESSION, 0⟩ ] ++
  (if HAVE_LIBZ then [ ⟨"GNUTLS_ZLIB", GNUTLS_ZLIB, 224⟩ ] else [])

/-- Entry of the key-exchange table; `auth_struct` is `none` for a `NULL` pointer
and otherwise names the handler structure pointed to. -/
structure gnutls_kx_algo_entry where
  name : String
  algorithm : Nat
  server_cert : Nat
  client_cert : Nat
  RSA_premaster : Nat
  DH_public_value : Nat
  auth_struct : Option String
deriving Repr

/-- The key-exchange table `kx_algorithms[]` (the `GNUTLS_KX_DHE_DSS` entry is
commented out in the source). -/
def kx_algorithms : List gnutls_kx_algo_entry :=
  [ ⟨"GNUTLS_KX_DH_ANON", GNUTLS_KX_DH_ANON, 0, 0, 0, 1, some "anon_auth_struct"⟩,
    ⟨"GNUTLS_KX_RSA", GNUTLS_KX_RSA, 1, 1, 1, 0, none⟩,
    ⟨"GNUTLS_KX_DHE_RSA", GNUTLS_KX_DHE_RSA, 1, 1, 0, 0, none⟩,
    ⟨"GNUTLS_KX_DH_DSS", GNUTLS_KX_DH_DSS, 1, 1, 0, 0, none⟩,
    ⟨"GNUTLS_KX_DH_RSA", GNUTLS_KX_DH_RSA, 1, 1, 0, 0, none⟩,
    ⟨"GNUTLS_KX_SRP", GNUTLS_KX_SRP, 0, 0, 0, 0, some "srp_auth_struct"⟩ ]

/-- Entry of the cipher-suite table. -/
structure gnutls_cipher_suite_entry where
  name : String
  id : GNUTLS_CipherSuite
  block_algorithm : Nat
  kx_algorithm : Nat
  mac_algorithm : Nat
deriving Repr

/-- The cipher-suite table `cs_algorithms[]`, in source order. -/
def cs_algorithms : List gnutls_cipher_suite_entry :=
  [ -- DH_anon
    ⟨"GNUTLS_DH_anon_ARCFOUR_MD5", ⟨0x00, 0x18⟩, GNUTLS_ARCFOUR, GNUTLS_KX_DH_ANON, GNUTLS_MAC_MD5⟩,
    ⟨"GNUTLS_DH_anon_3DES_EDE_CBC_SHA", ⟨0x00, 0x1B⟩, GNUTLS_3DES, GNUTLS_KX_DH_ANON, GNUTLS_MAC_SHA⟩,
    ⟨"GNUTLS_DH_anon_RIJNDAEL_128_CBC_SHA", ⟨0x00, 0x34⟩, GNUTLS_RIJNDAEL, GNUTLS_KX_DH_ANON, GNUTLS_MAC_SHA⟩,
    ⟨"GNUTLS_DH_anon_RIJNDAEL_256_CBC_SHA", ⟨0x00, 0x3A⟩, GNUTLS_RIJNDAEL256, GNUTLS_KX_DH_ANON, GNUTLS_MAC_SHA⟩,
    ⟨"GNUTLS_DH_anon_TWOFISH_128_CBC_SHA", ⟨0xF6, 0x50⟩, GNUTLS_TWOFISH, GNUTLS_KX_DH_ANON, GNUTLS_MAC_SHA⟩,
    -- SRP
    ⟨"GNUTLS_SRP_ARCFOUR_MD5", ⟨0xF6, 0x61⟩, GNUTLS_ARCFOUR, GNUTLS_KX_SRP, GNUTLS_MAC_MD5⟩,
    ⟨"GNUTLS_SRP_3DES_EDE_CBC_SHA", ⟨0xF6, 0x60⟩, GNUTLS_3DES, GNUTLS_KX_SRP, GNUTLS_MAC_SHA⟩,
    ⟨"GNUTLS_SRP_RIJNDAEL_128_CBC_SHA", ⟨0xF6, 0x62⟩, GNUTLS_RIJNDAEL, GNUTLS_KX_SRP, GNUTLS_MAC_SHA⟩,
    ⟨"GNUTLS_SRP_RIJNDAEL_256_CBC_SHA", ⟨0xF6, 0x63⟩, GNUTLS_RIJNDAEL256, GNUTLS_KX_SRP, GNUTLS_MAC_SHA⟩,
    ⟨"GNUTLS_SRP_TWOFISH_128_CBC_SHA", ⟨0xF6, 0x64⟩, GNUTLS_TWOFISH, GNUTLS_KX_SRP, GNUTLS_MAC_SHA⟩,
    -- DH_DSS
    ⟨"GNUTLS_DH_DSS_3DES_EDE_CBC_SHA", ⟨0x00, 0x0D⟩, GNUTLS_3DES, GNUTLS_KX_DH_DSS, GNUTLS_MAC_SHA⟩,
    ⟨"GNUTLS_DH_DSS_RIJNDAEL_128_CBC_SHA", ⟨0x00, 0x30⟩, GNUTLS_RIJNDAEL, GNUTLS_KX_DH_DSS, GNUTLS_MAC_SHA⟩,
    ⟨"GNUTLS_DH_DSS_RIJNDAEL_256_CBC_SHA", ⟨0x00, 0x36⟩, GNUTLS_RIJNDAEL256, GNUTLS_KX_DH_DSS, GNUTLS_MAC_SHA⟩,
    ⟨"GNUTLS_DH_DSS_TWOFISH_128_CBC_SHA", ⟨0xF6, 0x52⟩, GNUTLS_TWOFISH, GNUTLS_KX_DH_DSS, GNUTLS_MAC_SHA⟩,
    -- DH_RSA
    ⟨"GNUTLS_DH_RSA_3DES_EDE_CBC_SHA", ⟨0x00, 0x10⟩, GNUTLS_3DES, GNUTLS_KX_DH_RSA, GNUTLS_MAC_SHA⟩,
    ⟨"GNUTLS_DH_RSA_RIJNDAEL_128_CBC_SHA", ⟨0x00, 0x31⟩, GNUTLS_RIJNDAEL, GNUTLS_KX_DH_RSA, GNUTLS_MAC_SHA⟩,
    ⟨"GNUTLS_DH_RSA_RIJNDAEL_256_CBC_SHA", ⟨0x00, 0x37⟩, GNUTLS_RIJNDAEL256, GNUTLS_KX_DH_RSA, GNUTLS_MAC_SHA⟩,
    ⟨"GNUTLS_DH_RSA_TWOFISH_128_CBC_SHA", ⟨0xF6, 0x53⟩, GNUTLS_TWOFISH, GNUTLS_KX_DH_RSA, GNUTLS_MAC_SHA⟩,
    -- DHE_DSS
    ⟨"GNUTLS_DHE_DSS_TWOFISH_128_CBC_SHA", ⟨0xF6, 0x54⟩, GNUTLS_TWOFISH, GNUTLS_KX_DHE_DSS, GNUTLS_MAC_SHA⟩,
    ⟨"GNUTLS_DHE_DSS_3DES_EDE_CBC_SHA", ⟨0x00, 0x13⟩, GNUTLS_3DES, GNUTLS_KX_DHE_DSS, GNUTLS_MAC_SHA⟩,
    ⟨"GNUTLS_DHE_DSS_RIJNDAEL_128_CBC_SHA", ⟨0x00, 0x32⟩, GNUTLS_RIJNDAEL, GNUTLS_KX_DHE_DSS, GNUTLS_MAC_SHA⟩,
    ⟨"GNUTLS_DHE_DSS_RIJNDAEL_256_CBC_SHA", ⟨0x00, 0x38⟩, GNUTLS_RIJNDAEL256, GNUTLS_KX_DHE_DSS, GNUTLS_MAC_SHA⟩,
    -- DHE_RSA
    ⟨"GNUTLS_DHE_RSA_TWOFISH_128_CBC_SHA", ⟨0xF6, 0x55⟩, GNUTLS_TWOFISH, GNUTLS_KX_DHE_RSA, GNUTLS_MAC_SHA⟩,
    ⟨"GNUTLS_DHE_RSA_3DES_EDE_CBC_SHA", ⟨0x00, 0x16⟩, GNUTLS_3DES, GNUTLS_KX_DHE_RSA, GNUTLS_MAC_SHA⟩,
    ⟨"GNUTLS_DHE_RSA_RIJNDAEL_128_CBC_SHA", ⟨0x00, 0x33⟩, GNUTLS_RIJNDAEL, GNUTLS_KX_DHE_RSA, GNUTLS_MAC_SHA⟩,
    ⟨"GNUTLS_DHE_RSA_RIJNDAEL_256_CBC_SHA", ⟨0x00, 0x39⟩, GNUTLS_RIJNDAEL256, GNUTLS_KX_DHE_RSA, GNUTLS_MAC_SHA⟩,
    -- RSA
    ⟨"GNUTLS_RSA_ARCFOUR_SHA", ⟨0x00, 0x05⟩, GNUTLS_ARCFOUR, GNUTLS_KX_RSA, GNUTLS_MAC_SHA⟩,
    ⟨"GNUTLS_RSA_ARCFOUR_MD5", ⟨0x00, 0x04⟩, GNUTLS_ARCFOUR, GNUTLS_KX_RSA, GNUTLS_MAC_MD5⟩,
    ⟨"GNUTLS_RSA_3DES_EDE_CBC_SHA", ⟨0x00, 0x0A⟩, GNUTLS_3DES, GNUTLS_KX_RSA, GNUTLS_MAC_SHA⟩,
    ⟨"GNUTLS_RSA_RIJNDAEL_128_CBC_SHA", ⟨0x00, 0x2F⟩, GNUTLS_RIJNDAEL, GNUTLS_KX_RSA, GNUTLS_MAC_SHA⟩,
    ⟨"GNUTLS_RSA_RIJNDAEL_256_CBC_SHA", ⟨0x00, 0x35⟩, GNUTLS_RIJNDAEL256, GNUTLS_KX_RSA, GNUTLS_MAC_SHA⟩,
    ⟨"GNUTLS_RSA_TWOFISH_128_CBC_SHA", ⟨0xF6, 0x51⟩, GNUTLS_TWOFISH, GNUTLS_KX_RSA, GNUTLS_MAC_SHA⟩ ]

/-! ## Priority lookups -/

/-- The loop shared by the four priority lookups:
`for (i = 0; i < algorithms; i++) if (algorithm_priority[i] == algorithm) return i; return -1;`
started at index `i` on the remaining entries of the list. -/
def priority_scan (algorithm : Nat) : List Nat → Int → Int
  | [], _ => -1
  | x :: rest, i => if x = algorithm then i else priority_scan algorithm rest (i + 1)

/-- Position of a MAC algorithm in the session's MAC priority list, or -1. -/
def _gnutls_mac_priority (state : GNUTLS_STATE) (algorithm : Nat) : Int :=
  priority_scan algorithm state.MACAlgorithmPriority 0

/-- Position of a compression method in the session's priority list, or -1. -/
def _gnutls_compression_priority (state : GNUTLS_STATE) (algorithm : Nat) : Int :=
  priority_scan algorithm state.CompressionMethodPriority 0

/-- Position of a cipher in the session's cipher priority list, or -1. -/
def _gnutls_cipher_priority (state : GNUTLS_STATE) (algorithm : Nat) : Int :=
  priority_scan algorithm state.BulkCipherAlgorithmPriority 0

/-- Position of a key exchange in the session's KX priority list, or -1. -/
def _gnutls_kx_priority (state : GNUTLS_STATE) (algorithm : Nat) : Int :=
  priority_scan algorithm state.KXAlgorithmPriority 0

/-! ## Validity checks -/

/-- The value `(size_t) -1` that the validity checks start from (64-bit `size_t`). -/
def SIZE_T_MINUS_ONE : Nat := 2 ^ 64 - 1

/-- Validity check of a MAC id: `size_t ret = -1; GNUTLS_HASH_ALG_LOOP(ret = p->id);
if (ret >= 0) ret = 0; else ret = 1; return ret;`. The variable `ret` is unsigned:
it holds the id of the first matching entry, or `(size_t) -1` when none matches. -/
def _gnutls_mac_is_ok (algorithm : Nat) : Int :=
  let ret : Nat := ((hash_algorithms.find? (fun p => p.id == algorithm)).map
    (fun p => p.id)).getD SIZE_T_MINUS_ONE
  if ret ≥ (0 : Nat) then 0 else 1

/-- Validity check of a compression id, same shape as the MAC one. -/
def _gnutls_compression_is_ok (HAVE_LIBZ : Bool) (algorithm : Nat) : Int :=
  let ret : Nat := (((compression_algorithms HAVE_LIBZ).find? (fun p => p.id == algorithm)).map
    (fun p => p.id)).getD SIZE_T_MINUS_ONE
  if ret ≥ (0 : Nat) then 0 else 1

/-- Validity check of a cipher id, same shape as the MAC one. -/
def _gnutls_cipher_is_ok (algorithm : Nat) : Int :=
  let ret : Nat := ((algorithms.find? (fun p => p.id == algorithm)).map
    (fun p => p.id)).getD SIZE_T_MINUS_ONE
  if ret ≥ (0 : Nat) then 0 else 1

/-- Validity check of a key-exchange id, same shape as the MAC one. -/
def _gnutls_kx_is_ok (algorithm : Nat) : Int :=
  let ret : Nat := ((kx_algorithms.find? (fun p => p.algorithm == algorithm)).map
    (fun p => p.algorithm)).getD SIZE_T_MINUS_ONE
  if ret ≥ (0 : Nat) then 0 else 1

/-! ## Cipher-suite lookups -/

/-- The scan `GNUTLS_CIPHER_SUITE_ALG_LOOP`: first table entry whose two id bytes
equal those of `suite`. -/
def GNUTLS_CIPHER_SUITE_ALG_LOOP (suite : GNUTLS_CipherSuite) :
    Option gnutls_cipher_suite_entry :=
  cs_algorithms.find? (fun p =>
    p.id.CipherSuite0 == suite.CipherSuite0 && p.id.CipherSuite1 == suite.CipherSuite1)

/-- Cipher of a suite; `ret` starts at 0 and stays 0 when no entry matches. -/
def _gnutls_cipher_suite_get_cipher_algo (suite : GNUTLS_CipherSuite) : Nat :=
  match GNUTLS_CIPHER_SUITE_ALG_LOOP suite with
  | some p => p.block_algorithm
  | none => 0

/-- Key exchange of a suite; 0 when no entry matches. -/
def _gnutls_cipher_suite_get_kx_algo (suite : GNUTLS_CipherSuite) : Nat :=
  match GNUTLS_CIPHER_SUITE_ALG_LOOP suite with
  | some p => p.kx_algorithm
  | none => 0

/-- MAC of a suite; 0 when no entry matches. -/
def _gnutls_cipher_suite_get_mac_algo (suite : GNUTLS_CipherSuite) : Nat :=
  match GNUTLS_CIPHER_SUITE_ALG_LOOP suite with
  | some p => p.mac_algorithm
  | none => 0

/-- Validity of a suite id: 0 when an entry matches (its name is not `NULL`), else 1. -/
def _gnutls_cipher_suite_is_ok (suite : GNUTLS_CipherSuite) : Int :=
  match GNUTLS_CIPHER_SUITE_ALG_LOOP suite with
  | some _ => 0
  | none => 1

/-- Number of valid suite ids: `j` and `i` run over `0..255`, first bytes other than
`0x00` and `0xF6` are skipped, and every valid `(j, i)` adds one to the counter. -/
def _gnutls_cipher_suite_count : Nat :=
  (List.range 256).foldl (fun counter j =>
    if j ≠ 0x00 ∧ j ≠ 0xF6 then counter
    else (List.range 256).foldl (fun counter i =>
      if _gnutls_cipher_suite_is_ok ⟨j, i⟩ = 0 then counter + 1 else counter) counter) 0

/-! ## The comparator -/

/-- The value of a C `int` expression whose mathematical result is `x`: the 32-bit
two's complement representative of `x`, between `-2^31` and `2^31 - 1`. Inside that
range it is `x` itself; outside it the result wraps modulo `2^32`, as the compiled
code does on overflow. -/
def int32 (x : Int) : Int :=
  (x + 2147483648) % 4294967296 - 2147483648

/-- The score comparator of the sort: 1, 0 or -1 as `p1 > p2`, `p1 = p2`, `p1 < p2`,
where `p1` and `p2` are `int` variables built up in three steps from the KX, cipher
and MAC priorities of the two suites:
`p = (kx_priority + 1) * 100; p += (cipher_priority + 1) * 10; p += mac_priority;`. -/
def _gnutls_compare_algo (state : GNUTLS_STATE) (i_A1 i_A2 : GNUTLS_CipherSuite) : Int :=
  let kA1 := _gnutls_cipher_suite_get_kx_algo i_A1
  let kA2 := _gnutls_cipher_suite_get_kx_algo i_A2
  let cA1 := _gnutls_cipher_suite_get_cipher_algo i_A1
  let cA2 := _gnutls_cipher_suite_get_cipher_algo i_A2
  let mA1 := _gnutls_cipher_suite_get_mac_algo i_A1
  let mA2 := _gnutls_cipher_suite_get_mac_algo i_A2
  let p1 := int32 (int32 (_gnutls_kx_priority state kA1 + 1) * 100)
  let p2 := int32 (int32 (_gnutls_kx_priority state kA2 + 1) * 100)
  let p1 := int32 (p1 + int32 (int32 (_gnutls_cipher_priority state cA1 + 1) * 10))
  let p2 := int32 (p2 + int32 (int32 (_gnutls_cipher_priority state cA2 + 1) * 10))
  let p1 := int32 (p1 + _gnutls_mac_priority state mA1)
  let p2 := int32 (p2 + _gnutls_mac_priority state mA2)
  if p1 > p2 then 1
  else if p1 = p2 then 0
  else -1

/-! ## Partition and quicksort -/

section Sorting
variable {σ α : Type}

/-- The `SWAP(x, y)` of the source on elements `x` and `y` of `base`:
`tmp = base[x]; base[x] = base[y]; base[y] = tmp`. The default `d` is only read
out of bounds. -/
def SWAP (base : List α) (x y : Nat) (d : α) : List α :=
  let tmp := base.getD x d
  let base := base.set x (base.getD y d)
  base.set y tmp

/-- The first inner loop of the partition,
`while ((compar(state, &base[i], ptmp) <= 0) && (i < full)) i += size;`
run for at most `n` steps. -/
def scan_up_steps (state : σ) (compar : σ → α → α → Int) (base : List α) (ptmp : α)
    (full : Nat) : Nat → Nat → Nat
  | 0, i => i
  | n + 1, i =>
    if compar state (base.getD i ptmp) ptmp ≤ 0 ∧ i < full then
      scan_up_steps state compar base ptmp full n (i + 1)
    else i

/-- The first inner loop: it stops at `full` at the latest, so `full - i` steps
are all it can take. -/
def scan_up (state : σ) (compar : σ → α → α → Int) (base : List α) (ptmp : α)
    (full i : Nat) : Nat :=
  scan_up_steps state compar base ptmp full (full - i) i

/-- The second inner loop,
`while ((compar(state, &base[j], ptmp) >= 0) && (j > 0)) j -= size;`. -/
def scan_down (state : σ) (compar : σ → α → α → Int) (base : List α) (ptmp : α) :
    Nat → Nat
  | 0 => 0
  | j + 1 =>
    if compar state (base.getD (j + 1) ptmp) ptmp ≥ 0 then
      scan_down state compar base ptmp j
    else j + 1

/-- The outer loop `while (i < j) { ... }` of the partition; returns the array
and the final `i` and `j`, or `none` when the fuel runs out. -/
def partition_loop (state : σ) (compar : σ → α → α → Int) (ptmp : α) (full : Nat) :
    Nat → List α → Nat → Nat → Option (List α × Nat × Nat)
  | 0, _, _, _ => none
  | fuel + 1, base, i, j =>
    if i < j then
      let i1 := scan_up state compar base ptmp full i
      let j1 := scan_down state compar base ptmp j
      let base1 := if i1 < j1 then SWAP base j1 i1 ptmp else base
      partition_loop state compar ptmp full fuel base1 i1 j1
    else some (base, i, j)

/-- The partition step: pivot item `base[0]`, returns the rearranged array and the
final pivot index `pivot / size`. -/
def _gnutls_partition (fuel : Nat) (state : σ) (base : List α)
    (compar : σ → α → α → Int) : Option (List α × Nat) :=
  match base with
  | [] => some (base, 0)
  | ptmp :: _ =>
    let nmemb := base.length
    let pivot := 0
    let full := nmemb - 1
    match partition_loop state compar ptmp full fuel base 0 full with
    | none => none
    | some (base1, i, j) =>
      if j > pivot then some (SWAP base1 pivot j ptmp, j)
      else if i < pivot then some (SWAP base1 pivot i ptmp, i)
      else some (base1, pivot)

/-- The recursive sort: partition, then sort `base[0 .. pivot]` (`pivot + 1`
elements, as `pivot < nmemb`) and `base[pivot + 1 .. nmemb - 1]`. The two recursive
calls work on disjoint ranges of the array, so their results are concatenated. -/
def _gnutls_qsort : Nat → σ → List α → (σ → α → α → Int) → Option (List α)
  | 0, _, _, _ => none
  | fuel + 1, state, base, compar =>
    let nmemb := base.length
    if nmemb ≤ 1 then some base
    else
      match _gnutls_partition fuel state base compar with
      | none => none
      | some (base1, pivot) =>
        let n1 := if pivot < nmemb then pivot + 1 else pivot
        match _gnutls_qsort fuel state (base1.take n1) compar with
        | none => none
        | some left =>
          match _gnutls_qsort fuel state (base1.drop (pivot + 1)) compar with
          | none => none
          | some right => some (left ++ (base1.drop n1).take (pivot + 1 - n1) ++ right)

end Sorting

/-! ## The selector -/

/-- The three `continue` tests of the selector loops: a suite is kept when none of
its KX, MAC and cipher priorities is negative. -/
def suite_accepted (state : GNUTLS_STATE) (s : GNUTLS_CipherSuite) : Bool :=
  !(decide (_gnutls_kx_priority state (_gnutls_cipher_suite_get_kx_algo s) < 0)) &&
  !(decide (_gnutls_mac_priority state (_gnutls_cipher_suite_get_mac_algo s) < 0)) &&
  !(decide (_gnutls_cipher_priority state (_gnutls_cipher_suite_get_cipher_algo s) < 0))

/-- The copy loop `tmp_ciphers[i] = cs_algorithms[i].id` for `i < count`; an index
at the end of the table reads the all-zero sentinel. -/
def copy_suites (count : Nat) : List GNUTLS_CipherSuite :=
  (List.range count).map (fun i =>
    match cs_algorithms[i]? with
    | some p => p.id
    | none => ⟨0, 0⟩)

/-- The tail shared by both selectors: the returned count and the array left in
`*ciphers` (`none` for `NULL`). -/
def selector_result (count : Nat) (kept : List GNUTLS_CipherSuite) :
    Int × Option (List GNUTLS_CipherSuite) :=
  let ret_count := kept.length
  if ret_count > 0 ∧ ret_count ≠ count then (ret_count, some kept)
  else if ret_count ≠ count then (ret_count, none)
  else (ret_count, some kept)

/-- The sorted selector: copy the table, sort by score, keep the accepted suites. -/
def _gnutls_supported_ciphersuites_sorted (fuel : Nat) (state : GNUTLS_STATE) :
    Option (Int × Option (List GNUTLS_CipherSuite)) :=
  let count := _gnutls_cipher_suite_count
  if count = 0 then some (0, none)
  else
    let tmp_ciphers := copy_suites count
    match _gnutls_qsort fuel state tmp_ciphers _gnutls_compare_algo with
    | none => none
    | some sorted => some (selector_result count (sorted.filter (suite_accepted state)))

/-- The unsorted selector: copy the table, keep the accepted suites. -/
def _gnutls_supported_ciphersuites (state : GNUTLS_STATE) :
    Int × Option (List GNUTLS_CipherSuite) :=
  let count := _gnutls_cipher_suite_count
  if count = 0 then (0, none)
  else
    let tmp_ciphers := copy_suites count
    selector_result count (tmp_ciphers.filter (suite_accepted state))

/-! ## Protocol versions -/

/-- `GNUTLS_Version` is `int`: `GNUTLS_TLS1` is 0. -/
def GNUTLS_TLS1 : Int := 0
/-- `GNUTLS_Version` is `int`: `GNUTLS_SSL3` is 1. -/
def GNUTLS_SSL3 : Int := 1

/-- Entry of the version table. -/
structure gnutls_version_entry where
  name : String
  id : Int
  major : Int
  minor : Int
  supported : Int
deriving Repr

/-- The version table `sup_versions[]`. -/
def sup_versions : List gnutls_version_entry :=
  [ ⟨"SSL3", GNUTLS_SSL3, 3, 0, 1⟩,
    ⟨"TLS1", GNUTLS_TLS1, 3, 1, 1⟩ ]

/-! ## Counting -/

/-- Modelled from the spec: the number of values of the type `uint8`, which is
declared in `defines.h` (not among the sources); the count functions are described
as looping with an 8-bit counter, so a `uint8` holds a value modulo `2 ^ 8`. -/
def UINT8_RANGE : Nat := 2 ^ 8

/-- The bound `MAX_MAC`. -/
def MAX_MAC : Nat := 256
/-- The bound `MAX_CIPHER`. -/
def MAX_CIPHER : Nat := 256
/-- The bound `MAX_KX`. -/
def MAX_KX : Nat := 256
/-- The bound `MAX_COMPRESSION`. -/
def MAX_COMPRESSION : Nat := 256

/-- The loop shared by the four count functions,
`for (i = 0; i < MAX; i++) { if (is_ok(i) == 0) counter++; } return counter;`
with `uint8 i, counter`: both increments wrap modulo `2 ^ 8`. The state is the
pair `(i, counter)`; the result is `none` when the fuel runs out before the loop
test fails. -/
def count_loop (MAX : Nat) (is_ok : Nat → Int) : Nat → Nat → Nat → Option Nat
  | 0, _, _ => none
  | fuel + 1, i, counter =>
    if i < MAX then
      let counter := if is_ok i = 0 then (counter + 1) % UINT8_RANGE else counter
      count_loop MAX is_ok fuel ((i + 1) % UINT8_RANGE) counter
    else some counter

/-- Number of MAC algorithms, as the count loop computes it. -/
def _gnutls_mac_count (fuel : Nat) : Option Nat :=
  count_loop MAX_MAC _gnutls_mac_is_ok fuel 0 0

/-- Number of compression methods, as the count loop computes it. -/
def _gnutls_compression_count (HAVE_LIBZ : Bool) (fuel : Nat) : Option Nat :=
  count_loop MAX_COMPRESSION (_gnutls_compression_is_ok HAVE_LIBZ) fuel 0 0

/-- Number of ciphers, as the count loop computes it. -/
def _gnutls_cipher_count (fuel : Nat) : Option Nat :=
  count_loop MAX_CIPHER _gnutls_cipher_is_ok fuel 0 0

/-- Number of key-exchange methods, as the count loop computes it. -/
def _gnutls_kx_count (fuel : Nat) : Option Nat :=
  count_loop MAX_KX _gnutls_kx_is_ok fuel 0 0

/-! ## Attribute lookups -/

/-- Digest size of a MAC: `size_t ret = 0; GNUTLS_HASH_ALG_LOOP(ret = p->digestsize);`. -/
def _gnutls_mac_get_digest_size (algorithm : Nat) : Nat :=
  match hash_algorithms.find? (fun p => p.id == algorithm) with
  | some p => p.digestsize
  | none => 0

/-- Block size of a cipher; 0 when no entry matches. -/
def _gnutls_cipher_get_block_size (algorithm : Nat) : Nat :=
  match algorithms.find? (fun p => p.id == algorithm) with
  | some p => p.blocksize
  | none => 0

/-- Block flag of a cipher; 0 when no entry matches. -/
def _gnutls_cipher_is_block (algorithm : Nat) : Nat :=
  match algorithms.find? (fun p => p.id == algorithm) with
  | some p => p.block
  | none => 0

/-- Key size of a cipher, in bytes; 0 when no entry matches. -/
def _gnutls_cipher_get_key_size (algorithm : Nat) : Nat :=
  match algorithms.find? (fun p => p.id == algorithm) with
  | some p => p.keysize
  | none => 0

/-- IV size of a cipher, in bytes; 0 when no entry matches. -/
def _gnutls_cipher_get_iv_size (algorithm : Nat) : Nat :=
  match algorithms.find? (fun p => p.id == algorithm) with
  | some p => p.iv
  | none => 0

/-! ## Names -/

/-- The function `_gnutls_tolow(str, size)`: `str[i] = tolower(str[i])` for `i < size`. -/
def _gnutls_tolow (str : List Char) (size : Nat) : List Char :=
  (str.take size).map Char.toLower ++ str.drop size

/-- The call `strchr(s, c)` for a character `c` other than NUL: the position of the
first `c` in `s`, or `none` for `NULL`. -/
def strchr (c : Char) : List Char → Option Nat
  | [] => none
  | x :: rest => if x = c then some 0 else (strchr c rest).map (fun k => k + 1)

/-- The loop `while (pointerTo_ != NULL) { *pointerTo_ = '-'; pointerTo_ = strchr(ret, '_'); }`
entered with `pointerTo_ = strchr(ret, '_')`, run for at most `n` iterations. -/
def hyphen_loop : Nat → List Char → List Char
  | 0, ret => ret
  | n + 1, ret =>
    match strchr '_' ret with
    | none => ret
    | some p => hyphen_loop n (ret.set p '-')

/-- The part of the name functions under `if (ret != NULL)`: lowercase the whole
string, then turn every underscore into a hyphen. Every iteration of the loop removes
one underscore, so `strlen(ret)` iterations are all it can take. -/
def name_tail (ret : List Char) : String :=
  let ret := _gnutls_tolow ret ret.length
  String.mk (hyphen_loop ret.length ret)

/-- The argument of `strdup`: `p->name + sizeof(s) - 1`, the name without its first
`strlen(s)` characters. -/
def name_plus (name : String) (s : String) : List Char :=
  name.data.drop s.length

/-- Name of a MAC algorithm, `none` for `NULL`. -/
def gnutls_mac_get_name (algorithm : Nat) : Option String :=
  match hash_algorithms.find? (fun p => p.id == algorithm) with
  | some p => some (name_tail (name_plus p.name "GNUTLS_"))
  | none => none

/-- Name of a compression method, `none` for `NULL`. -/
def gnutls_compression_get_name (HAVE_LIBZ : Bool) (algorithm : Nat) : Option String :=
  match (compression_algorithms HAVE_LIBZ).find? (fun p => p.id == algorithm) with
  | some p => some (name_tail (name_plus p.name "GNUTLS_"))
  | none => none

/-- Name of a cipher, `none` for `NULL`. -/
def gnutls_cipher_get_name (algorithm : Nat) : Option String :=
  match algorithms.find? (fun p => p.id == algorithm) with
  | some p => some (name_tail (name_plus p.name "GNUTLS_"))
  | none => none

/-- Name of a key exchange, `none` for `NULL`; the offset is `sizeof("KX_") - 1`. -/
def gnutls_kx_get_name (algorithm : Nat) : Option String :=
  match kx_algorithms.find? (fun p => p.algorithm == algorithm) with
  | some p => some (name_tail (name_plus p.name "KX_"))
  | none => none

/-- Name of a cipher suite, `none` for `NULL`. -/
def _gnutls_cipher_suite_get_name (suite : GNUTLS_CipherSuite) : Option String :=
  match GNUTLS_CIPHER_SUITE_ALG_LOOP suite with
  | some p => some (name_tail (name_plus p.name "GNUTLS_"))
  | none => none

/-! ## Key-exchange capability queries -/

/-- The six handler pointers of a `MOD_AUTH_STRUCT` that the capability queries
read; `true` stands for a pointer that is not `NULL`. The structure is declared in
`gnutls_auth.h` and the two handler tables are defined with their key exchanges
(neither is among the sources), so the contents of the tables are a parameter of
the queries. -/
structure MOD_AUTH_STRUCT where
  gnutls_generate_server_kx : Bool
  gnutls_generate_server_kx2 : Bool
  gnutls_process_client_kx0 : Bool
  gnutls_process_client_kx : Bool
  gnutls_generate_client_cert_vrfy : Bool
  gnutls_generate_server_cert_vrfy : Bool
deriving Repr

/-- The body shared by the six capability queries:
`size_t ret = 0; void *ret2 = NULL; GNUTLS_KX_ALG_LOOP(ret2 = p->auth_struct->field);
if (ret2 != NULL) ret = 1; return ret;`. When no entry matches, `ret2` stays `NULL`
and the result is 0. When the matching entry has a `NULL` `auth_struct`, the query
reads through a null pointer and has no defined result: `none`. -/
def kx_capability (handlers : String → MOD_AUTH_STRUCT) (field : MOD_AUTH_STRUCT → Bool)
    (algorithm : Nat) : Option Nat :=
  match kx_algorithms.find? (fun p => p.algorithm == algorithm) with
  | none => some 0
  | some p =>
    match p.auth_struct with
    | none => none
    | some s => some (if field (handlers s) then 1 else 0)

/-- Whether the key exchange sends a server key exchange message. -/
def _gnutls_kx_server_key_exchange (handlers : String → MOD_AUTH_STRUCT) (algorithm : Nat) :
    Option Nat :=
  kx_capability handlers (fun a => a.gnutls_generate_server_kx) algorithm

/-- Whether the key exchange sends a second server key exchange message. -/
def _gnutls_kx_server_key_exchange2 (handlers : String → MOD_AUTH_STRUCT) (algorithm : Nat) :
    Option Nat :=
  kx_capability handlers (fun a => a.gnutls_generate_server_kx2) algorithm

/-- Whether the key exchange processes a first client key exchange message. -/
def _gnutls_kx_client_key_exchange0 (handlers : String → MOD_AUTH_STRUCT) (algorithm : Nat) :
    Option Nat :=
  kx_capability handlers (fun a => a.gnutls_process_client_kx0) algorithm

/-- Whether the key exchange processes a client key exchange message. -/
def _gnutls_kx_client_key_exchange (handlers : String → MOD_AUTH_STRUCT) (algorithm : Nat) :
    Option Nat :=
  kx_capability handlers (fun a => a.gnutls_process_client_kx) algorithm

/-- Whether the key exchange has a client certificate verify step. -/
def _gnutls_kx_client_cert_vrfy (handlers : String → MOD_AUTH_STRUCT) (algorithm : Nat) :
    Option Nat :=
  kx_capability handlers (fun a => a.gnutls_generate_client_cert_vrfy) algorithm

/-- Whether the key exchange has a server certificate verify step. -/
def _gnutls_kx_server_cert_vrfy (handlers : String → MOD_AUTH_STRUCT) (algorithm : Nat) :
    Option Nat :=
  kx_capability handlers (fun a => a.gnutls_generate_server_cert_vrfy) algorithm

/-! ## Compression numbers and protocol version lookups -/

/-- TLS number of a compression method: `int ret = -1;
GNUTLS_COMPRESSION_ALG_LOOP(ret = p->num);`. The argument is an `Int` so that the
result of `_gnutls_compression_get_id` can be passed on. -/
def _gnutls_compression_get_num (HAVE_LIBZ : Bool) (algorithm : Int) : Int :=
  match (compression_algorithms HAVE_LIBZ).find? (fun p => (p.id : Int) == algorithm) with
  | some p => (p.num : Int)
  | none => -1

/-- Internal id of the compression method with TLS number `num`:
`CompressionMethod ret = -1; GNUTLS_COMPRESSION_ALG_LOOP_NUM(ret = p->id);`. -/
def _gnutls_compression_get_id (HAVE_LIBZ : Bool) (num : Int) : Int :=
  match (compression_algorithms HAVE_LIBZ).find? (fun p => (p.num : Int) == num) with
  | some p => (p.id : Int)
  | none => -1

/-- Minor number of a version, -1 when the version is not in the table. -/
def _gnutls_version_get_minor (version : Int) : Int :=
  match sup_versions.find? (fun p => p.id == version) with
  | some p => p.minor
  | none => -1

/-- Version with the given major and minor numbers: `int ret = -1;
GNUTLS_VERSION_LOOP(if ((p->major == major) && (p->minor == minor)) ret = p->id);`.
The loop has no `break`, so the last matching entry decides. -/
def _gnutls_version_get (major minor : Int) : Int :=
  sup_versions.foldl (fun ret p => if p.major = major ∧ p.minor = minor then p.id else ret) (-1)

/-- Major number of a version, -1 when the version is not in the table. -/
def _gnutls_version_get_major (version : Int) : Int :=
  match sup_versions.find? (fun p => p.id == version) with
  | some p => p.major
  | none => -1

/-- Whether a version is supported: `size_t ret = 0;
GNUTLS_VERSION_ALG_LOOP(ret = p->supported);`; the session is not consulted. -/
def _gnutls_version_is_supported (_state : GNUTLS_STATE) (version : Int) : Int :=
  match sup_versions.find? (fun p => p.id == version) with
  | some p => p.supported
  | none => 0

/-! ## PKCS #8 encryption (`lib/x509/privkey_pkcs8.c`) -/

/-- The OID of DES-EDE3-CBC. -/
def DES_EDE3_CBC_OID : String := "1.2.840.113549.3.7"

/-- The outcomes of the library calls that `read_pbe_enc_params` makes, in the order
of the calls: `asn1_read_value` of `encryptionScheme.algorithm` (its result and the
OID it stores), `asn1_der_decoding_startEnd`, `asn1_create_element`,
`asn1_der_decoding` and `asn1_read_value` of the IV. -/
structure pbe_enc_calls where
  read_oid_result : Int
  oid : String
  startEnd_result : Int
  create_result : Int
  decoding_result : Int
  read_iv_result : Int
deriving Repr

/-- The return value of `read_pbe_enc_params`. The success code `ASN1_SUCCESS` of the
ASN.1 library and the conversion `_gnutls_asn2err` are parameters (neither is among
the sources). The label `error` returns `result` as it stands. -/
def read_pbe_enc_params (ASN1_SUCCESS : Int) (_gnutls_asn2err : Int → Int)
    (c : pbe_enc_calls) : Int :=
  let result := c.read_oid_result
  if result ≠ ASN1_SUCCESS then result
  else if c.oid ≠ DES_EDE3_CBC_OID then result
  else
    let result := c.startEnd_result
    if result ≠ ASN1_SUCCESS then _gnutls_asn2err result
    else
      let result := c.create_result
      if result ≠ ASN1_SUCCESS then _gnutls_asn2err result
      else
        let result := c.decoding_result
        if result ≠ ASN1_SUCCESS then _gnutls_asn2err result
        else
          let result := c.read_iv_result
          if result ≠ ASN1_SUCCESS then _gnutls_asn2err result
          else 0

/-- The two tests of `decode_pkcs8_key` between decoding the parameters and the call
of `decrypt_data`: `result = read_pbkdf2_params(...); if (result < 0) goto error;
result = read_pbe_enc_params(...); if (result < 0) goto error;`. The value is `true`
when control goes on to `decrypt_data`. -/
def decode_pkcs8_key_goes_on_to_decrypt (result_kdf result_enc : Int) : Bool :=
  if result_kdf < 0 then false
  else if result_enc < 0 then false
  else true

/-- The size that `decrypt_data` reports after a successful decryption,
`decrypted_data->size = data_size - data[data_size-1];`, computed in `int` from the
decrypted bytes `data` (`data_size` is their number). -/
def decrypt_data_size (data : List Nat) : Int :=
  let data_size : Int := (data.length : Int)
  data_size - ((data.getD (data.length - 1) 0 : Nat) : Int)

/-- The six secrets of `CipherSpecs` (`gnutls_int.h`), each as its bytes. -/
structure CipherSpecs where
  server_write_mac_secret : List Nat
  client_write_mac_secret : List Nat
  server_write_IV : List Nat
  client_write_IV : List Nat
  server_write_key : List Nat
  client_write_key : List Nat
deriving Repr

/-- Modelled from the spec: the slicing done by `_gnutls_set_keys`, which is declared
in `gnutls_int.h` but whose body is not among the sources. The key block is cut, in
this fixed order, into client MAC key, server MAC key, client write key, server
write key, client IV, server IV; the sizes are the MAC digest size, the cipher key
size and the cipher IV size of the negotiated algorithms. -/
def _gnutls_set_keys (key_block : List Nat) (hash_size key_size IV_size : Nat) : CipherSpecs :=
  let client_mac := key_block.take hash_size
  let rest := key_block.drop hash_size
  let server_mac := rest.take hash_size
  let rest := rest.drop hash_size
  let client_key := rest.take key_size
  let rest := rest.drop key_size
  let server_key := rest.take key_size
  let rest := rest.drop key_size
  let client_iv := rest.take IV_size
  let rest := rest.drop IV_size
  let server_iv := rest.take IV_size
  { server_write_mac_secret := server_mac, client_write_mac_secret := client_mac,
    server_write_IV := server_iv, client_write_IV := client_iv,
    server_write_key := server_key, client_write_key := client_key }

/-! ## Specification-side definitions -/

section SortingSpec
variable {σ α : Type}

/-- The comparator orders elements by an integer score. -/
def ScoreCompar (state : σ) (compar : σ → α → α → Int) (score : α → Int) : Prop :=
  ∀ a b, (compar state a b ≤ 0 ↔ score a ≤ score b) ∧
    (compar state a b ≥ 0 ↔ score b ≤ score a)

/-- Loop invariant of the outer loop of the partition, at the loop head: `base0` is
the array on entry, `ptmp` the pivot item, `full` the last index. -/
structure PInv (score : α → Int) (base0 : List α) (ptmp : α) (full : Nat)
    (base : List α) (i j : Nat) : Prop where
  perm : base.Perm base0
  len : base.length = full + 1
  hi : i ≤ full
  hj : j ≤ full
  low : ∀ k, k < i → score (base.getD k ptmp) ≤ score ptmp
  high : ∀ k, j < k → k ≤ full → score ptmp ≤ score (base.getD k ptmp)
  head : base.getD 0 ptmp = ptmp
  cur : i < j → score (base.getD i ptmp) ≤ score ptmp
  fin : i < j ∨ j = 0 ∨ score (base.getD j ptmp) < score ptmp
  first : score ptmp ≤ score (base0.getD full ptmp) → 0 < full →
    (i = 0 ∧ j = full ∧ base = base0) ∨ j < full

/-- Termination measure of the sort: twice the length, plus one when the last
element scores strictly below the first (the only case in which the partition can
return the last index). -/
def qmeasure (score : α → Int) (l : List α) : Nat :=
  2 * l.length +
    (match l with
     | [] => 0
     | a :: _ => if score (l.getD (l.length - 1) a) < score a then 1 else 0)

end SortingSpec

/-- The composite score of a suite under the session's priority lists, as the
comparator computes it in `int`: the value of `p1` (or `p2`) that
`_gnutls_compare_algo` builds for the suite,
`(priority(KX)+1)*100 + (priority(cipher)+1)*10 + priority(MAC)` with every step
reduced by `int32`. -/
def suite_score (state : GNUTLS_STATE) (s : GNUTLS_CipherSuite) : Int :=
  int32 (int32 (int32 (int32
      (_gnutls_kx_priority state (_gnutls_cipher_suite_get_kx_algo s) + 1) * 100) +
    int32 (int32
      (_gnutls_cipher_priority state (_gnutls_cipher_suite_get_cipher_algo s) + 1) * 10)) +
  _gnutls_mac_priority state (_gnutls_cipher_suite_get_mac_algo s))

/-- The composite score formula of the specification, over the integers:
`(priority(KX)+1)*100 + (priority(cipher)+1)*10 + priority(MAC)`, each priority
being the session's priority lookup. -/
def formula_score (state : GNUTLS_STATE) (s : GNUTLS_CipherSuite) : Int :=
  (_gnutls_kx_priority state (_gnutls_cipher_suite_get_kx_algo s) + 1) * 100 +
  (_gnutls_cipher_priority state (_gnutls_cipher_suite_get_cipher_algo s) + 1) * 10 +
  _gnutls_mac_priority state (_gnutls_cipher_suite_get_mac_algo s)

/-- A session whose KX priority list holds `n` times `GNUTLS_KX_RSA` and then
`GNUTLS_KX_DH_ANON`, with cipher list `[GNUTLS_3DES]` and MAC list
`[GNUTLS_MAC_SHA]`. -/
def kx_heavy_state (n : Nat) : GNUTLS_STATE :=
  ⟨[GNUTLS_3DES], [GNUTLS_MAC_SHA],
    List.replicate n GNUTLS_KX_RSA ++ [GNUTLS_KX_DH_ANON], []⟩

/-- The session with 21474836 entries `GNUTLS_KX_RSA` before `GNUTLS_KX_DH_ANON` in
its KX priority list: the KX priority of `GNUTLS_KX_DH_ANON` is 21474836, and
`(21474836 + 1) * 100` exceeds the largest C `int`. -/
def overflow_state : GNUTLS_STATE := kx_heavy_state 21474836

/-- A table entry whose KX, cipher and MAC priorities are all at least 0. -/
def entry_accepted (state : GNUTLS_STATE) (e : gnutls_cipher_suite_entry) : Bool :=
  decide (0 ≤ _gnutls_kx_priority state e.kx_algorithm) &&
  decide (0 ≤ _gnutls_cipher_priority state e.block_algorithm) &&
  decide (0 ≤ _gnutls_mac_priority state e.mac_algorithm)

/-- What the specification asks of a priority lookup on list `l` for identifier
`id`: the least index holding `id` when it occurs, -1 when it does not, and a value
between -1 and `length - 1` in either case. -/
def IsPriorityOf (l : List Nat) (id : Nat) (r : Int) : Prop :=
  (id ∈ l → ∃ k : Nat, l[k]? = some id ∧ (∀ m, m < k → l[m]? ≠ some id) ∧ r = (k : Int)) ∧
  (id ∉ l → r = -1) ∧ -1 ≤ r ∧ r ≤ (l.length : Int) - 1

/-- Lexicographic order on priority triples `(kx, cipher, mac)`. -/
def lex_lt (a b : Int × Int × Int) : Prop :=
  a.1 < b.1 ∨ (a.1 = b.1 ∧ (a.2.1 < b.2.1 ∨ (a.2.1 = b.2.1 ∧ a.2.2 < b.2.2)))

/-- The priority triple `(kx_priority, cipher_priority, mac_priority)` of a suite. -/
def priority_tuple (state : GNUTLS_STATE) (s : GNUTLS_CipherSuite) : Int × Int × Int :=
  (_gnutls_kx_priority state (_gnutls_cipher_suite_get_kx_algo s),
   _gnutls_cipher_priority state (_gnutls_cipher_suite_get_cipher_algo s),
   _gnutls_mac_priority state (_gnutls_cipher_suite_get_mac_algo s))

/-- A session configuration used to exercise the selector theorems: cipher list
`[3DES, RIJNDAEL]`, MAC list `[SHA]`, KX list `[DH_ANON]`. -/
def example_state : GNUTLS_STATE :=
  ⟨[GNUTLS_3DES, GNUTLS_RIJNDAEL], [GNUTLS_MAC_SHA], [GNUTLS_KX_DH_ANON], []⟩

/-- A session configuration with an empty KX list next to non-empty cipher and MAC
lists. -/
def no_kx_state : GNUTLS_STATE :=
  ⟨[GNUTLS_3DES, GNUTLS_RIJNDAEL], [GNUTLS_MAC_SHA], [], []⟩

/-- A session configuration whose cipher priority list has 11 entries. -/
def long_cipher_state : GNUTLS_STATE :=
  ⟨[GNUTLS_3DES, GNUTLS_NULL_CIPHER, GNUTLS_NULL_CIPHER, GNUTLS_NULL_CIPHER,
    GNUTLS_NULL_CIPHER, GNUTLS_NULL_CIPHER, GNUTLS_NULL_CIPHER, GNUTLS_NULL_CIPHER,
    GNUTLS_NULL_CIPHER, GNUTLS_NULL_CIPHER, GNUTLS_ARCFOUR],
   [GNUTLS_MAC_SHA, GNUTLS_MAC_MD5], [GNUTLS_KX_DH_ANON, GNUTLS_KX_RSA], []⟩

/-- The rest of `s` after the leading characters `pre`, when `s` starts with them. -/
def remove_leading : List Char → List Char → Option (List Char)
  | [], s => some s
  | _ :: _, [] => none
  | p :: ps, c :: cs => if p = c then remove_leading ps cs else none

/-- The canonical name the specification derives from a symbolic name: the leading
`pre` removed, every letter lowercased, every underscore replaced by a hyphen. -/
def canonical_name (pre : String) (name : String) : String :=
  String.mk ((((remove_leading pre.data name.data).getD name.data).map Char.toLower).map
    (fun c => if c = '_' then '-' else c))

/-- A string with no uppercase letter and no underscore. -/
def lower_hyphenated (s : String) : Bool :=
  s.data.all (fun c => !c.isUpper && c != '_')

/-- The bytes of `l` at positions `a` up to but excluding `b`. -/
def byte_range (l : List Nat) (a b : Nat) : List Nat :=
  (l.drop a).take (b - a)

/-- Handler tables used to exercise the capability queries: every handler present. -/
def all_handlers : String → MOD_AUTH_STRUCT :=
  fun _ => ⟨true, true, true, true, true, true⟩

/-- Outcomes of the library calls of `read_pbe_enc_params` for a key file whose
encryption scheme is AES-128-CBC (`2.16.840.1.101.3.4.1.2`): the OID is read
successfully, and so would be every later call. -/
def aes_scheme_calls : pbe_enc_calls :=
  ⟨0, "2.16.840.1.101.3.4.1.2", 0, 0, 0, 0⟩

/-- Two suites in descending score order under `example_state`:
`DH_anon_RIJNDAEL_128_CBC_SHA` (score 120), then `DH_anon_3DES_EDE_CBC_SHA`
(score 110). -/
def descending_pair : List GNUTLS_CipherSuite :=
  [⟨0x00, 0x34⟩, ⟨0x00, 0x1B⟩]

/-! ## Properties of the sort -/

section SortingProofs
variable {σ α : Type}

/-- Overwriting position `k` of a list and putting the old element in front permutes the
list with the new element in front. -/
theorem perm_cons_set (t : List α) (k : Nat) (x d : α) (h : k < t.length) :
    (t.getD k d :: t.set k x).Perm (x :: t) := by
  induction t generalizing k with
  | nil => simp at h
  | cons a t ih =>
    cases k with
    | zero => simpa using List.Perm.swap x a t
    | succ k =>
      have hk : k < t.length := by simpa using h
      have h1 := ih k hk
      simp only [List.getD_cons_succ, List.set_cons_succ]
      exact ((List.Perm.swap a (t.getD k d) (t.set k x)).trans (h1.cons a)).trans
        (List.Perm.swap x a t)

/-- Swapping two in-range elements permutes the array. -/
theorem SWAP_perm (base : List α) (x y : Nat) (d : α) (hx : x < base.length)
    (hy : y < base.length) : (SWAP base x y d).Perm base := by
  unfold SWAP
  induction base generalizing x y with
  | nil => simp at hx
  | cons a t ih =>
    cases x with
    | zero =>
      cases y with
      | zero => simp
      | succ y =>
        have hy2 : y < t.length := by simpa using hy
        simpa using perm_cons_set t y a d hy2
    | succ x =>
      have hx2 : x < t.length := by simpa using hx
      cases y with
      | zero => simpa using perm_cons_set t x a d hx2
      | succ y =>
        have hy2 : y < t.length := by simpa using hy
        simpa using ih x y hx2 hy2

/-- Swapping keeps the length. -/
theorem SWAP_length (base : List α) (x y : Nat) (d : α) :
    (SWAP base x y d).length = base.length := by
  simp [SWAP]

/-- Element-wise description of the array after a swap of two in-range positions. -/
theorem SWAP_getD (base : List α) (x y k : Nat) (d : α) (hx : x < base.length)
    (hy : y < base.length) :
    (SWAP base x y d).getD k d =
      if k = y then base.getD x d else if k = x then base.getD y d else base.getD k d := by
  unfold SWAP
  simp only [List.getD_eq_getElem?_getD, List.getElem?_set, List.length_set]
  by_cases h1 : y = k
  · subst h1; simp [hy]
  · have h1b : ¬ k = y := fun h => h1 h.symm
    by_cases h2 : x = k
    · subst h2; simp [h1, h1b, hx]
    · have h2b : ¬ k = x := fun h => h2 h.symm
      simp [h1, h2, h1b, h2b]

/-- What the first inner loop establishes: it only moves up, stays at or below `full`,
passes only elements scoring at most the pivot, and moves at least one step when its start
scores at most the pivot and lies below `full`. -/
theorem scan_up_steps_spec {state : σ} {compar : σ → α → α → Int} {score : α → Int}
    (hc : ScoreCompar state compar score) (base : List α) (ptmp : α) (full : Nat) :
    ∀ n i,
      i ≤ scan_up_steps state compar base ptmp full n i ∧
      (i ≤ full → scan_up_steps state compar base ptmp full n i ≤ full) ∧
      (∀ k, i ≤ k → k < scan_up_steps state compar base ptmp full n i →
        score (base.getD k ptmp) ≤ score ptmp) ∧
      (0 < n → score (base.getD i ptmp) ≤ score ptmp → i < full →
        i + 1 ≤ scan_up_steps state compar base ptmp full n i) := by
  intro n
  induction n with
  | zero =>
    intro i
    simp only [scan_up_steps]
    refine ⟨le_refl _, fun h => h, ?_, ?_⟩
    · intro k h1 h2; omega
    · intro h; omega
  | succ n ih =>
    intro i
    simp only [scan_up_steps]
    by_cases hcond : compar state (base.getD i ptmp) ptmp ≤ 0 ∧ i < full
    · rw [if_pos hcond]
      obtain ⟨h1, h2, h3, _⟩ := ih (i + 1)
      refine ⟨by omega, fun _ => h2 (by omega), ?_, fun _ _ _ => h1⟩
      intro k hk1 hk2
      by_cases hki : k = i
      · subst hki; exact ((hc _ _).1).1 hcond.1
      · exact h3 k (by omega) hk2
    · rw [if_neg hcond]
      refine ⟨le_refl _, fun h => h, ?_, ?_⟩
      · intro k h1 h2; omega
      · intro _ hs hf
        exact absurd ⟨((hc _ _).1).2 hs, hf⟩ hcond

/-- The same facts for the first inner loop run to completion. -/
theorem scan_up_spec {state : σ} {compar : σ → α → α → Int} {score : α → Int}
    (hc : ScoreCompar state compar score) (base : List α) (ptmp : α) (full i : Nat) :
      i ≤ scan_up state compar base ptmp full i ∧
      (i ≤ full → scan_up state compar base ptmp full i ≤ full) ∧
      (∀ k, i ≤ k → k < scan_up state compar base ptmp full i →
        score (base.getD k ptmp) ≤ score ptmp) ∧
      (score (base.getD i ptmp) ≤ score ptmp → i < full →
        i + 1 ≤ scan_up state compar base ptmp full i) := by
  obtain ⟨h1, h2, h3, h4⟩ := scan_up_steps_spec hc base ptmp full (full - i) i
  exact ⟨h1, h2, h3, fun hs hf => h4 (by omega) hs hf⟩

/-- What the second inner loop establishes: it only moves down, passes only elements
scoring at least the pivot, stops at 0 or at an element scoring strictly below the pivot,
and moves at least one step when its start is above 0 and scores at least the pivot. -/
theorem scan_down_spec {state : σ} {compar : σ → α → α → Int} {score : α → Int}
    (hc : ScoreCompar state compar score) (base : List α) (ptmp : α) :
    ∀ j,
      scan_down state compar base ptmp j ≤ j ∧
      (∀ k, scan_down state compar base ptmp j < k → k ≤ j →
        score ptmp ≤ score (base.getD k ptmp)) ∧
      (scan_down state compar base ptmp j = 0 ∨
        score (base.getD (scan_down state compar base ptmp j) ptmp) < score ptmp) ∧
      (0 < j → score ptmp ≤ score (base.getD j ptmp) →
        scan_down state compar base ptmp j < j) := by
  intro j
  induction j with
  | zero =>
    simp only [scan_down]
    refine ⟨le_refl _, ?_, Or.inl (by trivial), ?_⟩
    · intro k h1 h2; omega
    · intro h; omega
  | succ j ih =>
    simp only [scan_down]
    by_cases hcond : compar state (base.getD (j + 1) ptmp) ptmp ≥ 0
    · rw [if_pos hcond]
      obtain ⟨h1, h2, h3, _⟩ := ih
      refine ⟨by omega, ?_, h3, fun _ _ => by omega⟩
      intro k hk1 hk2
      by_cases hkj : k = j + 1
      · subst hkj; exact ((hc _ _).2).1 hcond
      · exact h2 k hk1 (by omega)
    · rw [if_neg hcond]
      refine ⟨le_refl _, ?_, Or.inr ?_, ?_⟩
      · intro k h1 h2; omega
      · by_contra hlt
        exact hcond (((hc _ _).2).2 (not_lt.mp hlt))
      · intro _ hs
        exact absurd (((hc _ _).2).2 hs) hcond

/-- One iteration of the outer loop keeps the invariant and strictly shrinks `j - i`. -/
theorem partition_step {state : σ} {compar : σ → α → α → Int} {score : α → Int}
    (hc : ScoreCompar state compar score) {base0 base : List α} {ptmp : α}
    {full i j : Nat} (h : PInv score base0 ptmp full base i j) (hij : i < j) :
    PInv score base0 ptmp full
      (if scan_up state compar base ptmp full i < scan_down state compar base ptmp j
        then SWAP base (scan_down state compar base ptmp j)
          (scan_up state compar base ptmp full i) ptmp
        else base)
      (scan_up state compar base ptmp full i) (scan_down state compar base ptmp j) ∧
    scan_down state compar base ptmp j - scan_up state compar base ptmp full i < j - i := by
  obtain ⟨u1, u2, u3, u4⟩ := scan_up_spec hc base ptmp full i
  obtain ⟨d1, d2, d3, d4⟩ := scan_down_spec hc base ptmp j
  generalize scan_up state compar base ptmp full i = i1 at *
  generalize scan_down state compar base ptmp j = j1 at *
  have hj := h.hj
  have hi1 : i + 1 ≤ i1 := u4 (h.cur hij) (by omega)
  have hi1f : i1 ≤ full := u2 h.hi
  have hlow : ∀ k, k < i1 → score (base.getD k ptmp) ≤ score ptmp := by
    intro k hk
    by_cases hki : k < i
    · exact h.low k hki
    · exact u3 k (by omega) hk
  have hhigh : ∀ k, j1 < k → k ≤ full → score ptmp ≤ score (base.getD k ptmp) := by
    intro k hk1 hk2
    by_cases hkj : j < k
    · exact h.high k hkj hk2
    · exact d2 k hk1 (by omega)
  have hfirst : score ptmp ≤ score (base0.getD full ptmp) → 0 < full → j1 < full := by
    intro hs hf
    rcases h.first hs hf with ⟨_, hjf, hb⟩ | hlt
    · subst hb; subst hjf
      exact d4 hf hs
    · omega
  refine ⟨?_, by omega⟩
  by_cases hsw : i1 < j1
  · rw [if_pos hsw]
    have hlj : j1 < base.length := by rw [h.len]; omega
    have hli : i1 < base.length := by rw [h.len]; omega
    have hg := fun k => SWAP_getD base j1 i1 k ptmp hlj hli
    refine ⟨(SWAP_perm base j1 i1 ptmp hlj hli).trans h.perm, ?_, hi1f, by omega,
      ?_, ?_, ?_, ?_, Or.inl hsw, ?_⟩
    · rw [SWAP_length]; exact h.len
    · intro k hk
      rw [hg k, if_neg (by omega), if_neg (by omega)]
      exact hlow k hk
    · intro k hk1 hk2
      rw [hg k, if_neg (by omega), if_neg (by omega)]
      exact hhigh k hk1 hk2
    · rw [hg 0, if_neg (by omega), if_neg (by omega)]
      exact h.head
    · intro _
      rw [hg i1, if_pos rfl]
      rcases d3 with h0 | hlt
      · omega
      · exact le_of_lt hlt
    · intro hs hf
      exact Or.inr (hfirst hs hf)
  · rw [if_neg hsw]
    refine ⟨h.perm, h.len, hi1f, by omega, hlow, hhigh, h.head, ?_, Or.inr d3, ?_⟩
    · intro hlt; exact absurd hlt hsw
    · intro hs hf
      exact Or.inr (hfirst hs hf)

/-- With more fuel than `j - i` the outer loop finishes, in a state that satisfies the
invariant with `j ≤ i`. -/
theorem partition_loop_spec {state : σ} {compar : σ → α → α → Int} {score : α → Int}
    (hc : ScoreCompar state compar score) (base0 : List α) (ptmp : α) (full : Nat) :
    ∀ fuel base i j, PInv score base0 ptmp full base i j → j - i < fuel →
      ∃ base1 i1 j1, partition_loop state compar ptmp full fuel base i j =
          some (base1, i1, j1) ∧
        PInv score base0 ptmp full base1 i1 j1 ∧ j1 ≤ i1 := by
  intro fuel
  induction fuel with
  | zero => intro base i j _ h; omega
  | succ fuel ih =>
    intro base i j hinv hfuel
    simp only [partition_loop]
    by_cases hij : i < j
    · rw [if_pos hij]
      obtain ⟨hstep, hdec⟩ := partition_step hc hinv hij
      exact ih _ _ _ hstep (by omega)
    · rw [if_neg hij]
      exact ⟨base, i, j, rfl, hinv, by omega⟩

/-- An optional lookup that succeeds is in range and agrees with the defaulted lookup. -/
theorem getD_of_getElem? (l : List α) (k : Nat) (x d : α) (h : l[k]? = some x) :
    k < l.length ∧ l.getD k d = x := by
  have hk : k < l.length := by
    by_contra hc
    rw [List.getElem?_eq_none (by omega)] at h
    exact Option.noConfusion h
  exact ⟨hk, by simp [List.getD_eq_getElem?_getD, h]⟩

/-- In range, the defaulted lookup does not depend on the default. -/
theorem getD_indep (l : List α) (k : Nat) (d d' : α) (h : k < l.length) :
    l.getD k d = l.getD k d' := by
  simp [List.getD_eq_getElem?_getD, List.getElem?_eq_getElem h]

/-- Members of a prefix sit at indices below its length. -/
theorem mem_take_getD (l : List α) (n : Nat) (x d : α) (h : x ∈ l.take n) :
    ∃ k, k < n ∧ k < l.length ∧ l.getD k d = x := by
  obtain ⟨k, hk⟩ := List.mem_iff_getElem?.mp h
  rw [List.getElem?_take] at hk
  by_cases hkn : k < n
  · rw [if_pos hkn] at hk
    obtain ⟨h1, h2⟩ := getD_of_getElem? l k x d hk
    exact ⟨k, hkn, h1, h2⟩
  · rw [if_neg hkn] at hk
    exact Option.noConfusion hk

/-- Members of a suffix sit at indices from its start on. -/
theorem mem_drop_getD (l : List α) (n : Nat) (x d : α) (h : x ∈ l.drop n) :
    ∃ k, n ≤ k ∧ k < l.length ∧ l.getD k d = x := by
  obtain ⟨k, hk⟩ := List.mem_iff_getElem?.mp h
  rw [List.getElem?_drop] at hk
  obtain ⟨h1, h2⟩ := getD_of_getElem? l (n + k) x d hk
  exact ⟨n + k, by omega, h1, h2⟩

/-- The partition under a score comparator, with fuel at least the length: it returns a
permutation and an in-range pivot index `p` such that everything up to `p` scores at most
some value and everything after scores at least that value; it returns the last index only
when the last element scored strictly below the first, and when `p > 0` the new first
element scores strictly below the element at `p`. -/
theorem partition_spec {state : σ} {compar : σ → α → α → Int} {score : α → Int}
    (hc : ScoreCompar state compar score) (base : List α) (fuel : Nat)
    (hne : 0 < base.length) (hfuel : base.length ≤ fuel) :
    ∃ base1 p, _gnutls_partition fuel state base compar = some (base1, p) ∧
      base1.Perm base ∧ p < base.length ∧
      (∃ pv : Int, (∀ x ∈ base1.take (p + 1), score x ≤ pv) ∧
        (∀ x ∈ base1.drop (p + 1), pv ≤ score x)) ∧
      (p + 1 = base.length → 2 ≤ base.length →
        ∀ d, score (base.getD (base.length - 1) d) < score (base.getD 0 d)) ∧
      (0 < p → ∀ d, score (base1.getD 0 d) < score (base1.getD p d)) := by
  cases base with
  | nil => simp at hne
  | cons ptmp t =>
    have hinit : PInv score (ptmp :: t) ptmp t.length (ptmp :: t) 0 t.length := by
      refine ⟨List.Perm.refl _, by simp, Nat.zero_le _, le_refl _, ?_, ?_, by simp, ?_, ?_,
        fun _ _ => Or.inl ⟨rfl, rfl, rfl⟩⟩
      · intro k hk; omega
      · intro k h1 h2; omega
      · intro _; simp
      · by_cases h0 : 0 < t.length
        · exact Or.inl h0
        · exact Or.inr (Or.inl (by omega))
    have hlen : (ptmp :: t).length = t.length + 1 := by simp
    obtain ⟨base1, i1, j1, hloop, hinv, hji⟩ :=
      partition_loop_spec hc (ptmp :: t) ptmp t.length fuel (ptmp :: t) 0 t.length hinit
        (by omega)
    have hl1 : base1.length = t.length + 1 := hinv.len
    have hj1 := hinv.hj
    simp only [_gnutls_partition, List.length_cons, Nat.add_sub_cancel, hloop]
    by_cases hj : j1 > 0
    · rw [if_pos hj]
      have hg := fun k => SWAP_getD base1 0 j1 k ptmp (by omega) (by omega)
      have hfin : score (base1.getD j1 ptmp) < score ptmp := by
        rcases hinv.fin with h1 | h1 | h1
        · omega
        · omega
        · exact h1
      refine ⟨_, _, rfl, (SWAP_perm base1 0 j1 ptmp (by omega) (by omega)).trans hinv.perm,
        by omega, ⟨score ptmp, ?_, ?_⟩, ?_, ?_⟩
      · intro x hx
        obtain ⟨k, hk1, _, hk3⟩ := mem_take_getD _ _ x ptmp hx
        rw [← hk3, hg k]
        by_cases hkj : k = j1
        · rw [if_pos hkj, hinv.head]
        · rw [if_neg hkj]
          by_cases hk0 : k = 0
          · rw [if_pos hk0]; exact le_of_lt hfin
          · rw [if_neg hk0]; exact hinv.low k (by omega)
      · intro x hx
        obtain ⟨k, hk1, hk2, hk3⟩ := mem_drop_getD _ _ x ptmp hx
        rw [SWAP_length] at hk2
        rw [← hk3, hg k, if_neg (by omega), if_neg (by omega)]
        exact hinv.high k (by omega) (by omega)
      · intro hp h2 d
        have hfull : 0 < t.length := by omega
        rw [getD_indep _ _ d ptmp (by simp), getD_indep _ 0 d ptmp (by simp)]
        by_contra hcon
        have hcon2 : score ptmp ≤ score ((ptmp :: t).getD t.length ptmp) := by
          have := not_lt.mp hcon
          simpa using this
        rcases hinv.first hcon2 hfull with ⟨h1, _, _⟩ | h1
        · omega
        · omega
      · intro _ d
        rw [getD_indep _ 0 d ptmp (by rw [SWAP_length]; omega),
          getD_indep _ j1 d ptmp (by rw [SWAP_length]; omega), hg 0, hg j1,
          if_neg (by omega), if_pos rfl, if_pos rfl, hinv.head]
        exact hfin
    · rw [if_neg hj, if_neg (Nat.not_lt_zero _)]
      have hj0 : j1 = 0 := by omega
      refine ⟨_, _, rfl, hinv.perm, by omega, ⟨score ptmp, ?_, ?_⟩, ?_, ?_⟩
      · intro x hx
        obtain ⟨k, hk1, _, hk3⟩ := mem_take_getD _ _ x ptmp hx
        have hk0 : k = 0 := by omega
        rw [← hk3, hk0, hinv.head]
      · intro x hx
        obtain ⟨k, hk1, hk2, hk3⟩ := mem_drop_getD _ _ x ptmp hx
        rw [← hk3]
        exact hinv.high k (by omega) (by omega)
      · intro hp h2 d; exfalso; omega
      · intro h; omega

/-- Upper bound of the measure. -/
theorem qmeasure_le (score : α → Int) (l : List α) :
    qmeasure score l ≤ 2 * l.length + 1 := by
  unfold qmeasure
  cases l with
  | nil => simp
  | cons a t => dsimp only; split <;> omega

/-- Lower bound of the measure. -/
theorem qmeasure_ge (score : α → Int) (l : List α) :
    2 * l.length ≤ qmeasure score l := by
  unfold qmeasure; omega

/-- The measure when the last element scores strictly below the first. -/
theorem qmeasure_flag1 (score : α → Int) (l : List α) (h : 0 < l.length)
    (hlt : ∀ d, score (l.getD (l.length - 1) d) < score (l.getD 0 d)) :
    qmeasure score l = 2 * l.length + 1 := by
  unfold qmeasure
  cases l with
  | nil => simp at h
  | cons a t =>
    have := hlt a
    simp only [List.getD_cons_zero] at this
    dsimp only
    rw [if_pos this]

/-- The measure when the first element scores strictly below the last. -/
theorem qmeasure_flag0 (score : α → Int) (l : List α)
    (hlt : ∀ d, score (l.getD 0 d) < score (l.getD (l.length - 1) d)) :
    qmeasure score l = 2 * l.length := by
  unfold qmeasure
  cases l with
  | nil => simp
  | cons a t =>
    have := hlt a
    simp only [List.getD_cons_zero] at this
    dsimp only
    rw [if_neg (by omega), Nat.add_zero]

/-- The sort under a score comparator, with more fuel than the measure of its input: it
returns a permutation of the input that is in non-decreasing score order. -/
theorem qsort_spec {state : σ} {compar : σ → α → α → Int} {score : α → Int}
    (hc : ScoreCompar state compar score) :
    ∀ fuel base, qmeasure score base < fuel →
      ∃ r, _gnutls_qsort fuel state base compar = some r ∧ r.Perm base ∧
        r.Pairwise (fun a b => score a ≤ score b) := by
  intro fuel
  induction fuel with
  | zero => intro base h; omega
  | succ fuel ih =>
    intro base hm
    simp only [_gnutls_qsort]
    by_cases hn : base.length ≤ 1
    · rw [if_pos hn]
      refine ⟨base, rfl, List.Perm.refl _, ?_⟩
      match base, hn with
      | [], _ => exact List.Pairwise.nil
      | [a], _ => exact List.pairwise_singleton _ a
      | a :: b :: t, h => simp at h
    · rw [if_neg hn]
      have hq := qmeasure_ge score base
      obtain ⟨base1, p, hpart, hperm, hp, ⟨pv, htake, hdrop⟩, T1, T2⟩ :=
        partition_spec hc base fuel (by omega) (by omega)
      have hlen1 : base1.length = base.length := hperm.length_eq
      have hleft : qmeasure score (base1.take (p + 1)) < fuel := by
        by_cases hpl : p + 1 = base.length
        · rw [List.take_of_length_le (by omega)]
          have h1 := qmeasure_flag1 score base (by omega) (T1 hpl (by omega))
          have h0 := qmeasure_flag0 score base1 (by
            intro d
            have := T2 (by omega) d
            rwa [show base1.length - 1 = p by omega])
          omega
        · have := qmeasure_le score (base1.take (p + 1))
          rw [List.length_take] at this
          omega
      have hright : qmeasure score (base1.drop (p + 1)) < fuel := by
        have := qmeasure_le score (base1.drop (p + 1))
        rw [List.length_drop] at this
        omega
      obtain ⟨left, hl, hlperm, hlsorted⟩ := ih _ hleft
      obtain ⟨right, hr, hrperm, hrsorted⟩ := ih _ hright
      rw [hpart]
      simp only [if_pos hp, hl, hr, Nat.sub_self, List.take_zero, List.append_nil]
      refine ⟨_, rfl, ?_, ?_⟩
      · have := hlperm.append hrperm
        rw [List.take_append_drop] at this
        exact this.trans hperm
      · exact List.pairwise_append.mpr ⟨hlsorted, hrsorted, fun a ha b hb =>
          le_trans (htake a (hlperm.subset ha)) (hdrop b (hrperm.subset hb))⟩

end SortingProofs

/-! ## Properties of the tables, the comparator and the selector -/

set_option maxRecDepth 100000

/-- The comparator of the selector orders suites by their composite score. -/
theorem compare_algo_score (state : GNUTLS_STATE) :
    ScoreCompar state _gnutls_compare_algo (suite_score state) := by
  intro a b
  unfold _gnutls_compare_algo suite_score
  dsimp only
  split_ifs <;> constructor <;> constructor <;> intro h <;> omega

/-- The suite count evaluates to 32. -/
theorem cipher_suite_count_eq : _gnutls_cipher_suite_count = 32 := by decide

/-- The copy loop over 32 entries yields the ids of the whole table, in table order. -/
theorem copy_suites_eq : copy_suites 32 = cs_algorithms.map (fun e => e.id) := by decide

/-- The suite ids of the table are pairwise different. -/
theorem cs_ids_nodup : (cs_algorithms.map (fun e => e.id)).Nodup := by decide

/-- Looking up the id of a table entry returns the algorithms of that entry. -/
theorem cs_lookup_entry : ∀ e ∈ cs_algorithms,
    _gnutls_cipher_suite_get_kx_algo e.id = e.kx_algorithm ∧
    _gnutls_cipher_suite_get_cipher_algo e.id = e.block_algorithm ∧
    _gnutls_cipher_suite_get_mac_algo e.id = e.mac_algorithm := by decide

/-- The tail of the selectors for a table of 32 suites: the count is the number of kept
suites and the array is `NULL` exactly when none is kept. -/
theorem selector_result_32 (kept : List GNUTLS_CipherSuite) :
    selector_result 32 kept =
      ((kept.length : Int), if kept = [] then none else some kept) := by
  unfold selector_result
  cases kept with
  | nil => simp
  | cons a t =>
    by_cases h : (a :: t).length = 32
    · simp [h]
    · simp [h]

/-- The sorted selector with fuel at least 66: it returns, and the kept suites are a
permutation of the accepted table ids in non-decreasing score order. -/
theorem sorted_selector_spec (fuel : Nat) (state : GNUTLS_STATE) (hfuel : 66 ≤ fuel) :
    ∃ kept, _gnutls_supported_ciphersuites_sorted fuel state =
        some ((kept.length : Int), if kept = [] then none else some kept) ∧
      kept.Perm ((cs_algorithms.map (fun e => e.id)).filter (suite_accepted state)) ∧
      kept.Pairwise (fun a b => suite_score state a ≤ suite_score state b) := by
  have hm : qmeasure (suite_score state) (cs_algorithms.map (fun e => e.id)) < fuel := by
    have := qmeasure_le (suite_score state) (cs_algorithms.map (fun e => e.id))
    have hl : (cs_algorithms.map (fun e => e.id)).length = 32 := by decide
    omega
  obtain ⟨r, hr, hperm, hsorted⟩ := qsort_spec (compare_algo_score state) fuel _ hm
  refine ⟨r.filter (suite_accepted state), ?_, hperm.filter _,
    hsorted.sublist (List.filter_sublist r)⟩
  unfold _gnutls_supported_ciphersuites_sorted
  simp only [cipher_suite_count_eq, copy_suites_eq, hr]
  rw [if_neg (by decide), selector_result_32]

/-- The unsorted selector keeps the accepted table ids in table order. -/
theorem unsorted_selector_spec (state : GNUTLS_STATE) :
    _gnutls_supported_ciphersuites state =
      selector_result 32 ((cs_algorithms.map (fun e => e.id)).filter (suite_accepted state)) := by
  unfold _gnutls_supported_ciphersuites
  simp only [cipher_suite_count_eq, copy_suites_eq]
  rw [if_neg (by decide)]

/-- Filtering the table ids by the selector test is filtering the table entries by their
own algorithms. -/
theorem accepted_entries_eq (state : GNUTLS_STATE) :
    (cs_algorithms.map (fun e => e.id)).filter (suite_accepted state) =
      (cs_algorithms.filter (entry_accepted state)).map (fun e => e.id) := by
  rw [List.filter_map]
  congr 1
  apply List.filter_congr
  intro e he
  obtain ⟨h1, h2, h3⟩ := cs_lookup_entry e he
  simp only [Function.comp, suite_accepted, entry_accepted, h1, h2, h3]
  by_cases hk : _gnutls_kx_priority state e.kx_algorithm < 0 <;>
  by_cases hcp : _gnutls_cipher_priority state e.block_algorithm < 0 <;>
  by_cases hmp : _gnutls_mac_priority state e.mac_algorithm < 0 <;>
  simp [hk, hcp, hmp, not_le.mpr, not_lt.mp]

/-- The selector test holds exactly when the three priorities are all at least 0. -/
theorem suite_accepted_iff (state : GNUTLS_STATE) (s : GNUTLS_CipherSuite) :
    suite_accepted state s = true ↔
      0 ≤ _gnutls_kx_priority state (_gnutls_cipher_suite_get_kx_algo s) ∧
      0 ≤ _gnutls_cipher_priority state (_gnutls_cipher_suite_get_cipher_algo s) ∧
      0 ≤ _gnutls_mac_priority state (_gnutls_cipher_suite_get_mac_algo s) := by
  unfold suite_accepted
  simp only [Bool.and_eq_true, Bool.not_eq_true', decide_eq_false_iff_not, not_lt]
  tauto

/-- The priority loop started at index `i`: `i` plus the least position of the identifier
when it occurs, -1 otherwise. -/
theorem priority_scan_spec (id : Nat) : ∀ (l : List Nat) (i : Int),
    (id ∈ l → ∃ k : Nat, l[k]? = some id ∧ (∀ m, m < k → l[m]? ≠ some id) ∧
      priority_scan id l i = i + (k : Int)) ∧
    (id ∉ l → priority_scan id l i = -1) := by
  intro l
  induction l with
  | nil =>
    intro i
    exact ⟨fun h => absurd h (List.not_mem_nil _), fun _ => rfl⟩
  | cons x rest ih =>
    intro i
    by_cases hx : x = id
    · refine ⟨fun _ => ⟨0, by simp [hx], fun m hm => by omega, by simp [priority_scan, hx]⟩,
        fun h => absurd (by simp [hx]) h⟩
    · obtain ⟨ih1, ih2⟩ := ih (i + 1)
      constructor
      · intro hmem
        have hrest : id ∈ rest := by
          rcases List.mem_cons.mp hmem with h | h
          · exact absurd h.symm hx
          · exact h
        obtain ⟨k, hk1, hk2, hk3⟩ := ih1 hrest
        refine ⟨k + 1, by simpa using hk1, ?_, ?_⟩
        · intro m hm
          cases m with
          | zero =>
            intro h
            simp only [List.getElem?_cons_zero, Option.some.injEq] at h
            exact hx h
          | succ m =>
            simpa using hk2 m (by omega)
        · simp only [priority_scan, if_neg hx, hk3]
          push_cast
          ring
      · intro hmem
        have hrest : id ∉ rest := fun h => hmem (List.mem_cons_of_mem _ h)
        simp only [priority_scan, if_neg hx, ih2 hrest]

/-- The priority loop started at 0 meets the specification of a priority lookup. -/
theorem priority_scan_is (l : List Nat) (id : Nat) :
    IsPriorityOf l id (priority_scan id l 0) := by
  obtain ⟨h1, h2⟩ := priority_scan_spec id l 0
  have hrange : -1 ≤ priority_scan id l 0 ∧ priority_scan id l 0 ≤ (l.length : Int) - 1 := by
    by_cases hmem : id ∈ l
    · obtain ⟨k, hk1, _, hk3⟩ := h1 hmem
      obtain ⟨hlt, _⟩ := List.getElem?_eq_some.mp hk1
      rw [hk3]
      omega
    · rw [h2 hmem]
      omega
  refine ⟨fun hmem => ?_, h2, hrange.1, hrange.2⟩
  obtain ⟨k, hk1, hk2, hk3⟩ := h1 hmem
  exact ⟨k, hk1, hk2, by rw [hk3]; ring⟩

/-- On an empty list the priority loop returns -1. -/
theorem priority_scan_nil (id : Nat) (i : Int) : priority_scan id [] i = -1 := rfl

/-- A pairwise relation holds between the elements at any two increasing positions. -/
theorem pairwise_getElem? {α : Type} {R : α → α → Prop} {l : List α} (h : l.Pairwise R)
    {i j : Nat} {a b : α} (hi : l[i]? = some a) (hj : l[j]? = some b) (hij : i < j) :
    R a b := by
  obtain ⟨hi1, hi2⟩ := List.getElem?_eq_some.mp hi
  obtain ⟨hj1, hj2⟩ := List.getElem?_eq_some.mp hj
  rw [← hi2, ← hj2]
  exact List.pairwise_iff_getElem.mp h i j hi1 hj1 hij

/-- In a list in non-decreasing score order, an element scoring strictly below another
stands before it. -/
theorem sorted_before {α : Type} {score : α → Int} {l : List α}
    (h : l.Pairwise (fun a b => score a ≤ score b)) {i j : Nat} {a b : α}
    (hi : l[i]? = some a) (hj : l[j]? = some b) (hlt : score a < score b) : i < j := by
  by_contra hcon
  rcases Nat.lt_or_ge j i with hji | hji
  · have := pairwise_getElem? h hj hi hji
    omega
  · have hij : i = j := by omega
    subst hij
    rw [hi] at hj
    have hab : a = b := Option.some.inj hj
    subst hab
    omega

/-- A list in strictly ascending score order is the only score-sorted arrangement of
its elements. -/
theorem sorted_perm_unique {α : Type} {score : α → Int} :
    ∀ (l l1 : List α), l1.Perm l →
      l.Pairwise (fun a b => score a < score b) →
      l1.Pairwise (fun a b => score a ≤ score b) → l1 = l := by
  intro l
  induction l with
  | nil => intro l1 hp _ _; exact hp.eq_nil
  | cons a t ih =>
    intro l1 hp hs hs1
    cases l1 with
    | nil => exact absurd hp.symm.eq_nil (List.cons_ne_nil _ _)
    | cons b t1 =>
      have hb : b ∈ a :: t := hp.subset (List.mem_cons_self _ _)
      have hab : b = a := by
        rcases List.mem_cons.mp hb with h | h
        · exact h
        · have h1 : score a < score b := List.rel_of_pairwise_cons hs h
          have ha : a ∈ b :: t1 := hp.symm.subset (List.mem_cons_self _ _)
          rcases List.mem_cons.mp ha with h2 | h2
          · exact h2.symm
          · have h3 : score b ≤ score a := List.rel_of_pairwise_cons hs1 h2
            omega
      subst hab
      rw [ih t1 hp.cons_inv hs.of_cons hs1.of_cons]

/-- The priority lookup never exceeds the last index of the list. -/
theorem priority_scan_le (l : List Nat) (id : Nat) :
    priority_scan id l 0 ≤ (l.length : Int) - 1 :=
  (priority_scan_is l id).2.2.2

/-- The priority lookup is never below -1. -/
theorem priority_scan_ge (l : List Nat) (id : Nat) : -1 ≤ priority_scan id l 0 :=
  (priority_scan_is l id).2.2.1

/-- The priority lookup is negative exactly when the identifier is not in the list. -/
theorem priority_scan_neg_iff (l : List Nat) (id : Nat) :
    priority_scan id l 0 < 0 ↔ id ∉ l := by
  obtain ⟨h1, h2⟩ := priority_scan_spec id l 0
  constructor
  · intro hlt hmem
    obtain ⟨k, _, _, hk⟩ := h1 hmem
    omega
  · intro hmem
    rw [h2 hmem]
    decide

/-- Inside the range of a C `int` the 32-bit reduction changes nothing. -/
theorem int32_of_range (x : Int) (h1 : -2147483648 ≤ x) (h2 : x ≤ 2147483647) :
    int32 x = x := by
  unfold int32
  omega

/-- The three-step `int` computation of a score from priorities that are at least -1
gives the formula value whenever that value is at most the largest C `int`. -/
theorem int32_score (k c m : Int) (hk : -1 ≤ k) (hc : -1 ≤ c) (hm : -1 ≤ m)
    (h : (k + 1) * 100 + (c + 1) * 10 + m ≤ 2147483647) :
    int32 (int32 (int32 (int32 (k + 1) * 100) + int32 (int32 (c + 1) * 10)) + m) =
      (k + 1) * 100 + (c + 1) * 10 + m := by
  rw [int32_of_range (k + 1) (by omega) (by omega),
    int32_of_range ((k + 1) * 100) (by omega) (by omega),
    int32_of_range (c + 1) (by omega) (by omega),
    int32_of_range ((c + 1) * 10) (by omega) (by omega),
    int32_of_range ((k + 1) * 100 + (c + 1) * 10) (by omega) (by omega),
    int32_of_range ((k + 1) * 100 + (c + 1) * 10 + m) (by omega) (by omega)]

/-- The comparator returns 1, 0 or -1 as the `int` score of its first argument is
greater than, equal to or less than that of its second. -/
theorem compare_algo_eq (state : GNUTLS_STATE) (A B : GNUTLS_CipherSuite) :
    _gnutls_compare_algo state A B =
      if suite_score state A > suite_score state B then 1
      else if suite_score state A = suite_score state B then 0
      else -1 := rfl

/-- When the formula score of a suite is at most the largest C `int`, the score the
comparator computes for it is the formula score. -/
theorem suite_score_eq_formula (state : GNUTLS_STATE) (s : GNUTLS_CipherSuite)
    (h : formula_score state s ≤ 2147483647) :
    suite_score state s = formula_score state s := by
  unfold formula_score at h
  unfold suite_score formula_score
  exact int32_score _ _ _ (priority_scan_ge _ _) (priority_scan_ge _ _)
    (priority_scan_ge _ _) h

/-- The formula score of a suite lies below the weighted sum of the lengths of the
three priority lists. -/
theorem formula_score_lt (state : GNUTLS_STATE) (s : GNUTLS_CipherSuite) :
    formula_score state s <
      100 * (state.KXAlgorithmPriority.length : Int) +
      10 * (state.BulkCipherAlgorithmPriority.length : Int) +
      (state.MACAlgorithmPriority.length : Int) := by
  have k := priority_scan_le state.KXAlgorithmPriority (_gnutls_cipher_suite_get_kx_algo s)
  have c := priority_scan_le state.BulkCipherAlgorithmPriority
    (_gnutls_cipher_suite_get_cipher_algo s)
  have m := priority_scan_le state.MACAlgorithmPriority (_gnutls_cipher_suite_get_mac_algo s)
  unfold formula_score _gnutls_kx_priority _gnutls_cipher_priority _gnutls_mac_priority
  omega

/-- When the weighted sum of the lengths of the three priority lists is at most the
largest C `int`, the comparator's score of every suite is its formula score. -/
theorem suite_score_eq_formula_of_lengths (state : GNUTLS_STATE)
    (hfit : 100 * state.KXAlgorithmPriority.length +
      10 * state.BulkCipherAlgorithmPriority.length +
      state.MACAlgorithmPriority.length ≤ 2147483647) (s : GNUTLS_CipherSuite) :
    suite_score state s = formula_score state s := by
  apply suite_score_eq_formula
  have := formula_score_lt state s
  omega

/-- The priority loop skips a run of `n` entries different from the identifier. -/
theorem priority_scan_replicate_ne (a b : Nat) (hne : b ≠ a) (rest : List Nat) :
    ∀ (n : Nat) (i : Int),
      priority_scan a (List.replicate n b ++ rest) i = priority_scan a rest (i + n) := by
  intro n
  induction n with
  | zero => intro i; simp
  | succ n ih =>
    intro i
    rw [List.replicate_succ, List.cons_append]
    show (if b = a then i else priority_scan a (List.replicate n b ++ rest) (i + 1)) = _
    rw [if_neg hne, ih]
    push_cast
    congr 1
    ring

/-- The priority loop stops at the first entry of a non-empty run of the identifier. -/
theorem priority_scan_replicate_eq (a : Nat) (rest : List Nat) (n : Nat) (i : Int)
    (hn : 0 < n) : priority_scan a (List.replicate n a ++ rest) i = i := by
  cases n with
  | zero => omega
  | succ n =>
    rw [List.replicate_succ, List.cons_append]
    show (if a = a then i else _) = i
    rw [if_pos rfl]

/-- In the session `kx_heavy_state n` the KX priority of `GNUTLS_KX_DH_ANON` is `n`. -/
theorem kx_heavy_dh_anon (n : Nat) :
    _gnutls_kx_priority (kx_heavy_state n) GNUTLS_KX_DH_ANON = (n : Int) := by
  show priority_scan GNUTLS_KX_DH_ANON
    (List.replicate n GNUTLS_KX_RSA ++ [GNUTLS_KX_DH_ANON]) 0 = (n : Int)
  rw [priority_scan_replicate_ne _ _ (by decide)]
  show (if GNUTLS_KX_DH_ANON = GNUTLS_KX_DH_ANON then (0 : Int) + n else _) = (n : Int)
  rw [if_pos rfl]
  omega

/-- In the session `kx_heavy_state n` with `0 < n` the KX priority of `GNUTLS_KX_RSA`
is 0. -/
theorem kx_heavy_rsa (n : Nat) (hn : 0 < n) :
    _gnutls_kx_priority (kx_heavy_state n) GNUTLS_KX_RSA = 0 :=
  priority_scan_replicate_eq GNUTLS_KX_RSA [GNUTLS_KX_DH_ANON] n 0 hn

/-- The selector test of `kx_heavy_state n` does not depend on `n` once `0 < n`. -/
theorem kx_heavy_accepted (n : Nat) (hn : 0 < n) (s : GNUTLS_CipherSuite) :
    suite_accepted (kx_heavy_state n) s = suite_accepted (kx_heavy_state 1) s := by
  have hk : ∀ a : Nat, decide (_gnutls_kx_priority (kx_heavy_state n) a < 0) =
      decide (_gnutls_kx_priority (kx_heavy_state 1) a < 0) := by
    intro a
    apply decide_eq_decide.mpr
    unfold _gnutls_kx_priority
    rw [priority_scan_neg_iff, priority_scan_neg_iff]
    show ¬ a ∈ List.replicate n GNUTLS_KX_RSA ++ [GNUTLS_KX_DH_ANON] ↔
      ¬ a ∈ List.replicate 1 GNUTLS_KX_RSA ++ [GNUTLS_KX_DH_ANON]
    simp only [List.mem_append, List.mem_replicate, List.mem_singleton]
    constructor <;> intro h hc <;> apply h <;> rcases hc with ⟨_, hc⟩ | hc
    · exact Or.inl ⟨by omega, hc⟩
    · exact Or.inr hc
    · exact Or.inl ⟨by omega, hc⟩
    · exact Or.inr hc
  unfold suite_accepted
  rw [hk]
  rfl

/-- The suites that `kx_heavy_state n` accepts, in table order, once `0 < n`. -/
theorem kx_heavy_filter (n : Nat) (hn : 0 < n) :
    (cs_algorithms.map (fun e => e.id)).filter (suite_accepted (kx_heavy_state n)) =
      [⟨0x00, 0x1B⟩, ⟨0x00, 0x0A⟩] := by
  have h1 : (cs_algorithms.map (fun e => e.id)).filter (suite_accepted (kx_heavy_state n)) =
      (cs_algorithms.map (fun e => e.id)).filter (suite_accepted (kx_heavy_state 1)) :=
    List.filter_congr (fun s _ => kx_heavy_accepted n hn s)
  rw [h1]
  decide

/-- The `int` score of `DH_anon_3DES_EDE_CBC_SHA` in `overflow_state`: the product
`21474837 * 100` has wrapped. -/
theorem overflow_score_dh_anon : suite_score overflow_state ⟨0x00, 0x1B⟩ = -2147483586 := by
  have hk : _gnutls_cipher_suite_get_kx_algo ⟨0x00, 0x1B⟩ = GNUTLS_KX_DH_ANON := by decide
  have hp := kx_heavy_dh_anon 21474836
  have hc : _gnutls_cipher_priority (kx_heavy_state 21474836)
      (_gnutls_cipher_suite_get_cipher_algo ⟨0x00, 0x1B⟩) =
      priority_scan (_gnutls_cipher_suite_get_cipher_algo ⟨0x00, 0x1B⟩) [GNUTLS_3DES] 0 := rfl
  have hc0 : priority_scan (_gnutls_cipher_suite_get_cipher_algo ⟨0x00, 0x1B⟩)
      [GNUTLS_3DES] 0 = 0 := by decide
  have hm : _gnutls_mac_priority (kx_heavy_state 21474836)
      (_gnutls_cipher_suite_get_mac_algo ⟨0x00, 0x1B⟩) =
      priority_scan (_gnutls_cipher_suite_get_mac_algo ⟨0x00, 0x1B⟩) [GNUTLS_MAC_SHA] 0 := rfl
  have hm0 : priority_scan (_gnutls_cipher_suite_get_mac_algo ⟨0x00, 0x1B⟩)
      [GNUTLS_MAC_SHA] 0 = 0 := by decide
  unfold overflow_state suite_score
  rw [hk, hp, hc, hc0, hm, hm0]
  decide

/-- The `int` score of `RSA_3DES_EDE_CBC_SHA` in `overflow_state`. -/
theorem overflow_score_rsa : suite_score overflow_state ⟨0x00, 0x0A⟩ = 110 := by
  have hk : _gnutls_cipher_suite_get_kx_algo ⟨0x00, 0x0A⟩ = GNUTLS_KX_RSA := by decide
  have hp := kx_heavy_rsa 21474836 (by omega)
  have hc : _gnutls_cipher_priority (kx_heavy_state 21474836)
      (_gnutls_cipher_suite_get_cipher_algo ⟨0x00, 0x0A⟩) =
      priority_scan (_gnutls_cipher_suite_get_cipher_algo ⟨0x00, 0x0A⟩) [GNUTLS_3DES] 0 := rfl
  have hc0 : priority_scan (_gnutls_cipher_suite_get_cipher_algo ⟨0x00, 0x0A⟩)
      [GNUTLS_3DES] 0 = 0 := by decide
  have hm : _gnutls_mac_priority (kx_heavy_state 21474836)
      (_gnutls_cipher_suite_get_mac_algo ⟨0x00, 0x0A⟩) =
      priority_scan (_gnutls_cipher_suite_get_mac_algo ⟨0x00, 0x0A⟩) [GNUTLS_MAC_SHA] 0 := rfl
  have hm0 : priority_scan (_gnutls_cipher_suite_get_mac_algo ⟨0x00, 0x0A⟩)
      [GNUTLS_MAC_SHA] 0 = 0 := by decide
  unfold overflow_state suite_score
  rw [hk, hp, hc, hc0, hm, hm0]
  decide

/-- The formula score of `DH_anon_3DES_EDE_CBC_SHA` in `overflow_state`. -/
theorem overflow_formula_dh_anon :
    formula_score overflow_state ⟨0x00, 0x1B⟩ = 2147483710 := by
  have hk : _gnutls_cipher_suite_get_kx_algo ⟨0x00, 0x1B⟩ = GNUTLS_KX_DH_ANON := by decide
  have hp := kx_heavy_dh_anon 21474836
  have hc : _gnutls_cipher_priority (kx_heavy_state 21474836)
      (_gnutls_cipher_suite_get_cipher_algo ⟨0x00, 0x1B⟩) =
      priority_scan (_gnutls_cipher_suite_get_cipher_algo ⟨0x00, 0x1B⟩) [GNUTLS_3DES] 0 := rfl
  have hc0 : priority_scan (_gnutls_cipher_suite_get_cipher_algo ⟨0x00, 0x1B⟩)
      [GNUTLS_3DES] 0 = 0 := by decide
  have hm : _gnutls_mac_priority (kx_heavy_state 21474836)
      (_gnutls_cipher_suite_get_mac_algo ⟨0x00, 0x1B⟩) =
      priority_scan (_gnutls_cipher_suite_get_mac_algo ⟨0x00, 0x1B⟩) [GNUTLS_MAC_SHA] 0 := rfl
  have hm0 : priority_scan (_gnutls_cipher_suite_get_mac_algo ⟨0x00, 0x1B⟩)
      [GNUTLS_MAC_SHA] 0 = 0 := by decide
  unfold overflow_state formula_score
  rw [hk, hp, hc, hc0, hm, hm0]
  decide

/-- The formula score of `RSA_3DES_EDE_CBC_SHA` in `overflow_state`. -/
theorem overflow_formula_rsa : formula_score overflow_state ⟨0x00, 0x0A⟩ = 110 := by
  have hk : _gnutls_cipher_suite_get_kx_algo ⟨0x00, 0x0A⟩ = GNUTLS_KX_RSA := by decide
  have hp := kx_heavy_rsa 21474836 (by omega)
  have hc : _gnutls_cipher_priority (kx_heavy_state 21474836)
      (_gnutls_cipher_suite_get_cipher_algo ⟨0x00, 0x0A⟩) =
      priority_scan (_gnutls_cipher_suite_get_cipher_algo ⟨0x00, 0x0A⟩) [GNUTLS_3DES] 0 := rfl
  have hc0 : priority_scan (_gnutls_cipher_suite_get_cipher_algo ⟨0x00, 0x0A⟩)
      [GNUTLS_3DES] 0 = 0 := by decide
  have hm : _gnutls_mac_priority (kx_heavy_state 21474836)
      (_gnutls_cipher_suite_get_mac_algo ⟨0x00, 0x0A⟩) =
      priority_scan (_gnutls_cipher_suite_get_mac_algo ⟨0x00, 0x0A⟩) [GNUTLS_MAC_SHA] 0 := rfl
  have hm0 : priority_scan (_gnutls_cipher_suite_get_mac_algo ⟨0x00, 0x0A⟩)
      [GNUTLS_MAC_SHA] 0 = 0 := by decide
  unfold overflow_state formula_score
  rw [hk, hp, hc, hc0, hm, hm0]
  decide

/-- With an empty KX, cipher or MAC list the selector filter keeps nothing. -/
theorem no_suite_accepted (state : GNUTLS_STATE)
    (hempty : state.KXAlgorithmPriority = [] ∨ state.BulkCipherAlgorithmPriority = [] ∨
      state.MACAlgorithmPriority = []) (l : List GNUTLS_CipherSuite) :
    l.filter (suite_accepted state) = [] := by
  rw [List.filter_eq_nil_iff]
  intro s _ hacc
  obtain ⟨h1, h2, h3⟩ := (suite_accepted_iff state s).mp hacc
  rcases hempty with h | h | h
  · rw [_gnutls_kx_priority, h, priority_scan_nil] at h1; omega
  · rw [_gnutls_cipher_priority, h, priority_scan_nil] at h2; omega
  · rw [_gnutls_mac_priority, h, priority_scan_nil] at h3; omega

/-! ## The claims -/

/-- C1: with enough fuel for the sort to finish, the sorted selector returns, and
every suite of the returned list has KX, cipher and MAC priorities that are all
at least 0 (none is -1); a `NULL` list comes with count 0. -/
theorem C1_returned_suites_have_priorities (fuel : Nat) (state : GNUTLS_STATE)
    (hfuel : 66 ≤ fuel) :
    ∃ count ciphers, _gnutls_supported_ciphersuites_sorted fuel state = some (count, ciphers) ∧
      (ciphers = none → count = 0) ∧
      ∀ l, ciphers = some l → (count = (l.length : Int) ∧ ∀ s ∈ l,
        0 ≤ _gnutls_kx_priority state (_gnutls_cipher_suite_get_kx_algo s) ∧
        0 ≤ _gnutls_cipher_priority state (_gnutls_cipher_suite_get_cipher_algo s) ∧
        0 ≤ _gnutls_mac_priority state (_gnutls_cipher_suite_get_mac_algo s) ∧
        _gnutls_kx_priority state (_gnutls_cipher_suite_get_kx_algo s) ≠ -1 ∧
        _gnutls_cipher_priority state (_gnutls_cipher_suite_get_cipher_algo s) ≠ -1 ∧
        _gnutls_mac_priority state (_gnutls_cipher_suite_get_mac_algo s) ≠ -1) := by
  obtain ⟨kept, hres, hperm, _⟩ := sorted_selector_spec fuel state hfuel
  refine ⟨_, _, hres, ?_, ?_⟩
  · intro h
    by_cases hk : kept = []
    · simp [hk]
    · rw [if_neg hk] at h; exact Option.noConfusion h
  · intro l hl
    by_cases hk : kept = []
    · rw [if_pos hk] at hl; exact Option.noConfusion hl
    · rw [if_neg hk] at hl
      have hkl : kept = l := Option.some.inj hl
      subst hkl
      refine ⟨rfl, fun s hs => ?_⟩
      have hacc := (List.mem_filter.mp (hperm.subset hs)).2
      obtain ⟨h1, h2, h3⟩ := (suite_accepted_iff state s).mp hacc
      exact ⟨h1, h2, h3, by omega, by omega, by omega⟩

/-- Witness of C1 at the example session with fuel 66. -/
theorem C1_witness :
    66 ≤ 66 ∧ ∃ count ciphers,
      _gnutls_supported_ciphersuites_sorted 66 example_state = some (count, ciphers) ∧
      (ciphers = none → count = 0) ∧
      ∀ l, ciphers = some l → (count = (l.length : Int) ∧ ∀ s ∈ l,
        0 ≤ _gnutls_kx_priority example_state (_gnutls_cipher_suite_get_kx_algo s) ∧
        0 ≤ _gnutls_cipher_priority example_state (_gnutls_cipher_suite_get_cipher_algo s) ∧
        0 ≤ _gnutls_mac_priority example_state (_gnutls_cipher_suite_get_mac_algo s) ∧
        _gnutls_kx_priority example_state (_gnutls_cipher_suite_get_kx_algo s) ≠ -1 ∧
        _gnutls_cipher_priority example_state (_gnutls_cipher_suite_get_cipher_algo s) ≠ -1 ∧
        _gnutls_mac_priority example_state (_gnutls_cipher_suite_get_mac_algo s) ≠ -1) :=
  ⟨by decide, C1_returned_suites_have_priorities 66 example_state (by decide)⟩

/-- C2 (as amended): when the weighted sum of the lengths of the priority lists,
`100 * |KX| + 10 * |cipher| + |MAC|`, is at most 2147483647 (the largest C `int`),
then, with enough fuel for the sort to finish, the list returned by the sorted
selector is in non-decreasing order of the composite score
`(kx_priority+1)*100 + (cipher_priority+1)*10 + mac_priority`: each returned suite
scores at most as much as the suite that follows it (and as every later one). -/
theorem C2_output_sorted_by_score (fuel : Nat) (state : GNUTLS_STATE) (hfuel : 66 ≤ fuel)
    (hfit : 100 * state.KXAlgorithmPriority.length +
      10 * state.BulkCipherAlgorithmPriority.length +
      state.MACAlgorithmPriority.length ≤ 2147483647) :
    ∃ count ciphers, _gnutls_supported_ciphersuites_sorted fuel state = some (count, ciphers) ∧
      (ciphers = none → count = 0) ∧
      ∀ l, ciphers = some l →
        (∀ (i : Nat) (a b : GNUTLS_CipherSuite), l[i]? = some a → l[i + 1]? = some b →
          formula_score state a ≤ formula_score state b) ∧
        l.Pairwise (fun a b => formula_score state a ≤ formula_score state b) := by
  obtain ⟨kept, hres, _, hsorted⟩ := sorted_selector_spec fuel state hfuel
  have hsorted2 : kept.Pairwise (fun a b => formula_score state a ≤ formula_score state b) := by
    refine hsorted.imp ?_
    intro a b hab
    rw [suite_score_eq_formula_of_lengths state hfit a,
      suite_score_eq_formula_of_lengths state hfit b] at hab
    exact hab
  refine ⟨_, _, hres, ?_, ?_⟩
  · intro h
    by_cases hk : kept = []
    · simp [hk]
    · rw [if_neg hk] at h; exact Option.noConfusion h
  · intro l hl
    by_cases hk : kept = []
    · rw [if_pos hk] at hl; exact Option.noConfusion hl
    · rw [if_neg hk] at hl
      have hkl : kept = l := Option.some.inj hl
      subst hkl
      exact ⟨fun i a b ha hb => pairwise_getElem? hsorted2 ha hb (by omega), hsorted2⟩

/-- Witness of C2 (as amended) at the example session with fuel 66. -/
theorem C2_witness :
    66 ≤ 66 ∧
    100 * example_state.KXAlgorithmPriority.length +
      10 * example_state.BulkCipherAlgorithmPriority.length +
      example_state.MACAlgorithmPriority.length ≤ 2147483647 ∧
    ∃ count ciphers,
      _gnutls_supported_ciphersuites_sorted 66 example_state = some (count, ciphers) ∧
      (ciphers = none → count = 0) ∧
      ∀ l, ciphers = some l →
        (∀ (i : Nat) (a b : GNUTLS_CipherSuite), l[i]? = some a → l[i + 1]? = some b →
          formula_score example_state a ≤ formula_score example_state b) ∧
        l.Pairwise (fun a b => formula_score example_state a ≤ formula_score example_state b) :=
  ⟨by decide, by decide, C2_output_sorted_by_score 66 example_state (by decide) (by decide)⟩

/-- C2 fails as stated: with a KX priority list of 21474836 entries `GNUTLS_KX_RSA`
followed by `GNUTLS_KX_DH_ANON`, cipher list `[GNUTLS_3DES]` and MAC list
`[GNUTLS_MAC_SHA]`, the sorted selector returns `DH_anon_3DES_EDE_CBC_SHA`
`{0x00,0x1B}` before `RSA_3DES_EDE_CBC_SHA` `{0x00,0x0A}`, whose composite scores
are 2147483710 and 110: the first product `(21474836 + 1) * 100` does not fit a C
`int` and the comparator sees the wrapped value -2147483586. -/
theorem C2_counterexample :
    _gnutls_supported_ciphersuites_sorted 66 overflow_state =
      some (2, some [⟨0x00, 0x1B⟩, ⟨0x00, 0x0A⟩]) ∧
    formula_score overflow_state ⟨0x00, 0x1B⟩ = 2147483710 ∧
    formula_score overflow_state ⟨0x00, 0x0A⟩ = 110 ∧
    ¬ (∀ (l : List GNUTLS_CipherSuite) (count : Int),
        _gnutls_supported_ciphersuites_sorted 66 overflow_state = some (count, some l) →
        l.Pairwise
          (fun a b => formula_score overflow_state a ≤ formula_score overflow_state b)) := by
  have hres : _gnutls_supported_ciphersuites_sorted 66 overflow_state =
      some (2, some [⟨0x00, 0x1B⟩, ⟨0x00, 0x0A⟩]) := by
    obtain ⟨kept, hres, hperm, hsorted⟩ := sorted_selector_spec 66 overflow_state (le_refl _)
    have hfilter := kx_heavy_filter 21474836 (by omega)
    have hperm2 : kept.Perm [⟨0x00, 0x1B⟩, ⟨0x00, 0x0A⟩] := by
      rw [← hfilter]
      exact hperm
    have hstrict : List.Pairwise
        (fun a b => suite_score overflow_state a < suite_score overflow_state b)
        [(⟨0x00, 0x1B⟩ : GNUTLS_CipherSuite), ⟨0x00, 0x0A⟩] := by
      refine List.Pairwise.cons ?_ (List.pairwise_singleton _ _)
      intro b hb
      rw [List.mem_singleton] at hb
      rw [hb, overflow_score_dh_anon, overflow_score_rsa]
      decide
    have hk : kept = [⟨0x00, 0x1B⟩, ⟨0x00, 0x0A⟩] :=
      sorted_perm_unique _ _ hperm2 hstrict hsorted
    rw [hres, hk]
    rfl
  refine ⟨hres, overflow_formula_dh_anon, overflow_formula_rsa, fun h => ?_⟩
  have hp := h _ _ hres
  have h12 := List.rel_of_pairwise_cons hp (List.mem_singleton.mpr rfl)
  rw [overflow_formula_dh_anon, overflow_formula_rsa] at h12
  omega

/-- C3: with enough fuel for the sort to finish, the sorted selector returns exactly
the ids of the entries of `cs_algorithms` whose KX, cipher and MAC priorities are
all at least 0: the returned list has no repetition, a suite is in it exactly when
it is the id of such an entry, and the returned count is the number of such
entries (the array is `NULL` exactly when there is none). -/
theorem C3_output_is_accepted_table_suites (fuel : Nat) (state : GNUTLS_STATE)
    (hfuel : 66 ≤ fuel) :
    ∃ kept : List GNUTLS_CipherSuite,
      _gnutls_supported_ciphersuites_sorted fuel state =
        some ((kept.length : Int), if kept = [] then none else some kept) ∧
      kept.Perm ((cs_algorithms.filter (entry_accepted state)).map (fun e => e.id)) ∧
      kept.Nodup ∧
      (∀ s, s ∈ kept ↔ ∃ e ∈ cs_algorithms, e.id = s ∧
        0 ≤ _gnutls_kx_priority state e.kx_algorithm ∧
        0 ≤ _gnutls_cipher_priority state e.block_algorithm ∧
        0 ≤ _gnutls_mac_priority state e.mac_algorithm) ∧
      kept.length = (cs_algorithms.filter (entry_accepted state)).length := by
  obtain ⟨kept, hres, hperm, _⟩ := sorted_selector_spec fuel state hfuel
  rw [accepted_entries_eq] at hperm
  refine ⟨kept, hres, hperm, ?_, ?_, ?_⟩
  · rw [hperm.nodup_iff, ← accepted_entries_eq]
    exact cs_ids_nodup.filter _
  · intro s
    rw [hperm.mem_iff, List.mem_map]
    constructor
    · rintro ⟨e, he, hes⟩
      obtain ⟨he1, he2⟩ := List.mem_filter.mp he
      simp only [entry_accepted, Bool.and_eq_true, decide_eq_true_eq] at he2
      exact ⟨e, he1, hes, he2.1.1, he2.1.2, he2.2⟩
    · rintro ⟨e, he, hes, h1, h2, h3⟩
      refine ⟨e, List.mem_filter.mpr ⟨he, ?_⟩, hes⟩
      simp only [entry_accepted, Bool.and_eq_true, decide_eq_true_eq]
      exact ⟨⟨h1, h2⟩, h3⟩
  · rw [hperm.length_eq, List.length_map]

/-- Witness of C3 at the example session with fuel 66. -/
theorem C3_witness :
    66 ≤ 66 ∧ ∃ kept : List GNUTLS_CipherSuite,
      _gnutls_supported_ciphersuites_sorted 66 example_state =
        some ((kept.length : Int), if kept = [] then none else some kept) ∧
      kept.Perm ((cs_algorithms.filter (entry_accepted example_state)).map (fun e => e.id)) ∧
      kept.Nodup ∧
      (∀ s, s ∈ kept ↔ ∃ e ∈ cs_algorithms, e.id = s ∧
        0 ≤ _gnutls_kx_priority example_state e.kx_algorithm ∧
        0 ≤ _gnutls_cipher_priority example_state e.block_algorithm ∧
        0 ≤ _gnutls_mac_priority example_state e.mac_algorithm) ∧
      kept.length = (cs_algorithms.filter (entry_accepted example_state)).length :=
  ⟨by decide, C3_output_is_accepted_table_suites 66 example_state (by decide)⟩

/-- C4 (as amended): for every session state and any two suites A and B whose
composite scores `(kx+1)*100 + (cipher+1)*10 + mac` are both at most 2147483647 (the
largest C `int`), the comparator returns 1, 0 or -1 according as the score of A is
greater than, equal to or less than that of B, where each of the three terms of a
score is the session's priority lookup of the suite's algorithm (its least index in
the list, -1 when absent). -/
theorem C4_compare_algo_is_score_order (state : GNUTLS_STATE) (A B : GNUTLS_CipherSuite)
    (hA : formula_score state A ≤ 2147483647) (hB : formula_score state B ≤ 2147483647) :
    ((formula_score state A > formula_score state B ∧ _gnutls_compare_algo state A B = 1) ∨
     (formula_score state A = formula_score state B ∧ _gnutls_compare_algo state A B = 0) ∨
     (formula_score state A < formula_score state B ∧ _gnutls_compare_algo state A B = -1)) ∧
    formula_score state A =
      (_gnutls_kx_priority state (_gnutls_cipher_suite_get_kx_algo A) + 1) * 100 +
      (_gnutls_cipher_priority state (_gnutls_cipher_suite_get_cipher_algo A) + 1) * 10 +
      _gnutls_mac_priority state (_gnutls_cipher_suite_get_mac_algo A) ∧
    IsPriorityOf state.KXAlgorithmPriority (_gnutls_cipher_suite_get_kx_algo A)
      (_gnutls_kx_priority state (_gnutls_cipher_suite_get_kx_algo A)) ∧
    IsPriorityOf state.BulkCipherAlgorithmPriority (_gnutls_cipher_suite_get_cipher_algo A)
      (_gnutls_cipher_priority state (_gnutls_cipher_suite_get_cipher_algo A)) ∧
    IsPriorityOf state.MACAlgorithmPriority (_gnutls_cipher_suite_get_mac_algo A)
      (_gnutls_mac_priority state (_gnutls_cipher_suite_get_mac_algo A)) := by
  refine ⟨?_, rfl, priority_scan_is _ _, priority_scan_is _ _, priority_scan_is _ _⟩
  rw [compare_algo_eq, suite_score_eq_formula state A hA, suite_score_eq_formula state B hB]
  split_ifs with h1 h2
  · exact Or.inl ⟨h1, rfl⟩
  · exact Or.inr (Or.inl ⟨h2, rfl⟩)
  · exact Or.inr (Or.inr ⟨by omega, rfl⟩)

/-- Witness of C4 (as amended) at the example session, for `DH_anon_3DES_EDE_CBC_SHA`
and `DH_anon_RIJNDAEL_128_CBC_SHA`. -/
theorem C4_witness :
    formula_score example_state ⟨0x00, 0x1B⟩ ≤ 2147483647 ∧
    formula_score example_state ⟨0x00, 0x34⟩ ≤ 2147483647 ∧
    ((formula_score example_state ⟨0x00, 0x1B⟩ > formula_score example_state ⟨0x00, 0x34⟩ ∧
        _gnutls_compare_algo example_state ⟨0x00, 0x1B⟩ ⟨0x00, 0x34⟩ = 1) ∨
     (formula_score example_state ⟨0x00, 0x1B⟩ = formula_score example_state ⟨0x00, 0x34⟩ ∧
        _gnutls_compare_algo example_state ⟨0x00, 0x1B⟩ ⟨0x00, 0x34⟩ = 0) ∨
     (formula_score example_state ⟨0x00, 0x1B⟩ < formula_score example_state ⟨0x00, 0x34⟩ ∧
        _gnutls_compare_algo example_state ⟨0x00, 0x1B⟩ ⟨0x00, 0x34⟩ = -1)) ∧
    formula_score example_state ⟨0x00, 0x1B⟩ =
      (_gnutls_kx_priority example_state (_gnutls_cipher_suite_get_kx_algo ⟨0x00, 0x1B⟩) + 1) *
        100 +
      (_gnutls_cipher_priority example_state
        (_gnutls_cipher_suite_get_cipher_algo ⟨0x00, 0x1B⟩) + 1) * 10 +
      _gnutls_mac_priority example_state (_gnutls_cipher_suite_get_mac_algo ⟨0x00, 0x1B⟩) ∧
    IsPriorityOf example_state.KXAlgorithmPriority (_gnutls_cipher_suite_get_kx_algo ⟨0x00, 0x1B⟩)
      (_gnutls_kx_priority example_state (_gnutls_cipher_suite_get_kx_algo ⟨0x00, 0x1B⟩)) ∧
    IsPriorityOf example_state.BulkCipherAlgorithmPriority
      (_gnutls_cipher_suite_get_cipher_algo ⟨0x00, 0x1B⟩)
      (_gnutls_cipher_priority example_state
        (_gnutls_cipher_suite_get_cipher_algo ⟨0x00, 0x1B⟩)) ∧
    IsPriorityOf example_state.MACAlgorithmPriority
      (_gnutls_cipher_suite_get_mac_algo ⟨0x00, 0x1B⟩)
      (_gnutls_mac_priority example_state (_gnutls_cipher_suite_get_mac_algo ⟨0x00, 0x1B⟩)) :=
  ⟨by decide, by decide,
    C4_compare_algo_is_score_order example_state ⟨0x00, 0x1B⟩ ⟨0x00, 0x34⟩
      (by decide) (by decide)⟩

/-- C4 fails as stated: with a KX priority list of 21474836 entries `GNUTLS_KX_RSA`
followed by `GNUTLS_KX_DH_ANON`, cipher list `[GNUTLS_3DES]` and MAC list
`[GNUTLS_MAC_SHA]`, the comparator returns 1 for `RSA_3DES_EDE_CBC_SHA` (score 110)
against `DH_anon_3DES_EDE_CBC_SHA` (score 2147483710), although the first score is
the smaller one: `(21474836 + 1) * 100` does not fit a C `int` and wraps to a
negative value. -/
theorem C4_counterexample :
    _gnutls_compare_algo overflow_state ⟨0x00, 0x0A⟩ ⟨0x00, 0x1B⟩ = 1 ∧
    formula_score overflow_state ⟨0x00, 0x0A⟩ = 110 ∧
    formula_score overflow_state ⟨0x00, 0x1B⟩ = 2147483710 ∧
    _gnutls_kx_priority overflow_state (_gnutls_cipher_suite_get_kx_algo ⟨0x00, 0x1B⟩) =
      21474836 ∧
    formula_score overflow_state ⟨0x00, 0x0A⟩ < formula_score overflow_state ⟨0x00, 0x1B⟩ ∧
    ¬ (formula_score overflow_state ⟨0x00, 0x0A⟩ < formula_score overflow_state ⟨0x00, 0x1B⟩ ∧
        _gnutls_compare_algo overflow_state ⟨0x00, 0x0A⟩ ⟨0x00, 0x1B⟩ = -1) := by
  have hcmp : _gnutls_compare_algo overflow_state ⟨0x00, 0x0A⟩ ⟨0x00, 0x1B⟩ = 1 := by
    rw [compare_algo_eq, overflow_score_rsa, overflow_score_dh_anon]
    decide
  have hk : _gnutls_kx_priority overflow_state
      (_gnutls_cipher_suite_get_kx_algo ⟨0x00, 0x1B⟩) = 21474836 := by
    have h1 : _gnutls_cipher_suite_get_kx_algo ⟨0x00, 0x1B⟩ = GNUTLS_KX_DH_ANON := by decide
    rw [h1]
    exact kx_heavy_dh_anon 21474836
  refine ⟨hcmp, overflow_formula_rsa, overflow_formula_dh_anon, hk, ?_, ?_⟩
  · rw [overflow_formula_rsa, overflow_formula_dh_anon]
    decide
  · intro h
    rw [hcmp] at h
    exact absurd h.2 (by decide)

/-- C5 (as amended): when the cipher and MAC priority lists each have at most 10
entries and the weighted sum of the lengths of the priority lists,
`100 * |KX| + 10 * |cipher| + |MAC|`, is at most 2147483647 (so that no score leaves
the range of a C `int`), the key-exchange priority dominates, then the cipher
priority: for any two
returned suites A (at index i) and B (at index j), if the KX priority of A is
strictly lower than that of B then i < j, and if their KX priorities are equal and
the cipher priority of A is strictly lower than that of B then i < j. -/
theorem C5_kx_then_cipher_dominates (fuel : Nat) (state : GNUTLS_STATE) (hfuel : 66 ≤ fuel)
    (hfit : 100 * state.KXAlgorithmPriority.length +
      10 * state.BulkCipherAlgorithmPriority.length +
      state.MACAlgorithmPriority.length ≤ 2147483647)
    (hcl : state.BulkCipherAlgorithmPriority.length ≤ 10)
    (hml : state.MACAlgorithmPriority.length ≤ 10) :
    ∃ count ciphers, _gnutls_supported_ciphersuites_sorted fuel state = some (count, ciphers) ∧
      (ciphers = none → count = 0) ∧
      ∀ l, ciphers = some l →
        ∀ (i j : Nat) (A B : GNUTLS_CipherSuite), l[i]? = some A → l[j]? = some B →
          (_gnutls_kx_priority state (_gnutls_cipher_suite_get_kx_algo A) <
            _gnutls_kx_priority state (_gnutls_cipher_suite_get_kx_algo B) → i < j) ∧
          (_gnutls_kx_priority state (_gnutls_cipher_suite_get_kx_algo A) =
            _gnutls_kx_priority state (_gnutls_cipher_suite_get_kx_algo B) →
           _gnutls_cipher_priority state (_gnutls_cipher_suite_get_cipher_algo A) <
            _gnutls_cipher_priority state (_gnutls_cipher_suite_get_cipher_algo B) →
           i < j) := by
  obtain ⟨kept, hres, hperm, hsorted0⟩ := sorted_selector_spec fuel state hfuel
  have hsorted : kept.Pairwise (fun a b => formula_score state a ≤ formula_score state b) := by
    refine hsorted0.imp ?_
    intro a b hab
    rw [suite_score_eq_formula_of_lengths state hfit a,
      suite_score_eq_formula_of_lengths state hfit b] at hab
    exact hab
  refine ⟨_, _, hres, ?_, ?_⟩
  · intro h
    by_cases hk : kept = []
    · simp [hk]
    · rw [if_neg hk] at h; exact Option.noConfusion h
  · intro l hl
    by_cases hk : kept = []
    · rw [if_pos hk] at hl; exact Option.noConfusion hl
    · rw [if_neg hk] at hl
      have hkeq : kept = l := Option.some.inj hl
      subst hkeq
      intro i j A B hA hB
      have hmemA : A ∈ kept := List.mem_iff_getElem?.mpr ⟨i, hA⟩
      have hmemB : B ∈ kept := List.mem_iff_getElem?.mpr ⟨j, hB⟩
      obtain ⟨_, a2, a3⟩ :=
        (suite_accepted_iff state A).mp (List.mem_filter.mp (hperm.subset hmemA)).2
      obtain ⟨_, b2, b3⟩ :=
        (suite_accepted_iff state B).mp (List.mem_filter.mp (hperm.subset hmemB)).2
      have ca := priority_scan_le state.BulkCipherAlgorithmPriority
        (_gnutls_cipher_suite_get_cipher_algo A)
      have ma := priority_scan_le state.MACAlgorithmPriority
        (_gnutls_cipher_suite_get_mac_algo A)
      constructor
      · intro hlt
        apply sorted_before hsorted hA hB
        unfold formula_score
        unfold _gnutls_cipher_priority _gnutls_mac_priority at *
        omega
      · intro heq hlt
        apply sorted_before hsorted hA hB
        unfold formula_score
        unfold _gnutls_cipher_priority _gnutls_mac_priority at *
        omega

/-- Witness of C5 (as amended) at the example session with fuel 66. -/
theorem C5_witness :
    66 ≤ 66 ∧
    100 * example_state.KXAlgorithmPriority.length +
      10 * example_state.BulkCipherAlgorithmPriority.length +
      example_state.MACAlgorithmPriority.length ≤ 2147483647 ∧
    example_state.BulkCipherAlgorithmPriority.length ≤ 10 ∧
    example_state.MACAlgorithmPriority.length ≤ 10 ∧
    ∃ count ciphers,
      _gnutls_supported_ciphersuites_sorted 66 example_state = some (count, ciphers) ∧
      (ciphers = none → count = 0) ∧
      ∀ l, ciphers = some l →
        ∀ (i j : Nat) (A B : GNUTLS_CipherSuite), l[i]? = some A → l[j]? = some B →
          (_gnutls_kx_priority example_state (_gnutls_cipher_suite_get_kx_algo A) <
            _gnutls_kx_priority example_state (_gnutls_cipher_suite_get_kx_algo B) → i < j) ∧
          (_gnutls_kx_priority example_state (_gnutls_cipher_suite_get_kx_algo A) =
            _gnutls_kx_priority example_state (_gnutls_cipher_suite_get_kx_algo B) →
           _gnutls_cipher_priority example_state (_gnutls_cipher_suite_get_cipher_algo A) <
            _gnutls_cipher_priority example_state (_gnutls_cipher_suite_get_cipher_algo B) →
           i < j) :=
  ⟨by decide, by decide, by decide, by decide,
    C5_kx_then_cipher_dominates 66 example_state (by decide) (by decide) (by decide)
      (by decide)⟩

/-- C5 fails as stated: with an 11-entry cipher priority list the selector returns
`RSA_3DES_EDE_CBC_SHA` (index 1, KX priority 1) before `DH_anon_ARCFOUR_MD5`
(index 2, KX priority 0), although the latter has the strictly lower KX priority. -/
theorem C5_counterexample :
    _gnutls_supported_ciphersuites_sorted 66 long_cipher_state =
      some (5, some [⟨0x00, 0x1B⟩, ⟨0x00, 0x0A⟩, ⟨0x00, 0x18⟩, ⟨0x00, 0x05⟩, ⟨0x00, 0x04⟩]) ∧
    _gnutls_kx_priority long_cipher_state (_gnutls_cipher_suite_get_kx_algo ⟨0x00, 0x18⟩) = 0 ∧
    _gnutls_kx_priority long_cipher_state (_gnutls_cipher_suite_get_kx_algo ⟨0x00, 0x0A⟩) = 1 ∧
    ¬ (∀ (l : List GNUTLS_CipherSuite) (count : Int),
        _gnutls_supported_ciphersuites_sorted 66 long_cipher_state = some (count, some l) →
        ∀ (i j : Nat) (A B : GNUTLS_CipherSuite), l[i]? = some A → l[j]? = some B →
          _gnutls_kx_priority long_cipher_state (_gnutls_cipher_suite_get_kx_algo A) <
            _gnutls_kx_priority long_cipher_state (_gnutls_cipher_suite_get_kx_algo B) →
          i < j) := by
  have hres : _gnutls_supported_ciphersuites_sorted 66 long_cipher_state =
      some (5, some [⟨0x00, 0x1B⟩, ⟨0x00, 0x0A⟩, ⟨0x00, 0x18⟩, ⟨0x00, 0x05⟩, ⟨0x00, 0x04⟩]) := by
    decide
  have hA : _gnutls_kx_priority long_cipher_state
      (_gnutls_cipher_suite_get_kx_algo ⟨0x00, 0x18⟩) = 0 := by decide
  have hB : _gnutls_kx_priority long_cipher_state
      (_gnutls_cipher_suite_get_kx_algo ⟨0x00, 0x0A⟩) = 1 := by decide
  refine ⟨hres, hA, hB, fun h => ?_⟩
  have := h _ _ hres 2 1 ⟨0x00, 0x18⟩ ⟨0x00, 0x0A⟩ rfl rfl (by rw [hA, hB]; decide)
  omega

/-- C6: when each of the KX, cipher and MAC priority lists has fewer than 10
entries, then for suites A and B whose three priorities are all at least 0 the
comparator is negative exactly when the priority triple of A is lexicographically
smaller than that of B, and is 0 exactly when the two triples are equal. -/
theorem C6_compare_is_lexicographic (state : GNUTLS_STATE) (A B : GNUTLS_CipherSuite)
    (_hkl : state.KXAlgorithmPriority.length < 10)
    (hcl : state.BulkCipherAlgorithmPriority.length < 10)
    (hml : state.MACAlgorithmPriority.length < 10)
    (hA : 0 ≤ (priority_tuple state A).1 ∧ 0 ≤ (priority_tuple state A).2.1 ∧
      0 ≤ (priority_tuple state A).2.2)
    (hB : 0 ≤ (priority_tuple state B).1 ∧ 0 ≤ (priority_tuple state B).2.1 ∧
      0 ≤ (priority_tuple state B).2.2) :
    (_gnutls_compare_algo state A B < 0 ↔
      lex_lt (priority_tuple state A) (priority_tuple state B)) ∧
    (_gnutls_compare_algo state A B = 0 ↔ priority_tuple state A = priority_tuple state B) := by
  have ca := priority_scan_le state.BulkCipherAlgorithmPriority
    (_gnutls_cipher_suite_get_cipher_algo A)
  have ma := priority_scan_le state.MACAlgorithmPriority
    (_gnutls_cipher_suite_get_mac_algo A)
  have cb := priority_scan_le state.BulkCipherAlgorithmPriority
    (_gnutls_cipher_suite_get_cipher_algo B)
  have mb := priority_scan_le state.MACAlgorithmPriority
    (_gnutls_cipher_suite_get_mac_algo B)
  have hfit : 100 * state.KXAlgorithmPriority.length +
      10 * state.BulkCipherAlgorithmPriority.length +
      state.MACAlgorithmPriority.length ≤ 2147483647 := by omega
  simp only [priority_tuple] at hA hB
  simp only [lex_lt, priority_tuple, Prod.mk.injEq]
  rw [compare_algo_eq, suite_score_eq_formula_of_lengths state hfit A,
    suite_score_eq_formula_of_lengths state hfit B]
  unfold formula_score
  unfold _gnutls_cipher_priority _gnutls_mac_priority at *
  split_ifs <;> constructor <;> constructor <;> intro h <;>
    first | omega | exact False.elim h

/-- Witness of C6 at the example session, for `DH_anon_3DES_EDE_CBC_SHA` and
`DH_anon_RIJNDAEL_128_CBC_SHA`. -/
theorem C6_witness :
    example_state.KXAlgorithmPriority.length < 10 ∧
    example_state.BulkCipherAlgorithmPriority.length < 10 ∧
    example_state.MACAlgorithmPriority.length < 10 ∧
    (0 ≤ (priority_tuple example_state ⟨0x00, 0x1B⟩).1 ∧
      0 ≤ (priority_tuple example_state ⟨0x00, 0x1B⟩).2.1 ∧
      0 ≤ (priority_tuple example_state ⟨0x00, 0x1B⟩).2.2) ∧
    (0 ≤ (priority_tuple example_state ⟨0x00, 0x34⟩).1 ∧
      0 ≤ (priority_tuple example_state ⟨0x00, 0x34⟩).2.1 ∧
      0 ≤ (priority_tuple example_state ⟨0x00, 0x34⟩).2.2) ∧
    (_gnutls_compare_algo example_state ⟨0x00, 0x1B⟩ ⟨0x00, 0x34⟩ < 0 ↔
      lex_lt (priority_tuple example_state ⟨0x00, 0x1B⟩)
        (priority_tuple example_state ⟨0x00, 0x34⟩)) ∧
    (_gnutls_compare_algo example_state ⟨0x00, 0x1B⟩ ⟨0x00, 0x34⟩ = 0 ↔
      priority_tuple example_state ⟨0x00, 0x1B⟩ = priority_tuple example_state ⟨0x00, 0x34⟩) :=
  ⟨by decide, by decide, by decide, by decide, by decide,
    C6_compare_is_lexicographic example_state ⟨0x00, 0x1B⟩ ⟨0x00, 0x34⟩
      (by decide) (by decide) (by decide) (by decide) (by decide)⟩

/-- C7: for each category (MAC, cipher, KX, compression), every session and every
identifier, the priority lookup returns the least index of the identifier in the
session's list for that category when it occurs there and -1 when it does not, a
value between -1 and `length - 1`. -/
theorem C7_priority_lookup_is_least_index (state : GNUTLS_STATE) (id : Nat) :
    IsPriorityOf state.MACAlgorithmPriority id (_gnutls_mac_priority state id) ∧
    IsPriorityOf state.BulkCipherAlgorithmPriority id (_gnutls_cipher_priority state id) ∧
    IsPriorityOf state.KXAlgorithmPriority id (_gnutls_kx_priority state id) ∧
    IsPriorityOf state.CompressionMethodPriority id (_gnutls_compression_priority state id) :=
  ⟨priority_scan_is _ id, priority_scan_is _ id, priority_scan_is _ id, priority_scan_is _ id⟩

/-- C8: if at least one of the session's KX, cipher or MAC priority lists is empty,
then the sorted selector (with enough fuel for the sort to finish) and the unsorted
selector both return count 0 with a `NULL` suite list, whatever the other lists
contain. -/
theorem C8_empty_list_disables_negotiation (fuel : Nat) (state : GNUTLS_STATE)
    (hfuel : 66 ≤ fuel)
    (hempty : state.KXAlgorithmPriority = [] ∨ state.BulkCipherAlgorithmPriority = [] ∨
      state.MACAlgorithmPriority = []) :
    _gnutls_supported_ciphersuites_sorted fuel state = some (0, none) ∧
    _gnutls_supported_ciphersuites state = (0, none) := by
  constructor
  · obtain ⟨kept, hres, hperm, _⟩ := sorted_selector_spec fuel state hfuel
    rw [no_suite_accepted state hempty] at hperm
    have hk : kept = [] := List.perm_nil.mp hperm
    subst hk
    simpa using hres
  · rw [unsorted_selector_spec, no_suite_accepted state hempty, selector_result_32]
    simp

/-- Witness of C8: an empty KX list next to non-empty cipher and MAC lists. -/
theorem C8_witness :
    66 ≤ 66 ∧
    (no_kx_state.KXAlgorithmPriority = [] ∨ no_kx_state.BulkCipherAlgorithmPriority = [] ∨
      no_kx_state.MACAlgorithmPriority = []) ∧
    _gnutls_supported_ciphersuites_sorted 66 no_kx_state = some (0, none) ∧
    _gnutls_supported_ciphersuites no_kx_state = (0, none) :=
  ⟨by decide, Or.inl rfl,
    C8_empty_list_disables_negotiation 66 no_kx_state (by decide) (Or.inl rfl)⟩

/-- C9, the code at the failing entries: every entry of `cs_algorithms` names a
cipher of `algorithms[]` and a MAC of `hash_algorithms[]`, but the four `DHE_DSS`
suites name the key exchange `GNUTLS_KX_DHE_DSS`, which is not the algorithm id of
any entry of `kx_algorithms[]`. -/
theorem C9_dhe_dss_suites_name_unregistered_kx :
    (∀ e ∈ cs_algorithms,
      e.block_algorithm ∈ algorithms.map (fun p => p.id) ∧
      e.mac_algorithm ∈ hash_algorithms.map (fun p => p.id)) ∧
    GNUTLS_KX_DHE_DSS ∉ kx_algorithms.map (fun p => p.algorithm) ∧
    (cs_algorithms.filter
        (fun e => decide (e.kx_algorithm ∉ kx_algorithms.map (fun p => p.algorithm)))).map
      (fun e => (e.id, e.kx_algorithm)) =
      [(⟨0xF6, 0x54⟩, GNUTLS_KX_DHE_DSS), (⟨0x00, 0x13⟩, GNUTLS_KX_DHE_DSS),
       (⟨0x00, 0x32⟩, GNUTLS_KX_DHE_DSS), (⟨0x00, 0x38⟩, GNUTLS_KX_DHE_DSS)] := by
  decide

/-- C10, the code at the failing input: each validity check returns 0 for every
identifier, in the table or not; in particular `_gnutls_kx_is_ok` returns 0 for
`GNUTLS_KX_DHE_DSS`, which is not in `kx_algorithms[]`, and `_gnutls_cipher_is_ok`
and `_gnutls_mac_is_ok` return 0 for the id 0, which no table holds. -/
theorem C10_is_ok_returns_zero_for_every_id :
    (∀ id : Nat, _gnutls_cipher_is_ok id = 0 ∧ _gnutls_mac_is_ok id = 0 ∧
      _gnutls_kx_is_ok id = 0 ∧ ∀ z : Bool, _gnutls_compression_is_ok z id = 0) ∧
    GNUTLS_KX_DHE_DSS ∉ kx_algorithms.map (fun p => p.algorithm) ∧
    0 ∉ algorithms.map (fun p => p.id) ∧
    0 ∉ hash_algorithms.map (fun p => p.id) := by
  refine ⟨fun id => ⟨?_, ?_, ?_, fun z => ?_⟩, by decide, by decide, by decide⟩
  · simp [_gnutls_cipher_is_ok]
  · simp [_gnutls_mac_is_ok]
  · simp [_gnutls_kx_is_ok]
  · simp [_gnutls_compression_is_ok]

/-! ## Counting, lookups and names -/

/-- The count loop never reaches its exit while `i` stays below the bound 256,
which an 8-bit counter always does. -/
theorem count_loop_diverges (is_ok : Nat → Int) :
    ∀ fuel i counter, i < 256 → count_loop 256 is_ok fuel i counter = none := by
  intro fuel
  induction fuel with
  | zero => intro i counter _; rfl
  | succ fuel ih =>
    intro i counter hi
    simp only [count_loop, if_pos hi]
    exact ih _ _ (Nat.mod_lt _ (by decide))

/-- A scan of the cipher table for an id that is not in it finds nothing. -/
theorem cipher_find_none (id : Nat) (h : id ∉ algorithms.map (fun p => p.id)) :
    algorithms.find? (fun p => p.id == id) = none := by
  rw [List.find?_eq_none]
  intro x hx hp
  exact h (List.mem_map.mpr ⟨x, hx, by simpa using hp⟩)

/-- A scan of the MAC table for an id that is not in it finds nothing. -/
theorem mac_find_none (id : Nat) (h : id ∉ hash_algorithms.map (fun p => p.id)) :
    hash_algorithms.find? (fun p => p.id == id) = none := by
  rw [List.find?_eq_none]
  intro x hx hp
  exact h (List.mem_map.mpr ⟨x, hx, by simpa using hp⟩)

/-- A scan of the compression table for an id that is not in it finds nothing. -/
theorem compression_find_none (z : Bool) (id : Nat)
    (h : id ∉ (compression_algorithms z).map (fun p => p.id)) :
    (compression_algorithms z).find? (fun p => p.id == id) = none := by
  rw [List.find?_eq_none]
  intro x hx hp
  exact h (List.mem_map.mpr ⟨x, hx, by simpa using hp⟩)

/-- The suite scan succeeds exactly on the two-byte ids of the table. -/
theorem suite_loop_isSome_iff (s : GNUTLS_CipherSuite) :
    (∃ p, GNUTLS_CIPHER_SUITE_ALG_LOOP s = some p) ↔
      ∃ e ∈ cs_algorithms, e.id.CipherSuite0 = s.CipherSuite0 ∧
        e.id.CipherSuite1 = s.CipherSuite1 := by
  unfold GNUTLS_CIPHER_SUITE_ALG_LOOP
  constructor
  · rintro ⟨p, hp⟩
    have h1 := List.find?_some hp
    have h2 := List.mem_of_find?_eq_some hp
    simp only [Bool.and_eq_true, beq_iff_eq] at h1
    exact ⟨p, h2, h1.1, h1.2⟩
  · rintro ⟨e, he, h0, h1⟩
    cases hf : cs_algorithms.find? (fun p =>
      p.id.CipherSuite0 == s.CipherSuite0 && p.id.CipherSuite1 == s.CipherSuite1) with
    | some p => exact ⟨p, rfl⟩
    | none =>
      rw [List.find?_eq_none] at hf
      exact absurd (by simp [h0, h1]) (hf e he)

/-- C11, the code: under the fuel model none of the four count functions returns,
whatever the fuel, because the 8-bit counter `i` is always below the bound 256; the
tables hold 3 MACs, 6 ciphers, 6 key exchanges and 1 compression method (without
zlib), and each validity check answers 0 for all 256 values of `i`. -/
theorem C11_count_loops_never_return :
    (∀ fuel, _gnutls_mac_count fuel = none ∧ _gnutls_cipher_count fuel = none ∧
      _gnutls_kx_count fuel = none ∧ ∀ z, _gnutls_compression_count z fuel = none) ∧
    hash_algorithms.length = 3 ∧ algorithms.length = 6 ∧ kx_algorithms.length = 6 ∧
    (compression_algorithms false).length = 1 ∧
    ((List.range 256).filter (fun i => decide (_gnutls_mac_is_ok i = 0))).length = 256 := by
  refine ⟨fun fuel => ⟨?_, ?_, ?_, fun z => ?_⟩, rfl, rfl, rfl, rfl, by decide⟩
  · exact count_loop_diverges _ fuel 0 0 (by decide)
  · exact count_loop_diverges _ fuel 0 0 (by decide)
  · exact count_loop_diverges _ fuel 0 0 (by decide)
  · exact count_loop_diverges _ fuel 0 0 (by decide)

/-- C12: looking up the two-byte id of any entry of `cs_algorithms` returns that
entry's cipher, key exchange and MAC, and the suite validity check returns 0 exactly
when the two bytes equal the id of some table entry. -/
theorem C12_suite_lookup_inverts_table :
    (∀ e ∈ cs_algorithms,
      _gnutls_cipher_suite_get_cipher_algo e.id = e.block_algorithm ∧
      _gnutls_cipher_suite_get_kx_algo e.id = e.kx_algorithm ∧
      _gnutls_cipher_suite_get_mac_algo e.id = e.mac_algorithm) ∧
    (∀ s : GNUTLS_CipherSuite, _gnutls_cipher_suite_is_ok s = 0 ↔
      ∃ e ∈ cs_algorithms, e.id.CipherSuite0 = s.CipherSuite0 ∧
        e.id.CipherSuite1 = s.CipherSuite1) := by
  refine ⟨fun e he => ?_, fun s => ?_⟩
  · obtain ⟨h1, h2, h3⟩ := cs_lookup_entry e he
    exact ⟨h2, h1, h3⟩
  · rw [← suite_loop_isSome_iff]
    unfold _gnutls_cipher_suite_is_ok
    cases GNUTLS_CIPHER_SUITE_ALG_LOOP s with
    | some p => simp
    | none => simp

/-- C13: for every entry of the cipher table the block size, key size, IV size and
block flag looked up by its id are those of the entry, and for every entry of the
MAC table the digest size looked up by its id is that of the entry; in particular
3DES gives 8, 24, 8, 1, RIJNDAEL 16, 16, 16, 1, ARCFOUR 1, 16, 0, 0, and the digest
sizes are SHA 20, MD5 16, NULL 0. -/
theorem C13_attribute_lookup_agrees_with_tables :
    (∀ e ∈ algorithms,
      _gnutls_cipher_get_block_size e.id = e.blocksize ∧
      _gnutls_cipher_get_key_size e.id = e.keysize ∧
      _gnutls_cipher_get_iv_size e.id = e.iv ∧
      _gnutls_cipher_is_block e.id = e.block) ∧
    (∀ h ∈ hash_algorithms, _gnutls_mac_get_digest_size h.id = h.digestsize) ∧
    (_gnutls_cipher_get_block_size GNUTLS_3DES, _gnutls_cipher_get_key_size GNUTLS_3DES,
      _gnutls_cipher_get_iv_size GNUTLS_3DES, _gnutls_cipher_is_block GNUTLS_3DES) =
      (8, 24, 8, 1) ∧
    (_gnutls_cipher_get_block_size GNUTLS_RIJNDAEL, _gnutls_cipher_get_key_size GNUTLS_RIJNDAEL,
      _gnutls_cipher_get_iv_size GNUTLS_RIJNDAEL, _gnutls_cipher_is_block GNUTLS_RIJNDAEL) =
      (16, 16, 16, 1) ∧
    (_gnutls_cipher_get_block_size GNUTLS_ARCFOUR, _gnutls_cipher_get_key_size GNUTLS_ARCFOUR,
      _gnutls_cipher_get_iv_size GNUTLS_ARCFOUR, _gnutls_cipher_is_block GNUTLS_ARCFOUR) =
      (1, 16, 0, 0) ∧
    (_gnutls_mac_get_digest_size GNUTLS_MAC_SHA, _gnutls_mac_get_digest_size GNUTLS_MAC_MD5,
      _gnutls_mac_get_digest_size GNUTLS_NULL_MAC) = (20, 16, 0) := by
  decide

/-- C14 (as amended): for a cipher id that is not in the cipher table the key size,
block size and IV size lookups return 0, and for a MAC id that is not in the MAC
table the digest size lookup returns 0. The block size 0 differs from that of every
registered cipher; the key size 0 differs from that of every registered cipher but
`GNUTLS_NULL_CIPHER`, the IV size 0 from that of every registered cipher but
`GNUTLS_ARCFOUR` and `GNUTLS_NULL_CIPHER`, and the digest size 0 from that of every
registered MAC but `GNUTLS_NULL_MAC`. -/
theorem C14_unknown_id_yields_zero (cid mid : Nat)
    (hc : cid ∉ algorithms.map (fun p => p.id))
    (hm : mid ∉ hash_algorithms.map (fun p => p.id)) :
    _gnutls_cipher_get_key_size cid = 0 ∧ _gnutls_cipher_get_block_size cid = 0 ∧
    _gnutls_cipher_get_iv_size cid = 0 ∧ _gnutls_mac_get_digest_size mid = 0 ∧
    (∀ e ∈ algorithms, _gnutls_cipher_get_block_size e.id ≠ _gnutls_cipher_get_block_size cid) ∧
    (∀ e ∈ algorithms, e.id ≠ GNUTLS_NULL_CIPHER →
      _gnutls_cipher_get_key_size e.id ≠ _gnutls_cipher_get_key_size cid) ∧
    (∀ e ∈ algorithms, e.id ≠ GNUTLS_NULL_CIPHER → e.id ≠ GNUTLS_ARCFOUR →
      _gnutls_cipher_get_iv_size e.id ≠ _gnutls_cipher_get_iv_size cid) ∧
    (∀ h ∈ hash_algorithms, h.id ≠ GNUTLS_NULL_MAC →
      _gnutls_mac_get_digest_size h.id ≠ _gnutls_mac_get_digest_size mid) := by
  have hk : _gnutls_cipher_get_key_size cid = 0 := by
    simp only [_gnutls_cipher_get_key_size, cipher_find_none cid hc]
  have hb : _gnutls_cipher_get_block_size cid = 0 := by
    simp only [_gnutls_cipher_get_block_size, cipher_find_none cid hc]
  have hi : _gnutls_cipher_get_iv_size cid = 0 := by
    simp only [_gnutls_cipher_get_iv_size, cipher_find_none cid hc]
  have hd : _gnutls_mac_get_digest_size mid = 0 := by
    simp only [_gnutls_mac_get_digest_size, mac_find_none mid hm]
  rw [hk, hb, hi, hd]
  exact ⟨rfl, rfl, rfl, rfl, by decide, by decide, by decide, by decide⟩

/-- Witness of C14 (as amended) at the id 0, which neither table holds. -/
theorem C14_witness :
    0 ∉ algorithms.map (fun p => p.id) ∧ 0 ∉ hash_algorithms.map (fun p => p.id) ∧
    (_gnutls_cipher_get_key_size 0 = 0 ∧ _gnutls_cipher_get_block_size 0 = 0 ∧
    _gnutls_cipher_get_iv_size 0 = 0 ∧ _gnutls_mac_get_digest_size 0 = 0 ∧
    (∀ e ∈ algorithms, _gnutls_cipher_get_block_size e.id ≠ _gnutls_cipher_get_block_size 0) ∧
    (∀ e ∈ algorithms, e.id ≠ GNUTLS_NULL_CIPHER →
      _gnutls_cipher_get_key_size e.id ≠ _gnutls_cipher_get_key_size 0) ∧
    (∀ e ∈ algorithms, e.id ≠ GNUTLS_NULL_CIPHER → e.id ≠ GNUTLS_ARCFOUR →
      _gnutls_cipher_get_iv_size e.id ≠ _gnutls_cipher_get_iv_size 0) ∧
    (∀ h ∈ hash_algorithms, h.id ≠ GNUTLS_NULL_MAC →
      _gnutls_mac_get_digest_size h.id ≠ _gnutls_mac_get_digest_size 0)) :=
  ⟨by decide, by decide, C14_unknown_id_yields_zero 0 0 (by decide) (by decide)⟩

/-- C14 fails as stated: the id 0 is in neither table, `GNUTLS_NULL_CIPHER` and
`GNUTLS_ARCFOUR` are in the cipher table and `GNUTLS_NULL_MAC` in the MAC table, yet
the key size of 0 equals that of `GNUTLS_NULL_CIPHER`, the IV size of 0 equals that
of `GNUTLS_ARCFOUR`, and the digest size of 0 equals that of `GNUTLS_NULL_MAC`. -/
theorem C14_counterexample :
    0 ∉ algorithms.map (fun p => p.id) ∧
    GNUTLS_NULL_CIPHER ∈ algorithms.map (fun p => p.id) ∧
    GNUTLS_ARCFOUR ∈ algorithms.map (fun p => p.id) ∧
    _gnutls_cipher_get_key_size 0 = _gnutls_cipher_get_key_size GNUTLS_NULL_CIPHER ∧
    _gnutls_cipher_get_iv_size 0 = _gnutls_cipher_get_iv_size GNUTLS_ARCFOUR ∧
    0 ∉ hash_algorithms.map (fun p => p.id) ∧
    GNUTLS_NULL_MAC ∈ hash_algorithms.map (fun p => p.id) ∧
    _gnutls_mac_get_digest_size 0 = _gnutls_mac_get_digest_size GNUTLS_NULL_MAC := by
  decide

/-- A failed `strchr` means the character does not occur. -/
theorem strchr_none (c : Char) : ∀ s : List Char, strchr c s = none → c ∉ s := by
  intro s
  induction s with
  | nil => intro _; exact List.not_mem_nil _
  | cons x rest ih =>
    intro h
    by_cases hx : x = c
    · simp [strchr, hx] at h
    · simp only [strchr, if_neg hx, Option.map_eq_none'] at h
      intro hmem
      rcases List.mem_cons.mp hmem with h1 | h1
      · exact hx h1.symm
      · exact ih h h1

/-- Overwriting the first underscore by a hyphen removes one underscore and leaves
the fully hyphenated string unchanged. -/
theorem strchr_some_set : ∀ (s : List Char) (p : Nat), strchr '_' s = some p →
    (s.set p '-').count '_' + 1 = s.count '_' ∧
    (s.set p '-').map (fun c => if c = '_' then '-' else c) =
      s.map (fun c => if c = '_' then '-' else c) := by
  intro s
  induction s with
  | nil => intro p h; simp [strchr] at h
  | cons x rest ih =>
    intro p h
    by_cases hx : x = '_'
    · simp only [strchr, if_pos hx, Option.some.injEq] at h
      subst h
      subst hx
      simp
    · simp only [strchr, if_neg hx, Option.map_eq_some'] at h
      obtain ⟨k, hk, hp⟩ := h
      subst hp
      obtain ⟨h1, h2⟩ := ih k hk
      have hx2 : ¬ (x == '_') = true := by simpa using hx
      simp only [List.set_cons_succ, List.count_cons, hx2, if_false, Nat.add_zero,
        List.map_cons, h2]
      exact ⟨h1, trivial⟩

/-- With at least as many iterations as there are underscores, the loop ends on
`strchr` returning `NULL` and has replaced every underscore by a hyphen. -/
theorem hyphen_loop_spec : ∀ (n : Nat) (s : List Char), s.count '_' ≤ n →
    hyphen_loop n s = s.map (fun c => if c = '_' then '-' else c) := by
  have hid : ∀ s : List Char, '_' ∉ s →
      s.map (fun c => if c = '_' then '-' else c) = s := by
    intro s hs
    conv => rhs; rw [← List.map_id s]
    apply List.map_congr_left
    intro c hc
    have : c ≠ '_' := fun h => hs (h ▸ hc)
    simp [this]
  intro n
  induction n with
  | zero =>
    intro s h
    have : '_' ∉ s := List.count_eq_zero.mp (by omega)
    simp only [hyphen_loop]
    exact (hid s this).symm
  | succ n ih =>
    intro s h
    simp only [hyphen_loop]
    cases hs : strchr '_' s with
    | none => exact (hid s (strchr_none '_' s hs)).symm
    | some p =>
      obtain ⟨h1, h2⟩ := strchr_some_set s p hs
      simp only []
      rw [ih _ (by omega), h2]

/-- The tail of the name functions lowercases every character and then replaces
every underscore by a hyphen. -/
theorem name_tail_eq (ret : List Char) :
    name_tail ret =
      String.mk ((ret.map Char.toLower).map (fun c => if c = '_' then '-' else c)) := by
  unfold name_tail _gnutls_tolow
  simp only [List.take_length, List.drop_length, List.append_nil, List.length_map]
  rw [hyphen_loop_spec _ _ (by
    have := List.count_le_length '_' (ret.map Char.toLower)
    simpa using this)]

/-- C15: for the cipher, MAC, compression and cipher-suite categories the name
function returns `NULL` for an id that is not in the table, and for the id of a table
entry it returns the entry's symbolic name with the leading `GNUTLS_` removed, every
letter lowercased and every underscore replaced by a hyphen, a string without
uppercase letter or underscore; for example `3des`, `mac-sha`, `null-compression`
and `dh-anon-3des-ede-cbc-sha`. -/
theorem C15_canonical_names :
    ((∀ id, id ∉ algorithms.map (fun p => p.id) → gnutls_cipher_get_name id = none) ∧
     (∀ id, id ∉ hash_algorithms.map (fun p => p.id) → gnutls_mac_get_name id = none) ∧
     (∀ z id, id ∉ (compression_algorithms z).map (fun p => p.id) →
        gnutls_compression_get_name z id = none) ∧
     (∀ s : GNUTLS_CipherSuite,
        (¬ ∃ e ∈ cs_algorithms, e.id.CipherSuite0 = s.CipherSuite0 ∧
          e.id.CipherSuite1 = s.CipherSuite1) → _gnutls_cipher_suite_get_name s = none)) ∧
    ((∀ e ∈ algorithms,
        gnutls_cipher_get_name e.id = some (canonical_name "GNUTLS_" e.name) ∧
        lower_hyphenated (canonical_name "GNUTLS_" e.name) = true) ∧
     (∀ e ∈ hash_algorithms,
        gnutls_mac_get_name e.id = some (canonical_name "GNUTLS_" e.name) ∧
        lower_hyphenated (canonical_name "GNUTLS_" e.name) = true) ∧
     (∀ z, ∀ e ∈ compression_algorithms z,
        gnutls_compression_get_name z e.id = some (canonical_name "GNUTLS_" e.name) ∧
        lower_hyphenated (canonical_name "GNUTLS_" e.name) = true) ∧
     (∀ e ∈ cs_algorithms,
        _gnutls_cipher_suite_get_name e.id = some (canonical_name "GNUTLS_" e.name) ∧
        lower_hyphenated (canonical_name "GNUTLS_" e.name) = true)) ∧
    (gnutls_cipher_get_name GNUTLS_3DES = some "3des" ∧
     gnutls_mac_get_name GNUTLS_MAC_SHA = some "mac-sha" ∧
     gnutls_compression_get_name false GNUTLS_NULL_COMPRESSION = some "null-compression" ∧
     _gnutls_cipher_suite_get_name ⟨0x00, 0x1B⟩ = some "dh-anon-3des-ede-cbc-sha") := by
  refine ⟨⟨?_, ?_, ?_, ?_⟩, ⟨by decide, by decide, by decide, by decide⟩, by decide⟩
  · intro id h
    simp only [gnutls_cipher_get_name, cipher_find_none id h]
  · intro id h
    simp only [gnutls_mac_get_name, mac_find_none id h]
  · intro z id h
    simp only [gnutls_compression_get_name, compression_find_none z id h]
  · intro s h
    unfold _gnutls_cipher_suite_get_name
    cases hs : GNUTLS_CIPHER_SUITE_ALG_LOOP s with
    | some p => exact absurd ((suite_loop_isSome_iff s).mp ⟨p, hs⟩) h
    | none => rfl

/-- C16, the code at the failing inputs: the key-exchange name function skips only
the three characters of `KX_`, so the names it returns still begin with the rest of
the category prefix: `tls-kx-dh-anon`, `tls-kx-rsa`, `tls-kx-dhe-rsa`, `tls-kx-srp`,
and for no entry of `kx_algorithms` is the result the name without `GNUTLS_KX_`. -/
theorem C16_kx_name_keeps_part_of_prefix :
    gnutls_kx_get_name GNUTLS_KX_DH_ANON = some "tls-kx-dh-anon" ∧
    gnutls_kx_get_name GNUTLS_KX_RSA = some "tls-kx-rsa" ∧
    gnutls_kx_get_name GNUTLS_KX_DHE_RSA = some "tls-kx-dhe-rsa" ∧
    gnutls_kx_get_name GNUTLS_KX_SRP = some "tls-kx-srp" ∧
    canonical_name "GNUTLS_KX_" "GNUTLS_KX_DH_ANON" = "dh-anon" ∧
    (∀ e ∈ kx_algorithms,
      gnutls_kx_get_name e.algorithm ≠ some (canonical_name "GNUTLS_KX_" e.name)) := by
  decide

/-- C17: identifiers are unique within every static table: the suite ids of
`cs_algorithms`, and the identifiers of the cipher, MAC, key-exchange, compression
(with or without zlib) and version tables, are pairwise different. -/
theorem C17_table_ids_unique :
    (cs_algorithms.map (fun e => e.id)).Nodup ∧
    (algorithms.map (fun p => p.id)).Nodup ∧
    (hash_algorithms.map (fun p => p.id)).Nodup ∧
    (kx_algorithms.map (fun p => p.algorithm)).Nodup ∧
    (∀ z, ((compression_algorithms z).map (fun p => p.id)).Nodup) ∧
    (sup_versions.map (fun p => p.id)).Nodup := by
  decide

/-- C18: the suite count is 32, the number of entries of `cs_algorithms`, so the
copy loop of the selector reads only table entries (never the sentinel after them)
and yields the ids of the whole table in table order. -/
theorem C18_selector_copies_whole_table :
    _gnutls_cipher_suite_count = 32 ∧ cs_algorithms.length = 32 ∧
    (∀ i, i < _gnutls_cipher_suite_count → ∃ e, cs_algorithms[i]? = some e) ∧
    copy_suites _gnutls_cipher_suite_count = cs_algorithms.map (fun e => e.id) := by
  refine ⟨cipher_suite_count_eq, rfl, ?_, ?_⟩
  · intro i hi
    rw [cipher_suite_count_eq] at hi
    have hlen : i < cs_algorithms.length := hi
    exact ⟨_, List.getElem?_eq_getElem hlen⟩
  · rw [cipher_suite_count_eq]
    exact copy_suites_eq

/-- A priority lookup that finds its identifier determines the identifier. -/
theorem priority_scan_inj (l : List Nat) (a b : Nat) (h0 : 0 ≤ priority_scan a l 0)
    (h : priority_scan a l 0 = priority_scan b l 0) : a = b := by
  obtain ⟨a1, a2, _, _⟩ := priority_scan_is l a
  obtain ⟨b1, b2, _, _⟩ := priority_scan_is l b
  have ha : a ∈ l := by
    by_contra hc
    have := a2 hc
    omega
  have hb : b ∈ l := by
    by_contra hc
    have := b2 hc
    omega
  obtain ⟨k, hk, _, hkr⟩ := a1 ha
  obtain ⟨k1, hk1, _, hkr1⟩ := b1 hb
  have hkk : k = k1 := by omega
  subst hkk
  rw [hk] at hk1
  exact Option.some.inj hk1

/-- No two entries of the suite table name the same cipher, key exchange and MAC. -/
theorem cs_triples_unique : ∀ e1 ∈ cs_algorithms, ∀ e2 ∈ cs_algorithms,
    e1.block_algorithm = e2.block_algorithm → e1.kx_algorithm = e2.kx_algorithm →
    e1.mac_algorithm = e2.mac_algorithm → e1.id = e2.id := by
  decide

/-- With KX, cipher and MAC lists of at most 10 entries, two accepted table suites
with the same score are the same suite. -/
theorem score_inj_on_accepted (state : GNUTLS_STATE)
    (hkl : state.KXAlgorithmPriority.length ≤ 10)
    (hcl : state.BulkCipherAlgorithmPriority.length ≤ 10)
    (hml : state.MACAlgorithmPriority.length ≤ 10) (A B : GNUTLS_CipherSuite)
    (hA : A ∈ (cs_algorithms.map (fun e => e.id)).filter (suite_accepted state))
    (hB : B ∈ (cs_algorithms.map (fun e => e.id)).filter (suite_accepted state))
    (hs : suite_score state A = suite_score state B) : A = B := by
  obtain ⟨hA1, hA2⟩ := List.mem_filter.mp hA
  obtain ⟨hB1, hB2⟩ := List.mem_filter.mp hB
  obtain ⟨e1, he1, rfl⟩ := List.mem_map.mp hA1
  obtain ⟨e2, he2, rfl⟩ := List.mem_map.mp hB1
  obtain ⟨a1, a2, a3⟩ := (suite_accepted_iff state _).mp hA2
  obtain ⟨b1, b2, b3⟩ := (suite_accepted_iff state _).mp hB2
  obtain ⟨k1, c1, m1⟩ := cs_lookup_entry e1 he1
  obtain ⟨k2, c2, m2⟩ := cs_lookup_entry e2 he2
  have hfit : 100 * state.KXAlgorithmPriority.length +
      10 * state.BulkCipherAlgorithmPriority.length +
      state.MACAlgorithmPriority.length ≤ 2147483647 := by omega
  rw [suite_score_eq_formula_of_lengths state hfit e1.id,
    suite_score_eq_formula_of_lengths state hfit e2.id] at hs
  unfold formula_score at hs
  simp only [k1, c1, m1, k2, c2, m2] at a1 a2 a3 b1 b2 b3 hs
  have ca := priority_scan_le state.BulkCipherAlgorithmPriority e1.block_algorithm
  have ma := priority_scan_le state.MACAlgorithmPriority e1.mac_algorithm
  have cb := priority_scan_le state.BulkCipherAlgorithmPriority e2.block_algorithm
  have mb := priority_scan_le state.MACAlgorithmPriority e2.mac_algorithm
  unfold _gnutls_kx_priority _gnutls_cipher_priority _gnutls_mac_priority at *
  have hk : priority_scan e1.kx_algorithm state.KXAlgorithmPriority 0 =
      priority_scan e2.kx_algorithm state.KXAlgorithmPriority 0 := by omega
  have hc : priority_scan e1.block_algorithm state.BulkCipherAlgorithmPriority 0 =
      priority_scan e2.block_algorithm state.BulkCipherAlgorithmPriority 0 := by omega
  have hm : priority_scan e1.mac_algorithm state.MACAlgorithmPriority 0 =
      priority_scan e2.mac_algorithm state.MACAlgorithmPriority 0 := by omega
  exact cs_triples_unique e1 he1 e2 he2 (priority_scan_inj _ _ _ a2 hc)
    (priority_scan_inj _ _ _ a1 hk) (priority_scan_inj _ _ _ a3 hm)

/-- C19: with cipher priority list `[GNUTLS_3DES, GNUTLS_RIJNDAEL]`, KX priority
list `[GNUTLS_KX_DH_ANON]` and MAC priority list `[GNUTLS_MAC_SHA]` (and any
compression list), the sorted selector, given enough fuel for the sort to finish,
returns exactly two suites, `{0x00,0x1B}` followed by `{0x00,0x34}`; their KX
priorities are tied and the cipher priority of the first is the lower one. -/
theorem C19_example_selection (comp : List Nat) (fuel : Nat) (hfuel : 66 ≤ fuel) :
    _gnutls_supported_ciphersuites_sorted fuel
        ⟨[GNUTLS_3DES, GNUTLS_RIJNDAEL], [GNUTLS_MAC_SHA], [GNUTLS_KX_DH_ANON], comp⟩ =
      some (2, some [⟨0x00, 0x1B⟩, ⟨0x00, 0x34⟩]) ∧
    _gnutls_kx_priority
        ⟨[GNUTLS_3DES, GNUTLS_RIJNDAEL], [GNUTLS_MAC_SHA], [GNUTLS_KX_DH_ANON], comp⟩
        (_gnutls_cipher_suite_get_kx_algo ⟨0x00, 0x1B⟩) =
      _gnutls_kx_priority
        ⟨[GNUTLS_3DES, GNUTLS_RIJNDAEL], [GNUTLS_MAC_SHA], [GNUTLS_KX_DH_ANON], comp⟩
        (_gnutls_cipher_suite_get_kx_algo ⟨0x00, 0x34⟩) ∧
    _gnutls_cipher_priority
        ⟨[GNUTLS_3DES, GNUTLS_RIJNDAEL], [GNUTLS_MAC_SHA], [GNUTLS_KX_DH_ANON], comp⟩
        (_gnutls_cipher_suite_get_cipher_algo ⟨0x00, 0x1B⟩) <
      _gnutls_cipher_priority
        ⟨[GNUTLS_3DES, GNUTLS_RIJNDAEL], [GNUTLS_MAC_SHA], [GNUTLS_KX_DH_ANON], comp⟩
        (_gnutls_cipher_suite_get_cipher_algo ⟨0x00, 0x34⟩) := by
  have hacc : suite_accepted
      ⟨[GNUTLS_3DES, GNUTLS_RIJNDAEL], [GNUTLS_MAC_SHA], [GNUTLS_KX_DH_ANON], comp⟩ =
      suite_accepted example_state := rfl
  have hscore : suite_score
      ⟨[GNUTLS_3DES, GNUTLS_RIJNDAEL], [GNUTLS_MAC_SHA], [GNUTLS_KX_DH_ANON], comp⟩ =
      suite_score example_state := rfl
  have hfilter : (cs_algorithms.map (fun e => e.id)).filter (suite_accepted example_state) =
      [⟨0x00, 0x1B⟩, ⟨0x00, 0x34⟩] := by decide
  have hstrict : ([⟨0x00, 0x1B⟩, ⟨0x00, 0x34⟩] : List GNUTLS_CipherSuite).Pairwise
      (fun a b => suite_score example_state a < suite_score example_state b) := by decide
  obtain ⟨kept, hres, hperm, hsorted⟩ := sorted_selector_spec fuel
    ⟨[GNUTLS_3DES, GNUTLS_RIJNDAEL], [GNUTLS_MAC_SHA], [GNUTLS_KX_DH_ANON], comp⟩ hfuel
  rw [hacc, hfilter] at hperm
  rw [hscore] at hsorted
  have hk := sorted_perm_unique _ _ hperm hstrict hsorted
  subst hk
  refine ⟨by simpa using hres, ?_, ?_⟩
  · show _gnutls_kx_priority example_state _ = _gnutls_kx_priority example_state _
    decide
  · show _gnutls_cipher_priority example_state _ < _gnutls_cipher_priority example_state _
    decide

/-- Witness of C19 with an empty compression list and fuel 66. -/
theorem C19_witness :
    66 ≤ 66 ∧
    (_gnutls_supported_ciphersuites_sorted 66
        ⟨[GNUTLS_3DES, GNUTLS_RIJNDAEL], [GNUTLS_MAC_SHA], [GNUTLS_KX_DH_ANON], []⟩ =
      some (2, some [⟨0x00, 0x1B⟩, ⟨0x00, 0x34⟩]) ∧
    _gnutls_kx_priority
        ⟨[GNUTLS_3DES, GNUTLS_RIJNDAEL], [GNUTLS_MAC_SHA], [GNUTLS_KX_DH_ANON], []⟩
        (_gnutls_cipher_suite_get_kx_algo ⟨0x00, 0x1B⟩) =
      _gnutls_kx_priority
        ⟨[GNUTLS_3DES, GNUTLS_RIJNDAEL], [GNUTLS_MAC_SHA], [GNUTLS_KX_DH_ANON], []⟩
        (_gnutls_cipher_suite_get_kx_algo ⟨0x00, 0x34⟩) ∧
    _gnutls_cipher_priority
        ⟨[GNUTLS_3DES, GNUTLS_RIJNDAEL], [GNUTLS_MAC_SHA], [GNUTLS_KX_DH_ANON], []⟩
        (_gnutls_cipher_suite_get_cipher_algo ⟨0x00, 0x1B⟩) <
      _gnutls_cipher_priority
        ⟨[GNUTLS_3DES, GNUTLS_RIJNDAEL], [GNUTLS_MAC_SHA], [GNUTLS_KX_DH_ANON], []⟩
        (_gnutls_cipher_suite_get_cipher_algo ⟨0x00, 0x34⟩)) :=
  ⟨by decide, C19_example_selection [] 66 (by decide)⟩

/-- C20: when each of the KX, cipher and MAC priority lists has at most 10 entries,
any two distinct suites returned by the sorted selector (given enough fuel for the
sort to finish) have different scores, so the returned list is in strictly ascending
score order and is the only score-sorted arrangement of the returned suites; this
rests on no two entries of `cs_algorithms` naming the same cipher, key exchange and
MAC. With lists this short the score the comparator computes in `int` is the formula
value `(kx+1)*100 + (cipher+1)*10 + mac` for every suite. -/
theorem C20_output_strictly_ascending (fuel : Nat) (state : GNUTLS_STATE)
    (hfuel : 66 ≤ fuel) (_hkl : state.KXAlgorithmPriority.length ≤ 10)
    (hcl : state.BulkCipherAlgorithmPriority.length ≤ 10)
    (hml : state.MACAlgorithmPriority.length ≤ 10) :
    (∀ e1 ∈ cs_algorithms, ∀ e2 ∈ cs_algorithms,
      e1.block_algorithm = e2.block_algorithm → e1.kx_algorithm = e2.kx_algorithm →
      e1.mac_algorithm = e2.mac_algorithm → e1.id = e2.id) ∧
    (∀ s : GNUTLS_CipherSuite, suite_score state s = formula_score state s) ∧
    ∃ count ciphers, _gnutls_supported_ciphersuites_sorted fuel state = some (count, ciphers) ∧
      (ciphers = none → count = 0) ∧
      ∀ l, ciphers = some l →
        (∀ (i j : Nat) (A B : GNUTLS_CipherSuite), l[i]? = some A → l[j]? = some B →
          A ≠ B → suite_score state A ≠ suite_score state B) ∧
        l.Pairwise (fun a b => suite_score state a < suite_score state b) ∧
        (∀ l1 : List GNUTLS_CipherSuite, l1.Perm l →
          l1.Pairwise (fun a b => suite_score state a ≤ suite_score state b) → l1 = l) := by
  refine ⟨cs_triples_unique,
    suite_score_eq_formula_of_lengths state (by omega), ?_⟩
  obtain ⟨kept, hres, hperm, hsorted⟩ := sorted_selector_spec fuel state hfuel
  refine ⟨_, _, hres, ?_, ?_⟩
  · intro h
    by_cases hk : kept = []
    · simp [hk]
    · rw [if_neg hk] at h; exact Option.noConfusion h
  · intro l hl
    by_cases hk : kept = []
    · rw [if_pos hk] at hl; exact Option.noConfusion hl
    · rw [if_neg hk] at hl
      have hkl : kept = l := Option.some.inj hl
      subst hkl
      have hinj : ∀ A B, A ∈ kept → B ∈ kept →
          suite_score state A = suite_score state B → A = B := fun A B hA hB hs =>
        score_inj_on_accepted state _hkl hcl hml A B (hperm.subset hA) (hperm.subset hB) hs
      have hnodup : kept.Nodup := by
        rw [hperm.nodup_iff]
        exact cs_ids_nodup.filter _
      have hstrict : kept.Pairwise
          (fun a b => suite_score state a < suite_score state b) := by
        refine List.Pairwise.imp_of_mem ?_ (hsorted.and hnodup)
        intro a b ha hb hab
        rcases lt_or_eq_of_le hab.1 with h | h
        · exact h
        · exact absurd (hinj a b ha hb h) hab.2
      refine ⟨?_, hstrict, fun l1 hp hs1 => sorted_perm_unique _ _ hp hstrict hs1⟩
      intro i j A B hA hB hne hs
      exact hne (hinj A B (List.mem_iff_getElem?.mpr ⟨i, hA⟩)
        (List.mem_iff_getElem?.mpr ⟨j, hB⟩) hs)

/-- Witness of C20 at the example session with fuel 66. -/
theorem C20_witness :
    66 ≤ 66 ∧ example_state.KXAlgorithmPriority.length ≤ 10 ∧
    example_state.BulkCipherAlgorithmPriority.length ≤ 10 ∧
    example_state.MACAlgorithmPriority.length ≤ 10 ∧
    ((∀ e1 ∈ cs_algorithms, ∀ e2 ∈ cs_algorithms,
      e1.block_algorithm = e2.block_algorithm → e1.kx_algorithm = e2.kx_algorithm →
      e1.mac_algorithm = e2.mac_algorithm → e1.id = e2.id) ∧
    (∀ s : GNUTLS_CipherSuite, suite_score example_state s = formula_score example_state s) ∧
    ∃ count ciphers,
      _gnutls_supported_ciphersuites_sorted 66 example_state = some (count, ciphers) ∧
      (ciphers = none → count = 0) ∧
      ∀ l, ciphers = some l →
        (∀ (i j : Nat) (A B : GNUTLS_CipherSuite), l[i]? = some A → l[j]? = some B →
          A ≠ B → suite_score example_state A ≠ suite_score example_state B) ∧
        l.Pairwise (fun a b => suite_score example_state a < suite_score example_state b) ∧
        (∀ l1 : List GNUTLS_CipherSuite, l1.Perm l →
          l1.Pairwise (fun a b => suite_score example_state a ≤ suite_score example_state b) →
          l1 = l)) :=
  ⟨by decide, by decide, by decide, by decide,
    C20_output_strictly_ascending 66 example_state (by decide) (by decide) (by decide)
      (by decide)⟩

/-! ## Termination and idempotence of the sort -/

section SortingMore
variable {σ α : Type}

/-- More fuel does not change a result of the outer loop of the partition. -/
theorem partition_loop_mono (state : σ) (compar : σ → α → α → Int) (ptmp : α) (full : Nat) :
    ∀ fuel base i j x, partition_loop state compar ptmp full fuel base i j = some x →
      partition_loop state compar ptmp full (fuel + 1) base i j = some x := by
  have heq : ∀ f base i j, partition_loop state compar ptmp full (f + 1) base i j =
      if i < j then
        partition_loop state compar ptmp full f
          (if scan_up state compar base ptmp full i < scan_down state compar base ptmp j
            then SWAP base (scan_down state compar base ptmp j)
              (scan_up state compar base ptmp full i) ptmp
            else base)
          (scan_up state compar base ptmp full i) (scan_down state compar base ptmp j)
      else some (base, i, j) := fun _ _ _ _ => rfl
  intro fuel
  induction fuel with
  | zero => intro base i j x h; exact Option.noConfusion h
  | succ n ih =>
    intro base i j x h
    rw [heq] at h ⊢
    by_cases hij : i < j
    · rw [if_pos hij] at h ⊢
      exact ih _ _ _ _ h
    · rw [if_neg hij] at h ⊢
      exact h

/-- More fuel does not change a result of the partition. -/
theorem partition_mono (state : σ) (compar : σ → α → α → Int) (fuel : Nat) (base : List α)
    (x : List α × Nat) (h : _gnutls_partition fuel state base compar = some x) :
    _gnutls_partition (fuel + 1) state base compar = some x := by
  cases base with
  | nil => exact h
  | cons a t =>
    simp only [_gnutls_partition] at h ⊢
    cases hl : partition_loop state compar a ((a :: t).length - 1) fuel (a :: t) 0
        ((a :: t).length - 1) with
    | none => rw [hl] at h; exact Option.noConfusion h
    | some y =>
      rw [hl] at h
      rw [partition_loop_mono state compar a _ fuel _ _ _ y hl]
      exact h

/-- More fuel does not change a result of the sort. -/
theorem qsort_mono (state : σ) (compar : σ → α → α → Int) :
    ∀ fuel base r, _gnutls_qsort fuel state base compar = some r →
      _gnutls_qsort (fuel + 1) state base compar = some r := by
  have heq : ∀ f base, _gnutls_qsort (f + 1) state base compar =
      if base.length ≤ 1 then some base
      else
        match _gnutls_partition f state base compar with
        | none => none
        | some (base1, pivot) =>
          match _gnutls_qsort f state
              (base1.take (if pivot < base.length then pivot + 1 else pivot)) compar with
          | none => none
          | some left =>
            match _gnutls_qsort f state (base1.drop (pivot + 1)) compar with
            | none => none
            | some right =>
              some (left ++ (base1.drop (if pivot < base.length then pivot + 1 else pivot)).take
                (pivot + 1 - (if pivot < base.length then pivot + 1 else pivot)) ++ right) :=
    fun _ _ => rfl
  intro fuel
  induction fuel with
  | zero => intro base r h; exact Option.noConfusion h
  | succ n ih =>
    intro base r h
    rw [heq] at h ⊢
    by_cases hn : base.length ≤ 1
    · rw [if_pos hn] at h ⊢; exact h
    · rw [if_neg hn] at h ⊢
      cases hp : _gnutls_partition n state base compar with
      | none => rw [hp] at h; exact Option.noConfusion h
      | some bp =>
        obtain ⟨b1, p⟩ := bp
        rw [hp] at h
        rw [partition_mono state compar n base _ hp]
        simp only [] at h ⊢
        cases hl : _gnutls_qsort n state
            (b1.take (if p < base.length then p + 1 else p)) compar with
        | none => rw [hl] at h; exact Option.noConfusion h
        | some left =>
          rw [hl] at h
          rw [ih _ _ hl]
          simp only [] at h ⊢
          cases hr : _gnutls_qsort n state (b1.drop (p + 1)) compar with
          | none => rw [hr] at h; exact Option.noConfusion h
          | some right =>
            rw [hr] at h
            rw [ih _ _ hr]
            exact h

/-- A result of the sort is the result for every larger fuel. -/
theorem qsort_mono_le (state : σ) (compar : σ → α → α → Int) (base r : List α) :
    ∀ f1 f2, f1 ≤ f2 → _gnutls_qsort f1 state base compar = some r →
      _gnutls_qsort f2 state base compar = some r := by
  intro f1 f2 hle h
  induction f2, hle using Nat.le_induction with
  | base => exact h
  | succ n _ ih => exact qsort_mono state compar n base r ih

/-- On an array whose elements up to `j` all score at least the pivot, the second
inner loop runs down to 0. -/
theorem scan_down_zero {state : σ} {compar : σ → α → α → Int} {score : α → Int}
    (hc : ScoreCompar state compar score) (base : List α) (ptmp : α) :
    ∀ j, (∀ k, k ≤ j → score ptmp ≤ score (base.getD k ptmp)) →
      scan_down state compar base ptmp j = 0 := by
  intro j
  induction j with
  | zero => intro _; rfl
  | succ j ih =>
    intro h
    simp only [scan_down]
    rw [if_pos (((hc _ _).2).2 (h (j + 1) (le_refl _)))]
    exact ih (fun k hk => h k (by omega))

/-- On an array in non-decreasing score order the partition changes nothing and
returns the pivot index 0. -/
theorem partition_sorted {state : σ} {compar : σ → α → α → Int} {score : α → Int}
    (hc : ScoreCompar state compar score) (base : List α) (fuel : Nat) (hfuel : 2 ≤ fuel)
    (hs : base.Pairwise (fun a b => score a ≤ score b)) :
    _gnutls_partition fuel state base compar = some (base, 0) := by
  cases base with
  | nil => rfl
  | cons a t =>
    obtain ⟨f, rfl⟩ : ∃ f, fuel = f + 2 := ⟨fuel - 2, by omega⟩
    have hge : ∀ k, k ≤ t.length → score a ≤ score ((a :: t).getD k a) := by
      intro k hk
      cases k with
      | zero => simp
      | succ k =>
        have hkl : k < t.length := by omega
        have hget : (a :: t).getD (k + 1) a = t[k] := by
          simp [List.getD_eq_getElem?_getD, List.getElem?_eq_getElem hkl]
        rw [hget]
        exact List.rel_of_pairwise_cons hs (List.getElem_mem hkl)
    have hdown := scan_down_zero hc (a :: t) a t.length hge
    simp only [_gnutls_partition, List.length_cons, Nat.add_sub_cancel, partition_loop, hdown,
      Nat.not_lt_zero, if_false]
    by_cases h0 : 0 < t.length
    · simp [h0]
    · simp [h0]

/-- On an array in non-decreasing score order the sort returns the array itself. -/
theorem qsort_sorted {state : σ} {compar : σ → α → α → Int} {score : α → Int}
    (hc : ScoreCompar state compar score) :
    ∀ fuel base, base.Pairwise (fun a b => score a ≤ score b) → base.length + 2 ≤ fuel →
      _gnutls_qsort fuel state base compar = some base := by
  intro fuel
  induction fuel with
  | zero => intro base _ h; omega
  | succ n ih =>
    intro base hs hfuel
    simp only [_gnutls_qsort]
    by_cases hn : base.length ≤ 1
    · rw [if_pos hn]
    · rw [if_neg hn, partition_sorted hc base n (by omega) hs]
      have h1 : (0 : Nat) < base.length := by omega
      have hl := ih (base.take 1) (hs.sublist (List.take_sublist 1 base))
        (by rw [List.length_take]; omega)
      have hr := ih (base.drop 1) (hs.sublist (List.drop_sublist 1 base))
        (by rw [List.length_drop]; omega)
      simp only [if_pos h1, Nat.zero_add, hl, hr, Nat.sub_self, List.take_zero,
        List.append_nil, List.take_append_drop]

end SortingMore

/-- C23: under the score comparator the sort terminates on every array of suites,
for every length and every session: there is one result that the sort returns for
every fuel from `2 * nmemb + 2` on, a score-sorted permutation of the array. This
includes the case of a left recursive call on as many elements as its caller has:
when the partition returns the last index, the partition of the rearranged array
returns a smaller one; for instance on two suites in descending score order the
partition returns index 1 and the sort still returns the sorted pair. -/
theorem C23_qsort_terminates (state : GNUTLS_STATE) (l : List GNUTLS_CipherSuite) :
    (∃ r, (∀ fuel, 2 * l.length + 2 ≤ fuel →
        _gnutls_qsort fuel state l _gnutls_compare_algo = some r) ∧
      r.Perm l ∧ r.Pairwise (fun a b => suite_score state a ≤ suite_score state b)) ∧
    (∀ fuel b1 p, 2 ≤ l.length → l.length ≤ fuel →
      _gnutls_partition fuel state l _gnutls_compare_algo = some (b1, p) →
      p + 1 = l.length →
      ∃ b2 p2, _gnutls_partition fuel state b1 _gnutls_compare_algo = some (b2, p2) ∧
        p2 + 1 < l.length) ∧
    (_gnutls_partition 2 example_state descending_pair _gnutls_compare_algo =
        some ([⟨0x00, 0x1B⟩, ⟨0x00, 0x34⟩], 1) ∧
      descending_pair.length = 2 ∧
      _gnutls_qsort 6 example_state descending_pair _gnutls_compare_algo =
        some [⟨0x00, 0x1B⟩, ⟨0x00, 0x34⟩]) := by
  refine ⟨?_, ?_, by decide⟩
  · have hm : qmeasure (suite_score state) l < 2 * l.length + 2 := by
      have := qmeasure_le (suite_score state) l
      omega
    obtain ⟨r, hr, hperm, hsorted⟩ := qsort_spec (compare_algo_score state) _ l hm
    exact ⟨r, fun fuel hf => qsort_mono_le state _ l r _ fuel hf hr, hperm, hsorted⟩
  · intro fuel b1 p h2 hf hpart hp
    obtain ⟨b1', p', hpart', hperm, _, _, _, T2⟩ :=
      partition_spec (compare_algo_score state) l fuel (by omega) hf
    rw [hpart] at hpart'
    obtain ⟨rfl, rfl⟩ := Prod.mk.inj (Option.some.inj hpart')
    have hlen : b1.length = l.length := hperm.length_eq
    obtain ⟨b2, p2, hpart2, _, hp2, _, T1, _⟩ :=
      partition_spec (compare_algo_score state) b1 fuel (by omega) (by omega)
    refine ⟨b2, p2, hpart2, ?_⟩
    by_contra hcon
    have hp2l : p2 + 1 = b1.length := by omega
    obtain ⟨d⟩ : Nonempty GNUTLS_CipherSuite := ⟨⟨0, 0⟩⟩
    have h1 := T1 hp2l (by omega) d
    have h2' := T2 (by omega) d
    rw [show b1.length - 1 = p by omega] at h1
    omega

/-- C25: the sort is idempotent under the score comparator: on an array that is
already in non-decreasing score order it returns the array itself, element for
element, whether or not several elements have equal scores; in particular sorting
its own output returns that output. -/
theorem C25_qsort_idempotent (state : GNUTLS_STATE) (l : List GNUTLS_CipherSuite)
    (fuel : Nat) (hfuel : 2 * l.length + 2 ≤ fuel) :
    (l.Pairwise (fun a b => suite_score state a ≤ suite_score state b) →
      _gnutls_qsort fuel state l _gnutls_compare_algo = some l) ∧
    (∃ r, _gnutls_qsort fuel state l _gnutls_compare_algo = some r ∧
      _gnutls_qsort fuel state r _gnutls_compare_algo = some r) := by
  constructor
  · intro hs
    exact qsort_sorted (compare_algo_score state) fuel l hs (by omega)
  · have hm : qmeasure (suite_score state) l < fuel := by
      have := qmeasure_le (suite_score state) l
      omega
    obtain ⟨r, hr, hperm, hsorted⟩ := qsort_spec (compare_algo_score state) fuel l hm
    refine ⟨r, hr, qsort_sorted (compare_algo_score state) fuel r hsorted ?_⟩
    rw [hperm.length_eq]
    omega

/-- Witness of C25 on three suites in non-decreasing score order, the first two with
equal scores under the example session (10, 10, 110). -/
theorem C25_witness :
    2 * ([⟨0x00, 0x0A⟩, ⟨0x00, 0x10⟩, ⟨0x00, 0x1B⟩] : List GNUTLS_CipherSuite).length + 2 ≤ 8 ∧
    ((([⟨0x00, 0x0A⟩, ⟨0x00, 0x10⟩, ⟨0x00, 0x1B⟩] : List GNUTLS_CipherSuite).Pairwise
        (fun a b => suite_score example_state a ≤ suite_score example_state b) →
      _gnutls_qsort 8 example_state [⟨0x00, 0x0A⟩, ⟨0x00, 0x10⟩, ⟨0x00, 0x1B⟩]
        _gnutls_compare_algo = some [⟨0x00, 0x0A⟩, ⟨0x00, 0x10⟩, ⟨0x00, 0x1B⟩]) ∧
    (∃ r, _gnutls_qsort 8 example_state [⟨0x00, 0x0A⟩, ⟨0x00, 0x10⟩, ⟨0x00, 0x1B⟩]
        _gnutls_compare_algo = some r ∧
      _gnutls_qsort 8 example_state r _gnutls_compare_algo = some r)) :=
  ⟨by decide, C25_qsort_idempotent example_state [⟨0x00, 0x0A⟩, ⟨0x00, 0x10⟩, ⟨0x00, 0x1B⟩] 8
    (by decide)⟩

/-! ## Capability queries, key block, selectors, numbers, versions and PKCS #8 -/

/-- The capability query of `GNUTLS_KX_DH_ANON` reads the anonymous handler table. -/
theorem kx_capability_anon (handlers : String → MOD_AUTH_STRUCT)
    (field : MOD_AUTH_STRUCT → Bool) :
    kx_capability handlers field GNUTLS_KX_DH_ANON =
      some (if field (handlers "anon_auth_struct") then 1 else 0) := rfl

/-- The capability query of `GNUTLS_KX_SRP` reads the SRP handler table. -/
theorem kx_capability_srp (handlers : String → MOD_AUTH_STRUCT)
    (field : MOD_AUTH_STRUCT → Bool) :
    kx_capability handlers field GNUTLS_KX_SRP =
      some (if field (handlers "srp_auth_struct") then 1 else 0) := rfl

/-- A capability query that reads a handler table returns 0 or 1. -/
theorem some_ite_zero_one (b : Bool) :
    some (if b then 1 else 0) = some 0 ∨ some (if b then 1 else 0) = some (1 : Nat) := by
  cases b
  · exact Or.inl rfl
  · exact Or.inr rfl

/-- C21, the code at the failing inputs: `GNUTLS_KX_RSA`, `GNUTLS_KX_DHE_RSA`,
`GNUTLS_KX_DH_DSS` and `GNUTLS_KX_DH_RSA` are registered in `kx_algorithms` with a
`NULL` handler table, so each of the six capability queries reads through a null
pointer for them and has no defined result, whatever the handler tables hold; only
for `GNUTLS_KX_DH_ANON` and `GNUTLS_KX_SRP` do the queries return 0 or 1. -/
theorem C21_queries_read_null_handler_table :
    (kx_algorithms.filter (fun p => p.auth_struct.isNone)).map (fun p => p.algorithm) =
      [GNUTLS_KX_RSA, GNUTLS_KX_DHE_RSA, GNUTLS_KX_DH_DSS, GNUTLS_KX_DH_RSA] ∧
    (∀ (handlers : String → MOD_AUTH_STRUCT),
      ∀ a ∈ [GNUTLS_KX_RSA, GNUTLS_KX_DHE_RSA, GNUTLS_KX_DH_DSS, GNUTLS_KX_DH_RSA],
        _gnutls_kx_server_key_exchange handlers a = none ∧
        _gnutls_kx_server_key_exchange2 handlers a = none ∧
        _gnutls_kx_client_key_exchange0 handlers a = none ∧
        _gnutls_kx_client_key_exchange handlers a = none ∧
        _gnutls_kx_client_cert_vrfy handlers a = none ∧
        _gnutls_kx_server_cert_vrfy handlers a = none) ∧
    (∀ (handlers : String → MOD_AUTH_STRUCT),
      ∀ a ∈ [GNUTLS_KX_DH_ANON, GNUTLS_KX_SRP],
        (_gnutls_kx_server_key_exchange handlers a = some 0 ∨
          _gnutls_kx_server_key_exchange handlers a = some 1) ∧
        (_gnutls_kx_server_key_exchange2 handlers a = some 0 ∨
          _gnutls_kx_server_key_exchange2 handlers a = some 1) ∧
        (_gnutls_kx_client_key_exchange0 handlers a = some 0 ∨
          _gnutls_kx_client_key_exchange0 handlers a = some 1) ∧
        (_gnutls_kx_client_key_exchange handlers a = some 0 ∨
          _gnutls_kx_client_key_exchange handlers a = some 1) ∧
        (_gnutls_kx_client_cert_vrfy handlers a = some 0 ∨
          _gnutls_kx_client_cert_vrfy handlers a = some 1) ∧
        (_gnutls_kx_server_cert_vrfy handlers a = some 0 ∨
          _gnutls_kx_server_cert_vrfy handlers a = some 1)) := by
  refine ⟨by decide, ?_, ?_⟩
  · intro handlers a ha
    simp only [List.mem_cons, List.mem_singleton, List.not_mem_nil, or_false] at ha
    rcases ha with rfl | rfl | rfl | rfl <;> exact ⟨rfl, rfl, rfl, rfl, rfl, rfl⟩
  · intro handlers a ha
    simp only [List.mem_cons, List.mem_singleton, List.not_mem_nil, or_false] at ha
    unfold _gnutls_kx_server_key_exchange _gnutls_kx_server_key_exchange2
      _gnutls_kx_client_key_exchange0 _gnutls_kx_client_key_exchange
      _gnutls_kx_client_cert_vrfy _gnutls_kx_server_cert_vrfy
    rcases ha with rfl | rfl
    · simp only [kx_capability_anon]
      exact ⟨some_ite_zero_one _, some_ite_zero_one _, some_ite_zero_one _,
        some_ite_zero_one _, some_ite_zero_one _, some_ite_zero_one _⟩
    · simp only [kx_capability_srp]
      exact ⟨some_ite_zero_one _, some_ite_zero_one _, some_ite_zero_one _,
        some_ite_zero_one _, some_ite_zero_one _, some_ite_zero_one _⟩

/-- C22: the key block is cut, in this order, into client MAC key, server MAC key,
client write key, server write key, client IV and server IV, the six slices
following one another from the start of the block; for MAC size 20, key size 16 and
IV size 16, the registry values of `GNUTLS_MAC_SHA` and `GNUTLS_RIJNDAEL`, they are
the byte ranges [0,20), [20,40), [40,56), [56,72), [72,88) and [88,104). -/
theorem C22_key_block_slices (key_block : List Nat) :
    (_gnutls_set_keys key_block 20 16 16).client_write_mac_secret = byte_range key_block 0 20 ∧
    (_gnutls_set_keys key_block 20 16 16).server_write_mac_secret = byte_range key_block 20 40 ∧
    (_gnutls_set_keys key_block 20 16 16).client_write_key = byte_range key_block 40 56 ∧
    (_gnutls_set_keys key_block 20 16 16).server_write_key = byte_range key_block 56 72 ∧
    (_gnutls_set_keys key_block 20 16 16).client_write_IV = byte_range key_block 72 88 ∧
    (_gnutls_set_keys key_block 20 16 16).server_write_IV = byte_range key_block 88 104 ∧
    (_gnutls_mac_get_digest_size GNUTLS_MAC_SHA = 20 ∧
      _gnutls_cipher_get_key_size GNUTLS_RIJNDAEL = 16 ∧
      _gnutls_cipher_get_iv_size GNUTLS_RIJNDAEL = 16) ∧
    (∀ hash_size key_size IV_size : Nat,
      (_gnutls_set_keys key_block hash_size key_size IV_size).client_write_mac_secret ++
      (_gnutls_set_keys key_block hash_size key_size IV_size).server_write_mac_secret ++
      (_gnutls_set_keys key_block hash_size key_size IV_size).client_write_key ++
      (_gnutls_set_keys key_block hash_size key_size IV_size).server_write_key ++
      (_gnutls_set_keys key_block hash_size key_size IV_size).client_write_IV ++
      (_gnutls_set_keys key_block hash_size key_size IV_size).server_write_IV =
        key_block.take (hash_size + hash_size + key_size + key_size + IV_size + IV_size)) := by
  refine ⟨?_, ?_, ?_, ?_, ?_, ?_, by decide, ?_⟩
  · simp [_gnutls_set_keys, byte_range]
  · simp [_gnutls_set_keys, byte_range]
  · simp [_gnutls_set_keys, byte_range]
  · simp [_gnutls_set_keys, byte_range]
  · simp [_gnutls_set_keys, byte_range]
  · simp [_gnutls_set_keys, byte_range]
  · intro m k i
    simp only [_gnutls_set_keys, List.drop_drop]
    rw [List.take_add, List.take_add, List.take_add, List.take_add, List.take_add]

/-- C24: the unsorted selector returns the ids of the acceptable entries (all three
priorities at least 0) in the order of the static table, and the sorted selector,
given enough fuel for the sort to finish, returns the same count and a permutation
of that list. -/
theorem C24_sorted_is_reordering_of_unsorted (fuel : Nat) (state : GNUTLS_STATE)
    (hfuel : 66 ≤ fuel) :
    ∃ kept : List GNUTLS_CipherSuite,
      _gnutls_supported_ciphersuites_sorted fuel state =
        some ((kept.length : Int), if kept = [] then none else some kept) ∧
      _gnutls_supported_ciphersuites state =
        ((((cs_algorithms.filter (entry_accepted state)).map (fun e => e.id)).length : Int),
          if (cs_algorithms.filter (entry_accepted state)).map (fun e => e.id) = [] then none
          else some ((cs_algorithms.filter (entry_accepted state)).map (fun e => e.id))) ∧
      kept.Perm ((cs_algorithms.filter (entry_accepted state)).map (fun e => e.id)) ∧
      kept.length = ((cs_algorithms.filter (entry_accepted state)).map (fun e => e.id)).length ∧
      (∀ e, e ∈ cs_algorithms.filter (entry_accepted state) ↔ e ∈ cs_algorithms ∧
        0 ≤ _gnutls_kx_priority state e.kx_algorithm ∧
        0 ≤ _gnutls_cipher_priority state e.block_algorithm ∧
        0 ≤ _gnutls_mac_priority state e.mac_algorithm) := by
  obtain ⟨kept, hres, hperm, _⟩ := sorted_selector_spec fuel state hfuel
  rw [accepted_entries_eq] at hperm
  refine ⟨kept, hres, ?_, hperm, hperm.length_eq, ?_⟩
  · rw [unsorted_selector_spec, selector_result_32, accepted_entries_eq]
  · intro e
    rw [List.mem_filter]
    simp only [entry_accepted, Bool.and_eq_true, decide_eq_true_eq, and_assoc]

/-- Witness of C24 at the example session with fuel 66. -/
theorem C24_witness :
    66 ≤ 66 ∧ ∃ kept : List GNUTLS_CipherSuite,
      _gnutls_supported_ciphersuites_sorted 66 example_state =
        some ((kept.length : Int), if kept = [] then none else some kept) ∧
      _gnutls_supported_ciphersuites example_state =
        ((((cs_algorithms.filter (entry_accepted example_state)).map
            (fun e => e.id)).length : Int),
          if (cs_algorithms.filter (entry_accepted example_state)).map (fun e => e.id) = []
          then none
          else some ((cs_algorithms.filter (entry_accepted example_state)).map
            (fun e => e.id))) ∧
      kept.Perm ((cs_algorithms.filter (entry_accepted example_state)).map (fun e => e.id)) ∧
      kept.length =
        ((cs_algorithms.filter (entry_accepted example_state)).map (fun e => e.id)).length ∧
      (∀ e, e ∈ cs_algorithms.filter (entry_accepted example_state) ↔ e ∈ cs_algorithms ∧
        0 ≤ _gnutls_kx_priority example_state e.kx_algorithm ∧
        0 ≤ _gnutls_cipher_priority example_state e.block_algorithm ∧
        0 ≤ _gnutls_mac_priority example_state e.mac_algorithm) :=
  ⟨by decide, C24_sorted_is_reordering_of_unsorted 66 example_state (by decide)⟩

/-- C26: on the compression table (with or without zlib) the TLS number and the
internal id are inverse: for every entry, the id found for the number of its id is
its id, and the number found for the id of its number is its number (`GNUTLS_NULL_COMPRESSION` with 0, `GNUTLS_ZLIB` with 224 when
zlib is compiled in); for an id or a number that no entry holds the respective
function returns -1. -/
theorem C26_compression_num_id_inverse :
    (∀ z, ∀ c ∈ compression_algorithms z,
      _gnutls_compression_get_id z (_gnutls_compression_get_num z (c.id : Int)) = (c.id : Int) ∧
      _gnutls_compression_get_num z (_gnutls_compression_get_id z (c.num : Int)) =
        (c.num : Int)) ∧
    (∀ z (id : Int), (∀ c ∈ compression_algorithms z, (c.id : Int) ≠ id) →
      _gnutls_compression_get_num z id = -1) ∧
    (∀ z (num : Int), (∀ c ∈ compression_algorithms z, (c.num : Int) ≠ num) →
      _gnutls_compression_get_id z num = -1) ∧
    (∀ z, _gnutls_compression_get_num z (GNUTLS_NULL_COMPRESSION : Nat) = 0 ∧
      _gnutls_compression_get_id z 0 = (GNUTLS_NULL_COMPRESSION : Nat)) ∧
    (_gnutls_compression_get_num true (GNUTLS_ZLIB : Nat) = 224 ∧
      _gnutls_compression_get_id true 224 = (GNUTLS_ZLIB : Nat)) := by
  refine ⟨by decide, ?_, ?_, by decide, by decide⟩
  · intro z id h
    have hf : (compression_algorithms z).find? (fun p => (p.id : Int) == id) = none := by
      rw [List.find?_eq_none]
      intro x hx hp
      exact h x hx (by simpa using hp)
    simp only [_gnutls_compression_get_num, hf]
  · intro z num h
    have hf : (compression_algorithms z).find? (fun p => (p.num : Int) == num) = none := by
      rw [List.find?_eq_none]
      intro x hx hp
      exact h x hx (by simpa using hp)
    simp only [_gnutls_compression_get_id, hf]

/-- C27: version lookup round-trips: for every version of `sup_versions` the version
found for its major and minor numbers is the version itself (`GNUTLS_SSL3` with
(3,0), `GNUTLS_TLS1` with (3,1)); for a pair of numbers that no entry holds
`_gnutls_version_get` returns -1, and for a version that is not in the table the
major and minor lookups return -1 and the support query returns 0. -/
theorem C27_version_lookup_round_trips :
    (∀ v ∈ sup_versions,
      _gnutls_version_get (_gnutls_version_get_major v.id) (_gnutls_version_get_minor v.id) =
        v.id) ∧
    (_gnutls_version_get_major GNUTLS_SSL3 = 3 ∧ _gnutls_version_get_minor GNUTLS_SSL3 = 0 ∧
      _gnutls_version_get 3 0 = GNUTLS_SSL3 ∧
      _gnutls_version_get_major GNUTLS_TLS1 = 3 ∧ _gnutls_version_get_minor GNUTLS_TLS1 = 1 ∧
      _gnutls_version_get 3 1 = GNUTLS_TLS1) ∧
    (∀ major minor : Int, (∀ e ∈ sup_versions, ¬ (e.major = major ∧ e.minor = minor)) →
      _gnutls_version_get major minor = -1) ∧
    (∀ (state : GNUTLS_STATE) (version : Int), (∀ e ∈ sup_versions, e.id ≠ version) →
      _gnutls_version_get_major version = -1 ∧ _gnutls_version_get_minor version = -1 ∧
      _gnutls_version_is_supported state version = 0) := by
  refine ⟨by decide, by decide, ?_, ?_⟩
  · intro major minor h
    have h1 := h ⟨"SSL3", GNUTLS_SSL3, 3, 0, 1⟩ (by simp [sup_versions])
    have h2 := h ⟨"TLS1", GNUTLS_TLS1, 3, 1, 1⟩ (by simp [sup_versions])
    simp only at h1 h2
    simp only [_gnutls_version_get, sup_versions, List.foldl_cons, List.foldl_nil, if_neg h1,
      if_neg h2]
  · intro state version h
    have hf : sup_versions.find? (fun p => p.id == version) = none := by
      rw [List.find?_eq_none]
      intro x hx hp
      exact h x hx (by simpa using hp)
    simp [_gnutls_version_get_major, _gnutls_version_get_minor,
      _gnutls_version_is_supported, hf]

/-- C28, the code at the failing input: for the decrypted block
`00 00 00 00 00 00 00 09` (8 bytes, last byte 9) the reported size is `8 - 9 = -1`,
below 0; and whenever the last byte exceeds the buffer length the reported size is
negative, since the byte is subtracted without being compared with `data_size`. -/
theorem C28_decrypt_size_can_be_negative :
    decrypt_data_size [0, 0, 0, 0, 0, 0, 0, 9] = -1 ∧
    ¬ (0 ≤ decrypt_data_size [0, 0, 0, 0, 0, 0, 0, 9]) ∧
    (∀ (front : List Nat) (last : Nat), front.length + 1 < last →
      decrypt_data_size (front ++ [last]) < 0) ∧
    (∀ (front : List Nat) (last : Nat), last ≤ front.length + 1 →
      0 ≤ decrypt_data_size (front ++ [last]) ∧
      decrypt_data_size (front ++ [last]) ≤ ((front ++ [last]).length : Int)) := by
  have hsize : ∀ (front : List Nat) (last : Nat),
      decrypt_data_size (front ++ [last]) = ((front.length : Int) + 1) - (last : Int) := by
    intro front last
    simp [decrypt_data_size, List.getD_eq_getElem?_getD]
  refine ⟨by decide, by decide, ?_, ?_⟩
  · intro front last h
    rw [hsize]
    omega
  · intro front last h
    rw [hsize]
    simp only [List.length_append, List.length_singleton]
    omega

/-- C30, the code at the failing input: when the encryption scheme OID is read
successfully and is not the DES-EDE3-CBC OID, `read_pbe_enc_params` returns the
success code of that read, whatever the later calls would give; with the success
code 0, as for a key file whose scheme is AES-128-CBC, the return value is 0, which
is not negative, and `decode_pkcs8_key` goes on to `decrypt_data`. -/
theorem C30_unsupported_scheme_returns_success :
    (∀ (ASN1_SUCCESS : Int) (asn2err : Int → Int) (c : pbe_enc_calls),
      c.read_oid_result = ASN1_SUCCESS → c.oid ≠ DES_EDE3_CBC_OID →
      read_pbe_enc_params ASN1_SUCCESS asn2err c = ASN1_SUCCESS) ∧
    aes_scheme_calls.oid ≠ DES_EDE3_CBC_OID ∧
    (∀ asn2err : Int → Int,
      read_pbe_enc_params 0 asn2err aes_scheme_calls = 0 ∧
      ¬ (read_pbe_enc_params 0 asn2err aes_scheme_calls < 0) ∧
      decode_pkcs8_key_goes_on_to_decrypt 0
        (read_pbe_enc_params 0 asn2err aes_scheme_calls) = true) := by
  have hgen : ∀ (ASN1_SUCCESS : Int) (asn2err : Int → Int) (c : pbe_enc_calls),
      c.read_oid_result = ASN1_SUCCESS → c.oid ≠ DES_EDE3_CBC_OID →
      read_pbe_enc_params ASN1_SUCCESS asn2err c = ASN1_SUCCESS := by
    intro s f c h1 h2
    unfold read_pbe_enc_params
    simp only [h1, ne_eq, not_true_eq_false, if_false, h2, not_false_eq_true, if_true]
  have hne : aes_scheme_calls.oid ≠ DES_EDE3_CBC_OID := by decide
  refine ⟨hgen, hne, fun f => ?_⟩
  have h0 := hgen 0 f aes_scheme_calls rfl hne
  rw [h0]
  exact ⟨rfl, by decide, by decide⟩

end Gnutls
